import Mathlib

/-!
Verification of the docstring-to-MDC rendering pipeline of
`pydoc_markdown_nuxt` (files `renderer.py` and `utils.py`).

Strings are modelled as `List Char`.  Python's `str.lower`, `\s`, `\w`
and friends act here on the ASCII range, matching their behaviour on the
ASCII documents the renderer processes.
-/

/-- Convert a Lean string literal to the `List Char` representation used
throughout this development. -/
def strL (s : String) : List Char := s.toList

/-- ASCII uppercase test, the `[A-Z]` character class of Python's `re`. -/
def isUpperA (c : Char) : Bool := 65 ≤ c.toNat && c.toNat ≤ 90

/-- ASCII lowercase test. -/
def isLowerA (c : Char) : Bool := 97 ≤ c.toNat && c.toNat ≤ 122

/-- Python `str.lower` on a single character (ASCII range, as exercised by
the renderer's component names). -/
def pyLower (c : Char) : Char :=
  if isUpperA c then Char.ofNat (c.toNat + 32) else c

/-- Python `str.lower` over a whole string. -/
def pyLowerL (s : List Char) : List Char := s.map pyLower

theorem pyLower_toNat (c : Char) (h : isUpperA c = true) :
    (pyLower c).toNat = c.toNat + 32 := by
  have hv : (c.toNat + 32).isValidChar := by
    simp only [isUpperA, Bool.and_eq_true, decide_eq_true_eq] at h
    exact Or.inl (by omega)
  simp [pyLower, h, Char.ofNat, hv]
  rfl

theorem pyLower_not_upper (c : Char) (h : isUpperA c = false) :
    pyLower c = c := by
  simp [pyLower, h]

theorem isUpperA_pyLower (c : Char) : isUpperA (pyLower c) = false := by
  by_cases h : isUpperA c
  · have ht := pyLower_toNat c h
    simp only [isUpperA, ht, Bool.and_eq_false_iff, decide_eq_false_iff_not]
    simp only [isUpperA, Bool.and_eq_true, decide_eq_true_eq] at h
    omega
  · rw [pyLower_not_upper c (by simpa using h)]
    simpa using h

theorem pyLower_idem (c : Char) : pyLower (pyLower c) = pyLower c :=
  pyLower_not_upper _ (isUpperA_pyLower c)

/-- Source: `utils._convert_to_kebab_case`, the dash-insertion part of the
regex `re.sub(r"(?<!^)(?=[A-Z])", "-", component_name)`: a dash is inserted
before every `[A-Z]` character that is not the first character. -/
def insertDashes : List Char → List Char
  | [] => []
  | c :: rest => c :: rest.flatMap (fun d => if isUpperA d then ['-', d] else [d])

/-- Source: `utils._convert_to_kebab_case`.  If the name already contains a
dash it is returned lower-cased; otherwise dashes are inserted before
non-initial uppercase letters and the result is lower-cased. -/
def convert_to_kebab_case (s : List Char) : List Char :=
  if s.contains '-' then pyLowerL s
  else pyLowerL (insertDashes s)

theorem kebab_example1 : convert_to_kebab_case (strL "UCodeGroup") = strL "u-code-group" := by
  decide

theorem kebab_example2 : convert_to_kebab_case (strL "u-alert") = strL "u-alert" := by
  decide

/-! ## MDC component builders (`utils.py`) -/

/-- An item with `name`, `type` and `content` keys, as passed to the MDC
component builders (`utils.create_mdc_variables` and friends receive a
list of dicts with these keys). -/
structure MdcItem where
  name : List Char
  type : List Char
  content : List Char
deriving DecidableEq

/-- One item of the YAML-style body emitted by `utils.create_mdc_variables`
and `utils.create_mdc_arguments`. -/
def itemYaml (it : MdcItem) : List Char :=
  strL "  - name: " ++ it.name ++ strL "\n    type: " ++ it.type ++
    strL "\n    content: " ++ it.content ++ strL "\n"

/-- Source: `utils.create_mdc_variables`. -/
def create_mdc_variables (items : List MdcItem) (component : List Char) : List Char :=
  strL "::" ++ convert_to_kebab_case component ++ strL "\n" ++
    (strL "---\nvariables:\n" ++ items.flatMap itemYaml ++ strL "---") ++ strL "\n::"

/-- Source: `utils.create_mdc_arguments`. -/
def create_mdc_arguments (items : List MdcItem) (component : List Char) : List Char :=
  strL "::" ++ convert_to_kebab_case component ++ strL "\n" ++
    (strL "---\narguments:\n" ++ items.flatMap itemYaml ++ strL "---") ++ strL "\n::"

/-- Source: `utils.create_mdc_alert`.  The `title` argument is optional in
the source; both call sites in the renderer pass a title. -/
def create_mdc_alert (content : List Char) (type : List Char) (title : Option (List Char))
    (component : List Char) : List Char :=
  strL "::" ++ convert_to_kebab_case component ++ strL "\x7btype=\"" ++ type ++ strL "\"" ++
    (match title with
     | some t => strL " title=\"" ++ t ++ strL "\""
     | none => []) ++
    strL "\x7d\n" ++ content ++ strL "\n::"

/-- A code block record (`language`, `filename`, `code` keys) as consumed by
`utils.create_mdc_code_group`. -/
structure CodeBlock where
  language : List Char
  filename : List Char
  code : List Char
deriving DecidableEq

/-- One fenced sub-block of `utils.create_mdc_code_group`. -/
def codeGroupEntry (b : CodeBlock) : List Char :=
  (if b.filename ≠ [] then strL "```" ++ b.language ++ strL " [" ++ b.filename ++ strL "]\n"
   else strL "```" ++ b.language ++ strL "\n") ++
    b.code ++ strL "\n```\n"

/-- Source: `utils.create_mdc_code_group`. -/
def create_mdc_code_group (blocks : List CodeBlock) (component : List Char) : List Char :=
  strL "::" ++ convert_to_kebab_case component ++ strL "\n" ++
    blocks.flatMap codeGroupEntry ++ strL "::"

/-- Python `str.upper` on a single ASCII character. -/
def pyUpper (c : Char) : Char :=
  if isLowerA c then Char.ofNat (c.toNat - 32) else c

/-- Python `str.capitalize`: first character upper-cased, the rest
lower-cased (ASCII range). -/
def pyCapitalize : List Char → List Char
  | [] => []
  | c :: r => pyUpper c :: r.map pyLower

/-- Source: `utils.create_variable_or_argument_component`.  A
`ValueError` raise is modelled as `Except.error` carrying the message. -/
def create_variable_or_argument_component (items : List MdcItem) (componentType : List Char)
    (component : Option (List Char)) : Except (List Char) (List Char) :=
  let comp := component.getD (strL "U" ++ pyCapitalize componentType)
  if pyLowerL componentType = strL "variables" then .ok (create_mdc_variables items comp)
  else if pyLowerL componentType = strL "arguments" then .ok (create_mdc_arguments items comp)
  else .error (strL "Invalid component_type: " ++ componentType ++
    strL ". Must be 'variables' or 'arguments'")

/-! ## Cross-reference resolver (`NuxtContentResolver`) -/

/-- Python `str.strip(ch)`: remove every leading and trailing occurrence of
the character `ch`. -/
def pyStripChar (ch : Char) (s : List Char) : List Char :=
  (((s.dropWhile (· == ch)).reverse.dropWhile (· == ch))).reverse

/-- One step of the loop inside `posixpath.join`: append one further part
to an accumulated path. -/
def posixJoinAcc (path part : List Char) : List Char :=
  if part.head? = some '/' then part
  else if path = [] ∨ path.getLast? = some '/' then path ++ part
  else path ++ '/' :: part

/-- Source: `NuxtContentResolver.resolve_ref` together with the `__init__`
(`self.base_path = base_path.strip("/")`).  The dotted reference has its
dots replaced by slashes, is joined as `posixpath.join("/", base_path,
ref_path)` and lower-cased.  The `scope` argument is unused by the source. -/
def resolve_ref {α : Type} (basePath : List Char) (scope : α) (ref : List Char) : List Char :=
  let bp := pyStripChar '/' basePath
  let refPath := ref.map (fun c => if c = '.' then '/' else c)
  pyLowerL (posixJoinAcc (posixJoinAcc (strL "/") bp) refPath)

/-! ## Output path resolution (`NuxtRenderer._get_page_filename`) -/

/-- Two-argument `os.path.join` on a POSIX system. -/
def osJoin (a b : List Char) : List Char :=
  if b.head? = some '/' then b
  else if a = [] ∨ a.getLast? = some '/' then a ++ b
  else a ++ '/' :: b

/-- Source: `NuxtRenderer._get_page_filename`.  The `if ... and
page.directory:` test is Python truthiness, so both `None` and the empty
string fall into the else branch; a missing name defaults to `"index"`. -/
def get_page_filename (contentDirectory : List Char) (pageDirectory : Option (List Char))
    (pageName : Option (List Char)) (extension : List Char) : List Char :=
  match pageDirectory with
  | some d =>
    if d ≠ [] then
      osJoin (osJoin contentDirectory d) (pageName.getD (strL "index") ++ extension)
    else
      osJoin contentDirectory (pageName.getD (strL "index") ++ extension)
  | none => osJoin contentDirectory (pageName.getD (strL "index") ++ extension)

/-! ## Claim C6: the component-name normalizer -/

theorem pyLowerL_idem (s : List Char) : pyLowerL (pyLowerL s) = pyLowerL s := by
  induction s with
  | nil => rfl
  | cons c r ih =>
    simp only [pyLowerL, List.map_cons] at *
    exact List.cons_eq_cons.mpr ⟨pyLower_idem c, ih⟩

theorem contains_dash_pyLowerL (s : List Char) (h : s.contains '-' = true) :
    (pyLowerL s).contains '-' = true := by
  have hm : '-' ∈ s := by simpa using h
  have : pyLower '-' ∈ pyLowerL s := List.mem_map_of_mem pyLower hm
  exact List.elem_eq_true_of_mem (by simpa [show pyLower '-' = '-' from rfl] using this)

theorem flatMapDash_no_upper (r : List Char) (h : ∀ c ∈ r, isUpperA c = false) :
    (r.flatMap fun d => if isUpperA d then ['-', d] else [d]) = r := by
  induction r with
  | nil => rfl
  | cons d r2 ih =>
    have hd : isUpperA d = false := h d (by simp)
    rw [List.flatMap_cons, if_neg (by simp [hd]), List.singleton_append]
    exact List.cons_eq_cons.mpr ⟨rfl, ih (fun x hx => h x (List.mem_cons_of_mem _ hx))⟩

theorem insertDashes_no_upper (s : List Char) (h : ∀ c ∈ s, isUpperA c = false) :
    insertDashes s = s := by
  match s with
  | [] => rfl
  | c :: r =>
    simp only [insertDashes, List.cons.injEq, true_and]
    exact flatMapDash_no_upper r (fun x hx => h x (List.mem_cons_of_mem _ hx))

theorem pyLower_id_of_lower (c : Char) (h : isLowerA c = true) : pyLower c = c := by
  apply pyLower_not_upper
  simp only [isLowerA, Bool.and_eq_true, decide_eq_true_eq] at h
  simp only [isUpperA, Bool.and_eq_false_iff, decide_eq_false_iff_not]
  omega

theorem pyLowerL_id_of_lower (s : List Char) (h : ∀ c ∈ s, isLowerA c = true) :
    pyLowerL s = s := by
  induction s with
  | nil => rfl
  | cons c r ih =>
    simp only [pyLowerL, List.map_cons]
    exact List.cons_eq_cons.mpr
      ⟨pyLower_id_of_lower c (h c (by simp)), ih (fun x hx => h x (by simp [hx]))⟩

theorem lower_not_mem_dash (s : List Char) (h : ∀ c ∈ s, isLowerA c = true) :
    '-' ∉ s := by
  intro hmem
  have := h '-' hmem
  simp [isLowerA] at this

theorem lower_not_upper (c : Char) (h : isLowerA c = true) : isUpperA c = false := by
  simp only [isLowerA, Bool.and_eq_true, decide_eq_true_eq] at h
  simp only [isUpperA, Bool.and_eq_false_iff, decide_eq_false_iff_not]
  omega

/-- Claim C6: for a string containing a dash the normalizer returns the
lower-cased input and is idempotent; for dash-free input it inserts a dash
before every non-initial uppercase letter and lower-cases (for example
`UCodeGroup` to `u-code-group`); an all-lowercase word is unchanged. -/
theorem claim_C6 :
    (∀ s : List Char, s.contains '-' = true →
      convert_to_kebab_case s = pyLowerL s ∧
      convert_to_kebab_case (convert_to_kebab_case s) = convert_to_kebab_case s) ∧
    (∀ s : List Char, s.contains '-' = false →
      convert_to_kebab_case s = pyLowerL (insertDashes s)) ∧
    convert_to_kebab_case (strL "UCodeGroup") = strL "u-code-group" ∧
    (∀ s : List Char, (∀ c ∈ s, isLowerA c = true) → convert_to_kebab_case s = s) := by
  refine ⟨?_, ?_, by decide, ?_⟩
  · intro s h
    have h1 : convert_to_kebab_case s = pyLowerL s := by
      rw [convert_to_kebab_case, if_pos h]
    refine ⟨h1, ?_⟩
    rw [h1, convert_to_kebab_case, if_pos (contains_dash_pyLowerL s h), pyLowerL_idem]
  · intro s h
    rw [convert_to_kebab_case, if_neg (by rw [h]; simp : ¬s.contains '-' = true)]
  · intro s h
    have hnc : ¬s.contains '-' = true := by
      simpa using lower_not_mem_dash s h
    rw [convert_to_kebab_case, if_neg hnc,
      insertDashes_no_upper s (fun c hc => lower_not_upper c (h c hc)),
      pyLowerL_id_of_lower s h]

theorem claim_C6_witness :
    ((strL "U-Alert").contains '-' = true ∧
      convert_to_kebab_case (strL "U-Alert") = pyLowerL (strL "U-Alert") ∧
      convert_to_kebab_case (convert_to_kebab_case (strL "U-Alert")) =
        convert_to_kebab_case (strL "U-Alert")) ∧
    ((∀ c ∈ strL "alert", isLowerA c = true) ∧ convert_to_kebab_case (strL "alert") = strL "alert") :=
  ⟨⟨by decide, (claim_C6.1 (strL "U-Alert") (by decide)).1,
      (claim_C6.1 (strL "U-Alert") (by decide)).2⟩,
    ⟨by decide, claim_C6.2.2.2 (strL "alert") (by decide)⟩⟩

/-! ## Claim C9: the generic item-component constructor -/

/-- Claim C9: `create_variable_or_argument_component` raises a `ValueError`
naming the invalid `component_type` whenever that value is neither
`variables` nor `arguments` after lower-casing, and returns the
corresponding component (no error) for the two accepted values. -/
theorem claim_C9 :
    (∀ (items : List MdcItem) (ct : List Char) (comp : Option (List Char)),
      pyLowerL ct ≠ strL "variables" → pyLowerL ct ≠ strL "arguments" →
      create_variable_or_argument_component items ct comp =
        .error (strL "Invalid component_type: " ++ ct ++
          strL ". Must be 'variables' or 'arguments'")) ∧
    (∀ (items : List MdcItem) (comp : Option (List Char)),
      create_variable_or_argument_component items (strL "variables") comp =
        .ok (create_mdc_variables items (comp.getD (strL "UVariables")))) ∧
    (∀ (items : List MdcItem) (comp : Option (List Char)),
      create_variable_or_argument_component items (strL "arguments") comp =
        .ok (create_mdc_arguments items (comp.getD (strL "UArguments")))) := by
  refine ⟨?_, ?_, ?_⟩
  · intro items ct comp h1 h2
    rw [create_variable_or_argument_component]
    simp only [if_neg h1, if_neg h2]
  · intro items comp
    rw [create_variable_or_argument_component]
    have hcap : strL "U" ++ pyCapitalize (strL "variables") = strL "UVariables" := by decide
    simp only [if_pos (by decide : pyLowerL (strL "variables") = strL "variables"), hcap]
  · intro items comp
    rw [create_variable_or_argument_component]
    have hcap : strL "U" ++ pyCapitalize (strL "arguments") = strL "UArguments" := by decide
    simp only [if_neg (by decide : ¬pyLowerL (strL "arguments") = strL "variables"),
      if_pos (by decide : pyLowerL (strL "arguments") = strL "arguments"), hcap]

theorem claim_C9_witness :
    (pyLowerL (strL "other") ≠ strL "variables" ∧ pyLowerL (strL "other") ≠ strL "arguments" ∧
      create_variable_or_argument_component [] (strL "other") none =
        .error (strL "Invalid component_type: " ++ strL "other" ++
          strL ". Must be 'variables' or 'arguments'")) ∧
    create_variable_or_argument_component [] (strL "variables") none =
      .ok (create_mdc_variables [] (strL "UVariables")) :=
  ⟨⟨by decide, by decide, claim_C9.1 [] (strL "other") none (by decide) (by decide)⟩,
    claim_C9.2.1 [] none⟩

/-! ## Claim C8: cross-reference resolution -/

theorem dropWhile_beq_head_ne (ch : Char) (s : List Char) :
    ((s.dropWhile (· == ch)).head?) ≠ some ch := by
  induction s with
  | nil => simp
  | cons c r ih =>
    by_cases hc : c = ch
    · rw [List.dropWhile_cons_of_pos (by simp [hc])]
      exact ih
    · rw [List.dropWhile_cons_of_neg (by simp [hc])]
      simp only [List.head?_cons, ne_eq, Option.some.injEq]
      exact hc

theorem pyStripChar_getLast_ne (ch : Char) (s : List Char) :
    (pyStripChar ch s).getLast? ≠ some ch := by
  rw [pyStripChar, List.getLast?_reverse]
  exact dropWhile_beq_head_ne ch _

theorem pyStripChar_prefix (ch : Char) (s : List Char) :
    pyStripChar ch s <+: s.dropWhile (· == ch) := by
  rw [pyStripChar]
  have h1 : ((s.dropWhile (· == ch)).reverse.dropWhile (· == ch)) <:+
      (s.dropWhile (· == ch)).reverse := List.dropWhile_suffix _
  have h2 := (List.reverse_prefix).mpr h1
  rwa [List.reverse_reverse] at h2

theorem head_eq_of_pre (a b : List Char) (h : a <+: b) (hne : a ≠ []) :
    b.head? = a.head? := by
  obtain ⟨t, ht⟩ := h
  cases a with
  | nil => exact absurd rfl hne
  | cons c r => rw [← ht]; rfl

theorem pyStripChar_head_ne (ch : Char) (s : List Char) (h : pyStripChar ch s ≠ []) :
    (pyStripChar ch s).head? ≠ some ch := by
  have hp := pyStripChar_prefix ch s
  have := head_eq_of_pre _ _ hp h
  rw [← this] at *
  intro hc
  exact dropWhile_beq_head_ne ch s (by rw [this] at hc ⊢; exact hc)

/-- Claim C8: `resolve_ref` returns the lower-cased root-relative URL
`"/" + base_path + "/" + ref-with-dots-replaced`, independently of the
scope argument.  The hypotheses pin down a genuine dotted reference (its
first character is neither `.` nor `/`) and a non-empty stripped base
path, the situation described by the specification. -/
theorem claim_C8 :
    (∀ (basePath ref : List Char) (α : Type) (scope : α),
      pyStripChar '/' basePath ≠ [] →
      ref.head? ≠ some '.' → ref.head? ≠ some '/' →
      resolve_ref basePath scope ref =
        pyLowerL ('/' :: (pyStripChar '/' basePath ++
          '/' :: ref.map (fun c => if c = '.' then '/' else c)))) ∧
    (∀ (basePath ref : List Char) (α β : Type) (s1 : α) (s2 : β),
      resolve_ref basePath s1 ref = resolve_ref basePath s2 ref) := by
  constructor
  · intro basePath ref α scope hbp h1 h2
    rw [resolve_ref]
    have hbphead : (pyStripChar '/' basePath).head? ≠ some '/' :=
      pyStripChar_head_ne '/' basePath hbp
    have step1 : posixJoinAcc (strL "/") (pyStripChar '/' basePath) =
        '/' :: pyStripChar '/' basePath := by
      rw [posixJoinAcc, if_neg hbphead, if_pos (Or.inr (by decide))]
      rfl
    rw [step1]
    have hrefhead : (ref.map (fun c => if c = '.' then '/' else c)).head? ≠ some '/' := by
      rw [List.head?_map]
      cases href : ref.head? with
      | none => exact fun hc => Option.noConfusion hc
      | some c =>
        rw [href] at h1 h2
        intro hmap
        have hc : (if c = '.' then '/' else c) = '/' :=
          Option.some.inj (show some (if c = '.' then '/' else c) = some '/' from hmap)
        by_cases hdot : c = '.'
        · exact h1 (by rw [hdot])
        · rw [if_neg hdot] at hc
          exact h2 (by rw [hc])
    rw [posixJoinAcc, if_neg hrefhead,
      if_neg (by
        push_neg
        refine ⟨by simp, ?_⟩
        rw [show ('/' :: pyStripChar '/' basePath) = ['/'] ++ pyStripChar '/' basePath from rfl,
          List.getLast?_append_of_ne_nil _ hbp]
        exact pyStripChar_getLast_ne '/' basePath)]
    rfl
  · intro basePath ref α β s1 s2
    rfl

theorem claim_C8_witness :
    (pyStripChar '/' (strL "/docs/api/") ≠ [] ∧
      (strL "a.b.C").head? ≠ some '.' ∧ (strL "a.b.C").head? ≠ some '/' ∧
      resolve_ref (strL "/docs/api/") (0 : Nat) (strL "a.b.C") =
        pyLowerL ('/' :: (pyStripChar '/' (strL "/docs/api/") ++
          '/' :: (strL "a.b.C").map (fun c => if c = '.' then '/' else c)))) ∧
    resolve_ref (strL "docs") (0 : Nat) (strL "x.Y") =
      resolve_ref (strL "docs") true (strL "x.Y") :=
  ⟨⟨by decide, by decide, by decide,
      claim_C8.1 (strL "/docs/api/") (strL "a.b.C") Nat 0 (by decide) (by decide) (by decide)⟩,
    claim_C8.2 (strL "docs") (strL "x.Y") Nat Bool 0 true⟩

/-! ## Claim C7: output-path resolution -/

/-- Claim C7: a page with a directory override renders to
`content_directory/<directory>/<name><extension>`, a page without one
renders directly to `content_directory/<name><extension>`, and a missing
page name defaults to `index`.  The hypotheses rule out a content
directory that is empty or ends in a path separator, where `os.path.join`
would not insert a separator. -/
theorem claim_C7 :
    (∀ cd : List Char, cd ≠ [] → cd.getLast? ≠ some '/' →
      get_page_filename cd (some (strL "reference")) (some (strL "api")) (strL ".md") =
        cd ++ strL "/reference/api.md") ∧
    (∀ cd : List Char, cd ≠ [] → cd.getLast? ≠ some '/' →
      get_page_filename cd none (some (strL "index")) (strL ".md") =
        cd ++ strL "/index.md") ∧
    (∀ (cd : List Char) (pd : Option (List Char)) (ext : List Char),
      get_page_filename cd pd none ext = get_page_filename cd pd (some (strL "index")) ext) := by
  refine ⟨?_, ?_, ?_⟩
  · intro cd h1 h2
    rw [get_page_filename]
    simp only [if_pos (by decide : strL "reference" ≠ []), Option.getD_some]
    have step1 : osJoin cd (strL "reference") = cd ++ '/' :: strL "reference" := by
      rw [osJoin, if_neg (by decide), if_neg (by push_neg; exact ⟨h1, h2⟩)]
    rw [step1, osJoin, if_neg (by decide),
      if_neg (by
        push_neg
        refine ⟨by simp [h1], ?_⟩
        rw [List.getLast?_append_of_ne_nil _ (by decide : ('/' :: strL "reference") ≠ [])]
        decide)]
    rw [List.append_assoc]
    congr 1
  · intro cd h1 h2
    rw [get_page_filename]
    simp only [Option.getD_some]
    rw [osJoin, if_neg (by decide), if_neg (by push_neg; exact ⟨h1, h2⟩)]
    congr 1
  · intro cd pd ext
    cases pd with
    | none => rfl
    | some d => rfl

theorem claim_C7_witness :
    (strL "content" ≠ [] ∧ (strL "content").getLast? ≠ some '/' ∧
      get_page_filename (strL "content") (some (strL "reference")) (some (strL "api"))
        (strL ".md") = strL "content" ++ strL "/reference/api.md") ∧
    (get_page_filename (strL "content") none (some (strL "index")) (strL ".md") =
      strL "content" ++ strL "/index.md") ∧
    get_page_filename (strL "content") none none (strL ".md") =
      get_page_filename (strL "content") none (some (strL "index")) (strL ".md") :=
  ⟨⟨by decide, by decide,
      claim_C7.1 (strL "content") (by decide) (by decide)⟩,
    claim_C7.2.1 (strL "content") (by decide) (by decide),
    claim_C7.2.2 (strL "content") none (strL ".md")⟩

/-! ## Frontmatter assembly (`NuxtRenderer._build_frontmatter`) -/

/-- Python's `\s` whitespace class on ASCII text: space, tab, newline,
carriage return, vertical tab, form feed. -/
def pySpace (c : Char) : Bool :=
  (c == ' ') || (c == '\t') || (c == '\n') || (c == '\r') || (c == '\x0b') || (c == '\x0c')

/-- Remove trailing characters satisfying `p`. -/
def dropTrailing (p : Char → Bool) (l : List Char) : List Char :=
  (l.reverse.dropWhile p).reverse

/-- Python `str.strip()`: remove leading and trailing whitespace. -/
def pyStrip (l : List Char) : List Char :=
  dropTrailing pySpace (l.dropWhile pySpace)

/-- A YAML-able frontmatter value: booleans, strings and nested maps cover
everything the renderer reads or writes. -/
inductive FmVal where
  | vBool : Bool → FmVal
  | vStr : List Char → FmVal
  | vDict : List (String × FmVal) → FmVal

/-- A frontmatter dictionary.  Python `dict` semantics are recovered by
`dlookup` / `dinsert` below (`dinsert` overwrites in place, preserving
insertion order, exactly like a `dict` assignment). -/
abbrev FmDict := List (String × FmVal)

def dlookup (m : FmDict) (k : String) : Option FmVal :=
  match m with
  | [] => none
  | (k2, v) :: r => if k2 = k then some v else dlookup r k

def dcontains (m : FmDict) (k : String) : Bool :=
  (dlookup m k).isSome

def dinsert (m : FmDict) (k : String) (v : FmVal) : FmDict :=
  match m with
  | [] => [(k, v)]
  | (k2, v2) :: r => if k2 = k then (k2, v) :: r else (k2, v2) :: dinsert r k v

/-- Python `{**a, **b}`: start from `a` and assign every binding of `b`. -/
def dmerge (a b : FmDict) : FmDict :=
  b.foldl (fun acc kv => dinsert acc kv.1 kv.2) a

/-- The slice of a docspec `ApiObject` the frontmatter assembler reads: its
kind (for icon dispatch, replacing the `isinstance` chain of
`_get_icon_key`) and its optional docstring content. -/
structure DocObj where
  kind : String
  docstring : Option (List Char)

/-- Source: the `object_icons` default table of `NuxtRenderer`. -/
def objectIcons : List (String × List Char) :=
  [("module", strL "i-material-symbols-light-book-4-spark-outline-rounded"),
   ("class", strL "i-material-symbols-light-class-outline-rounded"),
   ("function", strL "i-material-symbols-light-function-outline-rounded"),
   ("method", strL "i-material-symbols-light-function-outline-rounded"),
   ("variable", strL "i-material-symbols-light-variable-outline-rounded"),
   ("attribute", strL "i-material-symbols-light-variable-outline-rounded"),
   ("page", strL "i-material-symbols-light-book-4-spark-outline-rounded")]

def lookupIcon (m : List (String × List Char)) (k : String) : Option (List Char) :=
  match m with
  | [] => none
  | (k2, v) :: r => if k2 = k then some v else lookupIcon r k

/-- Source: `NuxtRenderer._get_icon_key` (the `isinstance` chain over
docspec types, expressed on the `kind` tag). -/
def get_icon_key (primary : Option DocObj) : String :=
  match primary with
  | none => "page"
  | some o =>
    if o.kind = "module" then "module"
    else if o.kind = "class" then "class"
    else if o.kind = "function" then "function"
    else if o.kind = "variable" then "variable"
    else "page"

/-- Source: `NuxtRenderer._build_navigation`.  The `frontmatter["title"]`
access is total at the call site (the caller inserts a title first); the
`getD` default covers the impossible missing case. -/
def build_navigation (frontmatter : FmDict) (primary : Option DocObj) : FmDict :=
  let navigation : FmDict :=
    match dlookup frontmatter "navigation" with
    | some (.vDict d) => d
    | _ => []
  let navigation :=
    if dcontains navigation "title" then navigation
    else dinsert navigation "title" ((dlookup frontmatter "title").getD (.vStr []))
  if dcontains navigation "icon" then navigation
  else dinsert navigation "icon"
    (.vStr ((lookupIcon objectIcons (get_icon_key primary)).getD
      ((lookupIcon objectIcons "page").getD [])))

/-- Source: `NuxtRenderer._needs_description`. -/
def needs_description (frontmatter : FmDict) (primary : Option DocObj) : Bool :=
  !dcontains frontmatter "description" &&
    (match primary with
     | some o => o.docstring.isSome
     | none => false)

/-- The stripped docstring of the primary object (`primary_object.docstring
.content.strip()` guarded by the same conditions as the source). -/
def primaryDocstring (primary : Option DocObj) : List Char :=
  match primary with
  | some o =>
    match o.docstring with
    | some d => pyStrip d
    | none => []
  | none => []

/-- Source: `docstring.split("\n", 1)[0] if docstring else ""`. -/
def deriveDescription (primary : Option DocObj) : List Char :=
  let d := primaryDocstring primary
  if d = [] then [] else d.takeWhile (fun c => !(c == '\n'))

/-- Rendering of a frontmatter value inside the `seo.title` f-string.  Only
string titles occur in the claims; the dict case (Python would embed the
dict's `repr`) is outside every behaviour exercised here. -/
def valToStr : FmVal → List Char
  | .vStr s => s
  | .vBool b => if b then strL "True" else strL "False"
  | .vDict _ => []

/-- The `if "title" not in frontmatter` step of `_build_frontmatter`. -/
def fmStepTitle (fm : FmDict) (pageTitle : List Char) : FmDict :=
  if dcontains fm "title" then fm else dinsert fm "title" (.vStr pageTitle)

/-- The description-derivation step of `_build_frontmatter`. -/
def fmStepDescription (fm : FmDict) (primary : Option DocObj) : FmDict :=
  if needs_description fm primary then
    dinsert fm "description" (.vStr (deriveDescription primary))
  else fm

/-- The navigation step of `_build_frontmatter`: only a dict-valued
`navigation` entry is rebuilt; booleans and absent values pass through. -/
def fmStepNavigation (fm : FmDict) (primary : Option DocObj) : FmDict :=
  match dlookup fm "navigation" with
  | some (.vDict _) => dinsert fm "navigation" (.vDict (build_navigation fm primary))
  | _ => fm

/-- The `if "seo" not in frontmatter` step of `_build_frontmatter`. -/
def fmStepSeo (fm : FmDict) : FmDict :=
  if dcontains fm "seo" then fm
  else
    dinsert fm "seo" (.vDict
      [("title", .vStr (valToStr ((dlookup fm "title").getD (.vStr [])) ++
          strL " - Diseño técnico")),
       ("description", (dlookup fm "description").getD (.vStr []))])

/-- Source: `NuxtRenderer._build_frontmatter`.  Merges defaults and page
frontmatter (page wins), then derives title, description, navigation (only
when the merged navigation value is a dict) and seo, in source order. -/
def build_frontmatter (defaultFm pageFm : FmDict) (pageTitle : List Char)
    (modules : List DocObj) : FmDict :=
  let primary := if modules.length = 1 then modules.head? else none
  fmStepSeo (fmStepNavigation
    (fmStepDescription (fmStepTitle (dmerge defaultFm pageFm) pageTitle) primary) primary)

/-! ## Claim C5: frontmatter merge precedence and navigation passthrough -/

theorem dlookup_dinsert_self (m : FmDict) (k : String) (v : FmVal) :
    dlookup (dinsert m k v) k = some v := by
  induction m with
  | nil => simp [dinsert, dlookup]
  | cons kv r ih =>
    obtain ⟨k2, v2⟩ := kv
    by_cases hk : k2 = k
    · simp [dinsert, dlookup, hk]
    · simp [dinsert, dlookup, hk, ih]

theorem dlookup_dinsert_other (m : FmDict) (k k2 : String) (v : FmVal) (h : k2 ≠ k) :
    dlookup (dinsert m k2 v) k = dlookup m k := by
  induction m with
  | nil => simp [dinsert, dlookup, h]
  | cons kv r ih =>
    obtain ⟨k3, v3⟩ := kv
    by_cases hk : k3 = k2
    · subst hk
      simp [dinsert, dlookup, h]
    · simp only [dinsert, if_neg hk, dlookup]
      by_cases hk3 : k3 = k
      · simp [hk3]
      · simp [hk3, ih]

theorem dlookup_dmerge_not_mem (rest : FmDict) (d : FmDict) (k : String)
    (h : k ∉ rest.map Prod.fst) :
    dlookup (dmerge d rest) k = dlookup d k := by
  induction rest generalizing d with
  | nil => rfl
  | cons kv r ih =>
    obtain ⟨k2, v2⟩ := kv
    have hk2 : k2 ≠ k := by
      intro hc
      exact h (by simp [hc])
    have hr : k ∉ r.map Prod.fst := fun hc => h (by simp [hc])
    show dlookup (dmerge (dinsert d k2 v2) r) k = dlookup d k
    rw [ih _ hr, dlookup_dinsert_other _ _ _ _ hk2]

theorem dlookup_dmerge_of_mem (d p : FmDict) (k : String)
    (hnodup : (p.map Prod.fst).Nodup) (h : dcontains p k = true) :
    dlookup (dmerge d p) k = dlookup p k := by
  induction p generalizing d with
  | nil => simp [dcontains, dlookup] at h
  | cons kv r ih =>
    obtain ⟨k2, v2⟩ := kv
    rw [List.map_cons] at hnodup
    obtain ⟨hnm, hnd⟩ := List.nodup_cons.mp hnodup
    by_cases hk : k2 = k
    · subst hk
      show dlookup (dmerge (dinsert d k2 v2) r) k2 = dlookup ((k2, v2) :: r) k2
      rw [dlookup_dmerge_not_mem r _ k2 hnm, dlookup_dinsert_self]
      simp [dlookup]
    · have hr : dcontains r k = true := by
        simpa [dcontains, dlookup, hk] using h
      show dlookup (dmerge (dinsert d k2 v2) r) k = dlookup ((k2, v2) :: r) k
      rw [ih _ hnd hr]
      simp [dlookup, hk]

theorem dlookup_fmStepTitle (fm : FmDict) (t : List Char) :
    dlookup (fmStepTitle fm t) "navigation" = dlookup fm "navigation" := by
  rw [fmStepTitle]
  split
  · rfl
  · exact dlookup_dinsert_other _ _ _ _ (by decide)

theorem dlookup_fmStepDescription (fm : FmDict) (primary : Option DocObj) :
    dlookup (fmStepDescription fm primary) "navigation" = dlookup fm "navigation" := by
  rw [fmStepDescription]
  split
  · exact dlookup_dinsert_other _ _ _ _ (by decide)
  · rfl

theorem dlookup_fmStepSeo (fm : FmDict) :
    dlookup (fmStepSeo fm) "navigation" = dlookup fm "navigation" := by
  rw [fmStepSeo]
  split
  · rfl
  · exact dlookup_dinsert_other _ _ _ _ (by decide)

theorem dlookup_nav_build_frontmatter (d p : FmDict) (title : List Char)
    (mods : List DocObj) (b : Bool)
    (h : dlookup (dmerge d p) "navigation" = some (.vBool b)) :
    dlookup (build_frontmatter d p title mods) "navigation" = some (.vBool b) := by
  rw [build_frontmatter]
  have h2 : dlookup (fmStepDescription (fmStepTitle (dmerge d p) title)
      (if mods.length = 1 then mods.head? else none)) "navigation" = some (.vBool b) := by
    rw [dlookup_fmStepDescription, dlookup_fmStepTitle]
    exact h
  rw [dlookup_fmStepSeo, fmStepNavigation, h2]
  exact h2

/-- Claim C5: merging `{layout: "docs", navigation: true}` defaults with
page frontmatter `{navigation: false, description: "x"}` yields
`navigation: false`, `description: "x"`, `layout: "docs"`; page values win
over defaults for every shared key; and a boolean merged `navigation`
value skips the navigation-derivation step and is passed through. -/
theorem claim_C5 :
    (dlookup (build_frontmatter
        [("layout", .vStr (strL "docs")), ("navigation", .vBool true)]
        [("navigation", .vBool false), ("description", .vStr (strL "x"))]
        (strL "T") []) "navigation" = some (.vBool false) ∧
      dlookup (build_frontmatter
        [("layout", .vStr (strL "docs")), ("navigation", .vBool true)]
        [("navigation", .vBool false), ("description", .vStr (strL "x"))]
        (strL "T") []) "description" = some (.vStr (strL "x")) ∧
      dlookup (build_frontmatter
        [("layout", .vStr (strL "docs")), ("navigation", .vBool true)]
        [("navigation", .vBool false), ("description", .vStr (strL "x"))]
        (strL "T") []) "layout" = some (.vStr (strL "docs"))) ∧
    (∀ (d p : FmDict) (k : String), (p.map Prod.fst).Nodup → dcontains p k = true →
      dlookup (dmerge d p) k = dlookup p k) ∧
    (∀ (d p : FmDict) (title : List Char) (mods : List DocObj) (b : Bool),
      dlookup (dmerge d p) "navigation" = some (.vBool b) →
      dlookup (build_frontmatter d p title mods) "navigation" = some (.vBool b)) :=
  ⟨⟨rfl, rfl, rfl⟩, dlookup_dmerge_of_mem, dlookup_nav_build_frontmatter⟩

theorem claim_C5_witness :
    (([("navigation", FmVal.vBool false), ("description", FmVal.vStr (strL "x"))].map
        Prod.fst).Nodup ∧
      dcontains [("navigation", FmVal.vBool false), ("description", FmVal.vStr (strL "x"))]
        "navigation" = true ∧
      dlookup (dmerge [("layout", FmVal.vStr (strL "docs")), ("navigation", FmVal.vBool true)]
          [("navigation", FmVal.vBool false), ("description", FmVal.vStr (strL "x"))])
        "navigation" =
        dlookup [("navigation", FmVal.vBool false), ("description", FmVal.vStr (strL "x"))]
          "navigation") ∧
    (dlookup (dmerge [("layout", FmVal.vStr (strL "docs")), ("navigation", FmVal.vBool true)]
        [("navigation", FmVal.vBool false)]) "navigation" = some (.vBool false) ∧
      dlookup (build_frontmatter
        [("layout", FmVal.vStr (strL "docs")), ("navigation", FmVal.vBool true)]
        [("navigation", FmVal.vBool false)] (strL "T") []) "navigation" =
        some (.vBool false)) :=
  ⟨⟨by simp, rfl,
      claim_C5.2.1 [("layout", FmVal.vStr (strL "docs")), ("navigation", FmVal.vBool true)]
        [("navigation", FmVal.vBool false), ("description", FmVal.vStr (strL "x"))]
        "navigation" (by simp) rfl⟩,
    ⟨rfl,
      claim_C5.2.2 [("layout", FmVal.vStr (strL "docs")), ("navigation", FmVal.vBool true)]
        [("navigation", FmVal.vBool false)] (strL "T") [] false rfl⟩⟩

/-! ## The docstring-to-MDC pipeline (`MDCMarkdownRenderer`)

Python's backtracking regexes are embedded as deterministic scanners.
Each `re.sub` call is modelled by a scanner that walks the string left to
right, attempts the pattern at each position (every pattern starts with a
literal heading, so a match can only begin at an occurrence of that
literal), emits the replacement on success and resumes scanning after the
matched span, exactly as `re.sub` does.  Comments on the individual match
functions justify the deterministic reading of each pattern. -/

/-- Python's `\w` class on ASCII text. -/
def isWordChar (c : Char) : Bool :=
  isLowerA c || isUpperA c || (48 ≤ c.toNat && c.toNat ≤ 57) || c == '_'

/-- Number of newline characters in a string (`str.count("\n")`). -/
def countNL (s : List Char) : Nat := s.countP (· == '\n')

/-- The first index `k` of `w` at which the two-character string `"\n\n"`
occurs. -/
def findFirstNN (w : List Char) : Option Nat :=
  ((List.range w.length).filter (fun k => (strL "\n\n").isPrefixOf (w.drop k))).head?

/-- The last index `k` of `w` at which `"\n\n"` occurs. -/
def findLastNN (w : List Char) : Option Nat :=
  ((List.range w.length).filter (fun k => (strL "\n\n").isPrefixOf (w.drop k))).getLast?

/-- The lazy group `(.*?)(?=\n\n\*\*|\Z)` under `re.DOTALL`: the shortest
prefix whose end is followed by `"\n\n**"` or is the end of the string.
Returns the group and the remaining text (the lookahead is not consumed). -/
def lazyBody : List Char → List Char × List Char
  | [] => ([], [])
  | c :: cs =>
    if (strL "\n\n**").isPrefixOf (c :: cs) then ([], c :: cs)
    else
      let p := lazyBody cs
      (c :: p.1, p.2)

/-- Matcher for `\s*\n\n(.*?)(?=\n\n\*\*|\Z)` (everything after the heading
literal of the Examples/Notes/Warnings/Raises patterns).  The greedy `\s*`
has priority over the lazy group, so the two literal newlines sit at the
last `"\n\n"` occurrence inside the maximal whitespace run; the group then
extends lazily to the first `"\n\n**"` boundary or the end of the text.
Returns `(whitespace consumed, group, rest)`. -/
def sectionMatch (t : List Char) : Option (List Char × List Char × List Char) :=
  let w := t.takeWhile pySpace
  match findLastNN w with
  | none => none
  | some k =>
    let s0 := w.drop (k + 2) ++ t.dropWhile pySpace
    let p := lazyBody s0
    some (w.take (k + 2), p.1, p.2)

/-- The default `mdc_components` table of `MDCMarkdownRenderer`. -/
def mdc_components : List (String × List Char) :=
  [("arguments", strL "UArguments"), ("variables", strL "UVariables"),
   ("returns", strL "UReturns"), ("examples", strL "UCodeGroup"),
   ("notes", strL "UAlert"), ("warnings", strL "UAlert"),
   ("raises", strL "UCallout"), ("see_also", strL "UCard"),
   ("code_block", strL "UCodeGroup")]

/-- `self.mdc_components.get(key, default)`. -/
def mdcComponent (key : String) (dflt : List Char) : List Char :=
  (lookupIcon mdc_components key).getD dflt

/-- One bullet of the Arguments item pattern `\s*- \x60[^\x60]+\x60 - .+\n?`
(the leading `\s*` is consumed by the caller).  The name is the maximal
backtick-free run, the description the maximal newline-free run, and the
greedy `\n?` eats one following newline. -/
def parseBullet (t : List Char) : Option ((List Char × List Char) × List Char) :=
  if (strL "- `").isPrefixOf t then
    let t1 := t.drop 3
    let name := t1.takeWhile (fun c => !(c == '`'))
    let t2 := t1.dropWhile (fun c => !(c == '`'))
    if name = [] then none
    else if (strL "` - ").isPrefixOf t2 then
      let t3 := t2.drop 4
      let desc := t3.takeWhile (fun c => !(c == '\n'))
      if desc = [] then none
      else some ((name, desc), (t3.dropWhile (fun c => !(c == '\n'))).drop 1)
    else none
  else none

/-- The greedy repetition `(?:\s*- \x60[^\x60]+\x60 - .+\n?)+`: parse
bullets while they keep matching; whitespace before a failed bullet is
rolled back (the failed iteration is not taken). -/
def parseBullets : Nat → List Char → List (List Char × List Char) × List Char
  | 0, t => ([], t)
  | fuel + 1, t =>
    match parseBullet t with
    | none => ([], t)
    | some (item, rest) =>
      match parseBullets fuel (rest.dropWhile pySpace) with
      | ([], _) => ([item], rest)
      | (items, rest2) => (item :: items, rest2)

/-- Matcher for the Arguments pattern after its heading literal:
`\s*\n\s*\n((?:\s*- \x60[^\x60]+\x60 - .+\n?)+)`.  `\s*\n\s*\n` succeeds
exactly when the maximal whitespace run after the colon contains at least
two newlines (any further whitespace is absorbed by the first bullet's own
`\s*`), and the bullets then start at the first non-whitespace character. -/
def tryArgs (t : List Char) : Option (List (List Char × List Char) × List Char) :=
  let w := t.takeWhile pySpace
  if 2 ≤ countNL w then
    match parseBullets (t.dropWhile pySpace).length (t.dropWhile pySpace) with
    | ([], _) => none
    | (items, rest2) => some (items, rest2)
  else none

/-- The item post-processing of `_convert_section_to_mdc`: a name
containing a colon is split once into name and type (both stripped); the
description is always stripped. -/
def argItemToMdc (it : List Char × List Char) : MdcItem :=
  if it.1.contains ':' then
    ⟨pyStrip (it.1.takeWhile (fun c => !(c == ':'))),
     pyStrip ((it.1.dropWhile (fun c => !(c == ':'))).drop 1),
     pyStrip it.2⟩
  else ⟨it.1, [], pyStrip it.2⟩

/-- The replacement emitted for a matched Arguments section. -/
def argsReplacement (items : List (List Char × List Char)) : List Char :=
  create_mdc_arguments (items.map argItemToMdc) (mdcComponent "arguments" (strL "UArguments"))

def tryArgsFn (h t : List Char) : Option (List Char × List Char) :=
  (tryArgs t).map (fun p => (argsReplacement p.1, p.2))

/-- The replacement emitted for a matched Returns section
(`f"::{component_name}\n{content}\n::"`). -/
def returnsReplacement (content : List Char) : List Char :=
  strL "::" ++ convert_to_kebab_case (mdcComponent "returns" (strL "UReturns")) ++
    strL "\n" ++ content ++ strL "\n::"

/-- Matcher for `\*\*Returns\*\*:\s*\n\n([^*]+)(?=\n\n\*\*|\Z)` after the
heading literal.  The group is the maximal star-free run after the first
`"\n\n"` of the whitespace run; the lookahead forces its end either at the
end of the string or just before a `"\n\n**"` boundary (a star can only
terminate the run, so the boundary can only sit at its very end).  Choosing
the first `"\n\n"` is output-equivalent to the regex engine's greedy
choice: the group is stripped before use and the match end is an absolute
position, so every successful `\s*` split yields the same substitution. -/
def tryReturnsFn (h t : List Char) : Option (List Char × List Char) :=
  let w := t.takeWhile pySpace
  match findFirstNN w with
  | none => none
  | some k =>
    let s0 := w.drop (k + 2) ++ t.dropWhile pySpace
    let r := s0.takeWhile (fun c => !(c == '*'))
    let u := s0.dropWhile (fun c => !(c == '*'))
    if u = [] then
      if r = [] then none
      else some (returnsReplacement (pyStrip r), [])
    else if (strL "**").isPrefixOf u then
      if 2 < r.length then
        if r.drop (r.length - 2) = strL "\n\n" then
          some (returnsReplacement (pyStrip (r.take (r.length - 2))), strL "\n\n" ++ u)
        else none
      else none
    else none

/-- The lazy code group `(.*?)\n\x60\x60\x60` under `re.DOTALL`: text up to
the first occurrence of a newline followed by a closing fence. -/
def lazyUntilFence : List Char → Option (List Char × List Char)
  | [] => none
  | c :: cs =>
    if (strL "\n```").isPrefixOf (c :: cs) then some ([], (c :: cs).drop 4)
    else (lazyUntilFence cs).map (fun p => (c :: p.1, p.2))

/-- One match attempt of the fenced-block pattern
`\x60\x60\x60(\w+)?\n(.*?)\n\x60\x60\x60` (DOTALL).  The optional `(\w+)?`
succeeds exactly when the maximal word-character run after the fence is
followed by a newline (a shorter run would be followed by a word character,
never a newline); an empty run encodes a missing language group. -/
def tryBlock (t : List Char) : Option ((List Char × List Char) × List Char) :=
  if (strL "```").isPrefixOf t then
    let t1 := t.drop 3
    let lang := t1.takeWhile isWordChar
    let t2 := t1.dropWhile isWordChar
    if t2.head? = some '\n' then
      (lazyUntilFence (t2.drop 1)).map (fun p => ((lang, p.1), p.2))
    else none
  else none

/-- A fenced code block found by `re.finditer`: the text between the
previous match end and this match start (`gap`), the language group and
the raw code group. -/
structure FencedBlock where
  gap : List Char
  lang : List Char
  code : List Char
deriving DecidableEq

/-- `re.finditer` of the fenced-block pattern: all non-overlapping matches
in order, each with its gap, plus the text after the last match. -/
def findBlocksF : Nat → List Char → List FencedBlock × List Char
  | 0, s => ([], s)
  | _, [] => ([], [])
  | fuel + 1, c :: cs =>
    match tryBlock (c :: cs) with
    | some ((lang, code), rest) =>
      let p := findBlocksF fuel rest
      (⟨[], lang, code⟩ :: p.1, p.2)
    | none =>
      match findBlocksF fuel cs with
      | ([], _) => ([], c :: cs)
      | (b :: entries, tail) => (⟨c :: b.gap, b.lang, b.code⟩ :: entries, tail)

def findBlocks (s : List Char) : List FencedBlock × List Char :=
  findBlocksF s.length s

/-- The dict built for each code block: `group(1) or "text"` as language
and filename, `group(2).strip()` as code. -/
def blockRecord (b : FencedBlock) : CodeBlock :=
  let lang := if b.lang = [] then strL "text" else b.lang
  ⟨lang, lang, pyStrip b.code⟩

/-- Matcher for the Examples pattern: on a match, fenced blocks inside the
stripped body become one MDC code group; a body without fenced blocks is
re-emitted as a normalized `**Examples**:` section. -/
def tryExamplesFn (h t : List Char) : Option (List Char × List Char) :=
  match sectionMatch t with
  | none => none
  | some (_, g, r) =>
    let content := pyStrip g
    let blocks := (findBlocks content).1
    if blocks = [] then some (strL "**Examples**:\n\n" ++ content, r)
    else some (create_mdc_code_group (blocks.map blockRecord)
      (mdcComponent "examples" (strL "UCodeGroup")), r)

/-- Matcher for the Notes pattern: the stripped body becomes an info
alert. -/
def tryNotesFn (h t : List Char) : Option (List Char × List Char) :=
  (sectionMatch t).map (fun p =>
    (create_mdc_alert (pyStrip p.2.1) (strL "info") (some (strL "Note"))
      (mdcComponent "notes" (strL "UAlert")), p.2.2))

/-- Matcher for the Warnings pattern: the stripped body becomes a warning
alert. -/
def tryWarningsFn (h t : List Char) : Option (List Char × List Char) :=
  (sectionMatch t).map (fun p =>
    (create_mdc_alert (pyStrip p.2.1) (strL "warning") (some (strL "Warning"))
      (mdcComponent "warnings" (strL "UAlert")), p.2.2))

/-- One match attempt of the Raises item pattern `- \x60([^\x60]+)\x60: (.+)`. -/
def tryRaiseItem (t : List Char) : Option ((List Char × List Char) × List Char) :=
  if (strL "- `").isPrefixOf t then
    let t1 := t.drop 3
    let name := t1.takeWhile (fun c => !(c == '`'))
    let t2 := t1.dropWhile (fun c => !(c == '`'))
    if name = [] then none
    else if (strL "`: ").isPrefixOf t2 then
      let t3 := t2.drop 3
      let desc := t3.takeWhile (fun c => !(c == '\n'))
      if desc = [] then none
      else some ((name, desc), t3.dropWhile (fun c => !(c == '\n')))
    else none
  else none

/-- `re.finditer` of the Raises item pattern. -/
def findRaiseItemsF : Nat → List Char → List (List Char × List Char)
  | 0, _ => []
  | _, [] => []
  | fuel + 1, c :: cs =>
    match tryRaiseItem (c :: cs) with
    | some (item, rest) => item :: findRaiseItemsF fuel rest
    | none => findRaiseItemsF fuel cs

def findRaiseItems (s : List Char) : List (List Char × List Char) :=
  findRaiseItemsF s.length s

/-- The replacement emitted for a matched Raises section with items. -/
def raisesReplacement (items : List (List Char × List Char)) : List Char :=
  strL "::" ++ convert_to_kebab_case (mdcComponent "raises" (strL "UCallout")) ++
    strL "\n---\ntype: error\n---\n" ++
    List.intercalate (strL "\n")
      (items.map (fun it => strL "**" ++ it.1 ++ strL "**: " ++ pyStrip it.2)) ++
    strL "\n::"

/-- Matcher for the Raises pattern: parsed exception items become a callout
component; an empty body or a body without items re-emits the whole match
(`match.group(0)`) unchanged. -/
def tryRaisesFn (h t : List Char) : Option (List Char × List Char) :=
  match sectionMatch t with
  | none => none
  | some (wc, g, r) =>
    let itemsText := pyStrip g
    if itemsText = [] then some (h ++ wc ++ g, r)
    else
      let items := findRaiseItems itemsText
      if items = [] then some (h ++ wc ++ g, r)
      else some (raisesReplacement items, r)

/-- Try each heading (in the backtracking order of the pattern, e.g.
`Notes` before `Note` for `Notes?`) at the current position. -/
def tryHeads (heads : List (List Char))
    (tryFn : List Char → List Char → Option (List Char × List Char))
    (s : List Char) : Option (List Char × List Char) :=
  match heads with
  | [] => none
  | h :: hs =>
    if h.isPrefixOf s then
      match tryFn h (s.drop h.length) with
      | some r => some r
      | none => tryHeads hs tryFn s
    else tryHeads hs tryFn s

/-- The generic `re.sub` scanner: at each position try the pattern; on a
match emit the replacement and resume after the matched span, otherwise
keep the character.  The fuel argument (instantiated with the string
length) only serves termination. -/
def scanGenF (heads : List (List Char))
    (tryFn : List Char → List Char → Option (List Char × List Char)) :
    Nat → List Char → List Char
  | 0, s => s
  | _, [] => []
  | fuel + 1, c :: cs =>
    match tryHeads heads tryFn (c :: cs) with
    | some (repl, rest) => repl ++ scanGenF heads tryFn fuel rest
    | none => c :: scanGenF heads tryFn fuel cs

def scanGen (heads : List (List Char))
    (tryFn : List Char → List Char → Option (List Char × List Char))
    (s : List Char) : List Char :=
  scanGenF heads tryFn s.length s

/-- Source: `_convert_section_to_mdc(docstring, "Arguments", "arguments")`. -/
def convert_arguments (s : List Char) : List Char :=
  scanGen [strL "**Arguments**:"] tryArgsFn s

/-- Source: `_convert_returns_to_mdc`. -/
def convert_returns (s : List Char) : List Char :=
  scanGen [strL "**Returns**:"] tryReturnsFn s

/-- Source: `_convert_examples_to_mdc`. -/
def convert_examples (s : List Char) : List Char :=
  scanGen [strL "**Examples**:"] tryExamplesFn s

/-- Source: `_convert_notes_to_mdc` (pattern `\*\*Notes?\*\*:`). -/
def convert_notes (s : List Char) : List Char :=
  scanGen [strL "**Notes**:", strL "**Note**:"] tryNotesFn s

/-- Source: `_convert_warnings_to_mdc` (pattern `\*\*Warnings?\*\*:`). -/
def convert_warnings (s : List Char) : List Char :=
  scanGen [strL "**Warnings**:", strL "**Warning**:"] tryWarningsFn s

/-- Source: `_convert_raises_to_mdc`. -/
def convert_raises (s : List Char) : List Char :=
  scanGen [strL "**Raises**:"] tryRaisesFn s

/-- Grouping loop of `_convert_code_blocks_to_mdc`: a block whose gap to
the previous block contains more than two newlines starts a new group. -/
def groupBlocksGo (cur : List FencedBlock) : List FencedBlock → List (List FencedBlock)
  | [] => [cur]
  | b :: bs =>
    if 2 < countNL b.gap then cur :: groupBlocksGo [b] bs
    else groupBlocksGo (cur ++ [b]) bs

def groupBlocks : List FencedBlock → List (List FencedBlock)
  | [] => []
  | b :: bs => groupBlocksGo [b] bs

/-- The original text of a fenced block, re-emitted for singleton groups. -/
def blockText (b : FencedBlock) : List Char :=
  strL "```" ++ b.lang ++ strL "\n" ++ b.code ++ strL "\n```"

/-- Rendering of one group: a singleton keeps the original block, a larger
group is replaced (from the first block's start to the last block's end)
by one MDC code group; the leading gap is kept either way. -/
def renderGroup (g : List FencedBlock) : List Char :=
  match g with
  | [] => []
  | b :: bs =>
    if bs = [] then b.gap ++ blockText b
    else b.gap ++ create_mdc_code_group ((b :: bs).map blockRecord)
      (mdcComponent "code_block" (strL "UCodeGroup"))

/-- Source: `_convert_code_blocks_to_mdc`.  With at most one match the
docstring is returned unchanged; otherwise each group of two or more
blocks is spliced out and replaced by a code-group component (the
sequential offset bookkeeping of the source performs exactly this
replacement). -/
def convert_code_blocks (s : List Char) : List Char :=
  let p := findBlocks s
  if p.1.length ≤ 1 then s
  else (groupBlocks p.1).flatMap renderGroup ++ p.2

/-- Source: `MDCMarkdownRenderer._process_docstring_for_mdc`: the seven
rewrites in source order, code-block grouping last. -/
def process_docstring_for_mdc (s : List Char) : List Char :=
  convert_code_blocks (convert_raises (convert_warnings (convert_notes
    (convert_examples (convert_returns (convert_arguments s))))))

/-! ## A substring toolkit

`hasSubB p s` decides whether `p` occurs inside `s` (Python's `in`);
`NoOcc p s` is the propositional absence of an occurrence.  The
append-decomposition lemma and the two boundary combinators reduce
non-occurrence in a concatenation to non-occurrence in the parts plus a
one-character check at each seam. -/

def hasSubB (p : List Char) : List Char → Bool
  | [] => p.isEmpty
  | c :: cs => p.isPrefixOf (c :: cs) || hasSubB p cs

theorem hasSubB_iff (p s : List Char) : hasSubB p s = true ↔ p <:+: s := by
  induction s with
  | nil =>
    simp [hasSubB, List.isEmpty_iff, List.infix_nil]
  | cons c cs ih =>
    simp only [hasSubB, Bool.or_eq_true, List.isPrefixOf_iff_prefix, ih, List.infix_cons_iff]

def NoOcc (p s : List Char) : Prop := ¬ p <:+: s

theorem noOcc_of_hasSubB (p s : List Char) (h : hasSubB p s = false) : NoOcc p s := by
  intro hi
  rw [(hasSubB_iff p s).mpr hi] at h
  exact Bool.noConfusion h

theorem noOcc_of_not_mem (p s : List Char) (c : Char) (hc : c ∈ p) (hs : c ∉ s) : NoOcc p s :=
  fun h => hs (h.subset hc)

theorem infix_append_cases (p a b : List Char) (h : p <:+: a ++ b) :
    p <:+: a ∨ p <:+: b ∨
      ∃ p₁ p₂, p = p₁ ++ p₂ ∧ p₁ ≠ [] ∧ p₂ ≠ [] ∧ p₁ <:+ a ∧ p₂ <+: b := by
  induction a with
  | nil => right; left; simpa using h
  | cons c a2 ih =>
    rw [List.cons_append, List.infix_cons_iff] at h
    rcases h with hpre | hinf
    · by_cases hlen : p.length ≤ (c :: a2).length
      · left
        exact (List.prefix_of_prefix_length_le hpre
          (List.prefix_append (c :: a2) b) (by simpa using hlen)).isInfix
      · right; right
        obtain ⟨t, ht⟩ := hpre
        have hle : (c :: a2).length ≤ p.length := Nat.le_of_not_le hlen
        have htake : p.take (c :: a2).length = c :: a2 := by
          have h1 : (p ++ t).take (c :: a2).length = ((c :: a2) ++ b).take (c :: a2).length := by
            rw [ht]; rfl
          rw [List.take_append_eq_append_take, Nat.sub_eq_zero_of_le hle, List.take_zero,
            List.append_nil, List.take_append_eq_append_take, Nat.sub_self, List.take_zero,
            List.append_nil, List.take_length] at h1
          exact h1
        have hdrop : p.drop (c :: a2).length ++ t = b := by
          have h1 : (p ++ t).drop (c :: a2).length = ((c :: a2) ++ b).drop (c :: a2).length := by
            rw [ht]; rfl
          rw [List.drop_append_of_le_length hle,
            List.drop_append_of_le_length (Nat.le_refl _), List.drop_length,
            List.nil_append] at h1
          exact h1
        refine ⟨c :: a2, p.drop (c :: a2).length, ?_, by simp, ?_, List.suffix_refl _, ⟨t, hdrop⟩⟩
        · have hsplit := List.take_append_drop ((c :: a2).length) p
          rw [htake] at hsplit
          exact hsplit.symm
        · intro hnil
          have hl : p.length - (c :: a2).length = 0 := by
            rw [← List.length_drop, hnil]; rfl
          omega
    · rcases ih hinf with h1 | h2 | ⟨p₁, p₂, hp, h1, h2, hsuf, hpre2⟩
      · exact Or.inl (List.infix_cons h1)
      · exact Or.inr (Or.inl h2)
      · exact Or.inr (Or.inr ⟨p₁, p₂, hp, h1, h2,
          hsuf.trans (List.suffix_cons c a2), hpre2⟩)

theorem getLast?_of_suffix (p₁ a : List Char) (h : p₁ <:+ a) (hne : p₁ ≠ []) :
    a.getLast? = p₁.getLast? := by
  obtain ⟨pre, hp⟩ := h
  rw [← hp, List.getLast?_append_of_ne_nil pre hne]

theorem last_mem_dropLast (p p₁ p₂ : List Char) (hp : p = p₁ ++ p₂)
    (h1 : p₁ ≠ []) (h2 : p₂ ≠ []) : p₁.getLast h1 ∈ p.dropLast := by
  rw [hp, List.dropLast_append_of_ne_nil _ h2]
  exact List.mem_append_left _ (List.getLast_mem h1)

theorem head_mem_tail (p p₁ p₂ : List Char) (hp : p = p₁ ++ p₂)
    (h1 : p₁ ≠ []) (h2 : p₂ ≠ []) : p₂.head h2 ∈ p.tail := by
  rw [hp]
  cases p₁ with
  | nil => exact absurd rfl h1
  | cons c r =>
    rw [List.cons_append, List.tail_cons]
    exact List.mem_append_right r (List.head_mem h2)

/-- Boundary combinator: no occurrence crosses the seam when the last
character of the left part cannot be a non-final pattern character. -/
theorem noOcc_append_left (p a b : List Char) (hpa : NoOcc p a) (hpb : NoOcc p b)
    (ch : Char) (hlast : a.getLast? = some ch) (hch : ch ∉ p.dropLast) :
    NoOcc p (a ++ b) := by
  intro h
  rcases infix_append_cases p a b h with h1 | h2 | ⟨p₁, p₂, hp, h1, h2, hsuf, hpre⟩
  · exact hpa h1
  · exact hpb h2
  · have hl : a.getLast? = p₁.getLast? := getLast?_of_suffix p₁ a hsuf h1
    have hmem := last_mem_dropLast p p₁ p₂ hp h1 h2
    have heq : p₁.getLast h1 = ch := by
      rw [List.getLast?_eq_getLast p₁ h1] at hl
      rw [hlast] at hl
      exact (Option.some.inj hl).symm
    rw [heq] at hmem
    exact hch hmem

/-- Boundary combinator: no occurrence crosses the seam when the first
character of the right part cannot be a non-initial pattern character. -/
theorem noOcc_append_right (p a b : List Char) (hpa : NoOcc p a) (hpb : NoOcc p b)
    (ch : Char) (hhead : b.head? = some ch) (hch : ch ∉ p.tail) :
    NoOcc p (a ++ b) := by
  intro h
  rcases infix_append_cases p a b h with h1 | h2 | ⟨p₁, p₂, hp, h1, h2, hsuf, hpre⟩
  · exact hpa h1
  · exact hpb h2
  · have hh : b.head? = p₂.head? := (head_eq_of_pre p₂ b hpre h2)
    have hmem := head_mem_tail p p₁ p₂ hp h1 h2
    have heq : p₂.head h2 = ch := by
      rw [List.head?_eq_head h2] at hh
      rw [hhead] at hh
      exact (Option.some.inj hh).symm
    rw [heq] at hmem
    exact hch hmem

/-- Every character of a star-free string differs from `*`; patterns
containing a star therefore cannot occur in it. -/
theorem noOcc_of_star_free (p s : List Char) (hp : '*' ∈ p)
    (hs : ∀ c ∈ s, c ≠ '*') : NoOcc p s :=
  noOcc_of_not_mem p s '*' hp (fun hmem => hs '*' hmem rfl)

theorem infix_mid (p a b : List Char) : p <:+: a ++ (p ++ b) :=
  ⟨a, b, by simp⟩

theorem infix_lift_right (p a b : List Char) (h : p <:+: b) : p <:+: a ++ b := by
  obtain ⟨s, t, hst⟩ := h
  exact ⟨a ++ s, t, by rw [← hst]; simp⟩

theorem infix_lift_left (p a b : List Char) (h : p <:+: a) : p <:+: a ++ b := by
  obtain ⟨s, t, hst⟩ := h
  exact ⟨s, t ++ b, by rw [← hst]; simp⟩

/-! ## Generic facts about the `re.sub` scanner -/

theorem tryHeads_none_of_head_ne (heads : List (List Char))
    (tryFn : List Char → List Char → Option (List Char × List Char))
    (c : Char) (x : List Char)
    (hstar : ∀ h ∈ heads, h.head? = some '*') (hc : c ≠ '*') :
    tryHeads heads tryFn (c :: x) = none := by
  induction heads with
  | nil => rfl
  | cons h hs ih =>
    have hh : h.head? = some '*' := hstar h (by simp)
    obtain ⟨h0, hr, rfl⟩ : ∃ h0 hr, h = h0 :: hr := by
      cases h with
      | nil => exact absurd hh (by simp)
      | cons a b => exact ⟨a, b, rfl⟩
    have h0star : h0 = '*' := by simpa using hh
    rw [tryHeads, if_neg ?hpre]
    · exact ih (fun h2 hm => hstar h2 (by simp [hm]))
    case hpre =>
      intro hp
      rw [List.isPrefixOf_iff_prefix] at hp
      have := head_eq_of_pre _ _ hp (by simp)
      rw [List.head?_cons, List.head?_cons, h0star] at this
      exact hc (Option.some.inj this).symm.symm

theorem tryHeads_none_of_no_prefix (heads : List (List Char))
    (tryFn : List Char → List Char → Option (List Char × List Char)) (s : List Char)
    (h : ∀ hd ∈ heads, ¬ hd <+: s) :
    tryHeads heads tryFn s = none := by
  induction heads with
  | nil => rfl
  | cons hd hs ih =>
    rw [tryHeads, if_neg ?hpre]
    · exact ih (fun h2 hm => h h2 (by simp [hm]))
    case hpre =>
      intro hp
      exact h hd (by simp) (List.isPrefixOf_iff_prefix.mp hp)

theorem tryHeads_length (heads : List (List Char))
    (tryFn : List Char → List Char → Option (List Char × List Char))
    (htry : ∀ h t r rest, tryFn h t = some (r, rest) → rest.length ≤ t.length)
    (hne : ∀ h ∈ heads, h ≠ []) (s repl rest : List Char)
    (hsome : tryHeads heads tryFn s = some (repl, rest)) :
    rest.length < s.length := by
  induction heads with
  | nil => exact absurd hsome (by simp [tryHeads])
  | cons hd hs ih =>
    rw [tryHeads] at hsome
    by_cases hp : hd.isPrefixOf s
    · rw [if_pos hp] at hsome
      cases htf : tryFn hd (s.drop hd.length) with
      | some r =>
        rw [htf] at hsome
        obtain ⟨r1, r2⟩ := r
        have hrr : (r1, r2) = (repl, rest) := Option.some.inj hsome
        have hr2 : r2 = rest := congrArg Prod.snd hrr
        rw [← hr2]
        have hl1 := htry hd (s.drop hd.length) r1 r2 htf
        have hl2 : hd.length ≤ s.length :=
          (List.isPrefixOf_iff_prefix.mp hp).length_le
        have hl3 : 1 ≤ hd.length := by
          have := hne hd (by simp)
          cases hd with
          | nil => exact absurd rfl this
          | cons a b => simp
        rw [List.length_drop] at hl1
        omega
      | none =>
        rw [htf] at hsome
        exact ih (fun h2 hm => hne h2 (by simp [hm])) hsome
    · rw [if_neg hp] at hsome
      exact ih (fun h2 hm => hne h2 (by simp [hm])) hsome

theorem scanGenF_fuel_eq (heads : List (List Char))
    (tryFn : List Char → List Char → Option (List Char × List Char))
    (htry : ∀ h t r rest, tryFn h t = some (r, rest) → rest.length ≤ t.length)
    (hne : ∀ h ∈ heads, h ≠ []) (f1 : Nat) :
    ∀ (f2 : Nat) (s : List Char), s.length ≤ f1 → s.length ≤ f2 →
      scanGenF heads tryFn f1 s = scanGenF heads tryFn f2 s := by
  induction f1 with
  | zero =>
    intro f2 s h1 h2
    have hs : s = [] := List.eq_nil_of_length_eq_zero (Nat.le_zero.mp h1)
    subst hs
    cases f2 <;> rfl
  | succ f1 ih =>
    intro f2 s h1 h2
    cases s with
    | nil => cases f2 <;> rfl
    | cons c cs =>
      cases f2 with
      | zero => simp at h2
      | succ f2 =>
        simp only [List.length_cons] at h1 h2
        cases htr : tryHeads heads tryFn (c :: cs) with
        | some r =>
          obtain ⟨repl, rest⟩ := r
          have hlt := tryHeads_length heads tryFn htry hne (c :: cs) repl rest htr
          simp only [List.length_cons] at hlt
          simp only [scanGenF, htr]
          rw [ih f2 rest (by omega) (by omega)]
        | none =>
          simp only [scanGenF, htr]
          rw [ih f2 cs (by omega) (by omega)]

theorem scanGen_cons_none (heads : List (List Char))
    (tryFn : List Char → List Char → Option (List Char × List Char))
    (c : Char) (cs : List Char) (h : tryHeads heads tryFn (c :: cs) = none) :
    scanGen heads tryFn (c :: cs) = c :: scanGen heads tryFn cs := by
  simp only [scanGen, List.length_cons, scanGenF, h]

theorem scanGen_some (heads : List (List Char))
    (tryFn : List Char → List Char → Option (List Char × List Char))
    (htry : ∀ h t r rest, tryFn h t = some (r, rest) → rest.length ≤ t.length)
    (hne : ∀ h ∈ heads, h ≠ []) (s repl rest : List Char)
    (h : tryHeads heads tryFn s = some (repl, rest)) (hs : s ≠ []) :
    scanGen heads tryFn s = repl ++ scanGen heads tryFn rest := by
  obtain ⟨c, cs, rfl⟩ := List.exists_cons_of_ne_nil hs
  have hlt := tryHeads_length heads tryFn htry hne (c :: cs) repl rest h
  simp only [scanGen, List.length_cons, scanGenF, h]
  congr 1
  exact scanGenF_fuel_eq heads tryFn htry hne cs.length rest.length rest
    (by simp only [List.length_cons] at hlt; omega) (Nat.le_refl _)

theorem scanGen_append_star_free (heads : List (List Char))
    (tryFn : List Char → List Char → Option (List Char × List Char))
    (hstar : ∀ h ∈ heads, h.head? = some '*') (a b : List Char)
    (ha : ∀ c ∈ a, c ≠ '*') :
    scanGen heads tryFn (a ++ b) = a ++ scanGen heads tryFn b := by
  induction a with
  | nil => simp
  | cons c a2 ih =>
    rw [List.cons_append,
      scanGen_cons_none heads tryFn c (a2 ++ b)
        (tryHeads_none_of_head_ne heads tryFn c (a2 ++ b) hstar (ha c (by simp))),
      ih (fun x hx => ha x (by simp [hx])), List.cons_append]

theorem scanGen_id_of_suffix_none (heads : List (List Char))
    (tryFn : List Char → List Char → Option (List Char × List Char)) (s : List Char)
    (h : ∀ b, b <:+ s → b ≠ [] → tryHeads heads tryFn b = none) :
    scanGen heads tryFn s = s := by
  induction s with
  | nil => rfl
  | cons c cs ih =>
    rw [scanGen_cons_none heads tryFn c cs (h (c :: cs) (List.suffix_refl _) (by simp)),
      ih (fun b hb hbne => h b (hb.trans (List.suffix_cons c cs)) hbne)]

theorem scanGen_id_of_noOcc (heads : List (List Char))
    (tryFn : List Char → List Char → Option (List Char × List Char)) (s : List Char)
    (h : ∀ hd ∈ heads, NoOcc hd s) :
    scanGen heads tryFn s = s := by
  apply scanGen_id_of_suffix_none
  intro b hb hbne
  apply tryHeads_none_of_no_prefix
  intro hd hm hp
  exact h hd hm (hp.isInfix.trans hb.isInfix)

/-! ## Length bounds for the individual matchers -/

theorem lazyBody_suffix (s : List Char) : (lazyBody s).2 <:+ s := by
  induction s with
  | nil => exact List.suffix_refl _
  | cons c cs ih =>
    rw [lazyBody]
    split
    · exact List.suffix_refl _
    · exact ih.trans (List.suffix_cons c cs)

theorem lazyUntilFence_suffix (s g r : List Char) (h : lazyUntilFence s = some (g, r)) :
    r <:+ s := by
  induction s generalizing g r with
  | nil => exact absurd h (by simp [lazyUntilFence])
  | cons c cs ih =>
    rw [lazyUntilFence] at h
    split at h
    · have : r = (c :: cs).drop 4 := by
        have := Option.some.inj h
        exact (congrArg Prod.snd this).symm
      rw [this]
      exact List.drop_suffix _ _
    · cases hlz : lazyUntilFence cs with
      | none => rw [hlz] at h; exact absurd h (by simp)
      | some p =>
        rw [hlz] at h
        obtain ⟨g2, r2⟩ := p
        have : r = r2 := by
          have := Option.some.inj h
          exact (congrArg Prod.snd this).symm
        rw [this]
        exact (ih g2 r2 hlz).trans (List.suffix_cons c cs)

theorem parseBullet_suffix (t i₁ i₂ rest : List Char)
    (h : parseBullet t = some ((i₁, i₂), rest)) : rest <:+ t := by
  simp only [parseBullet] at h
  split at h
  · split at h
    · exact absurd h (by simp)
    · split at h
      · split at h
        · exact absurd h (by simp)
        · simp only [Option.some.injEq, Prod.mk.injEq] at h
          obtain ⟨-, hr⟩ := h
          rw [← hr]
          exact ((List.drop_suffix _ _).trans ((List.dropWhile_suffix _).trans
            ((List.drop_suffix _ _).trans ((List.dropWhile_suffix _).trans
              (List.drop_suffix _ _)))))
      · exact absurd h (by simp)
  · exact absurd h (by simp)

theorem parseBullets_suffix (fuel : Nat) (t : List Char) : (parseBullets fuel t).2 <:+ t := by
  induction fuel generalizing t with
  | zero => exact List.suffix_refl _
  | succ fuel ih =>
    rw [parseBullets]
    cases hpb : parseBullet t with
    | none => exact List.suffix_refl _
    | some p =>
      obtain ⟨⟨i₁, i₂⟩, rest0⟩ := p
      have hrest : rest0 <:+ t := parseBullet_suffix t i₁ i₂ rest0 hpb
      rcases hin : parseBullets fuel (rest0.dropWhile pySpace) with ⟨items, rest2⟩
      have h2 : rest2 <:+ rest0.dropWhile pySpace := by
        have := ih (rest0.dropWhile pySpace)
        rw [hin] at this
        exact this
      show (match parseBullets fuel (rest0.dropWhile pySpace) with
        | ([], _) => ([(i₁, i₂)], rest0)
        | (items, rest2) => ((i₁, i₂) :: items, rest2)).2 <:+ t
      rw [hin]
      cases items with
      | nil => exact hrest
      | cons i is => exact (h2.trans (List.dropWhile_suffix _)).trans hrest

theorem tryRaiseItem_suffix (t i₁ i₂ rest : List Char)
    (h : tryRaiseItem t = some ((i₁, i₂), rest)) : rest <:+ t := by
  simp only [tryRaiseItem] at h
  split at h
  · split at h
    · exact absurd h (by simp)
    · split at h
      · split at h
        · exact absurd h (by simp)
        · simp only [Option.some.injEq, Prod.mk.injEq] at h
          obtain ⟨-, hr⟩ := h
          rw [← hr]
          exact ((List.dropWhile_suffix _).trans ((List.drop_suffix _ _).trans
            ((List.dropWhile_suffix _).trans (List.drop_suffix _ _))))
      · exact absurd h (by simp)
  · exact absurd h (by simp)

theorem tryBlock_suffix (t lang code rest : List Char)
    (h : tryBlock t = some ((lang, code), rest)) : rest <:+ t := by
  simp only [tryBlock] at h
  split at h
  · split at h
    · cases hlz : lazyUntilFence (((t.drop 3).dropWhile isWordChar).drop 1) with
      | none => rw [hlz] at h; exact absurd h (by simp)
      | some p =>
        rw [hlz] at h
        obtain ⟨g2, r2⟩ := p
        simp only [Option.map, Option.some.injEq, Prod.mk.injEq] at h
        obtain ⟨-, hr⟩ := h
        rw [← hr]
        exact ((lazyUntilFence_suffix _ g2 r2 hlz).trans ((List.drop_suffix _ _).trans
          ((List.dropWhile_suffix _).trans (List.drop_suffix _ _))))
    · exact absurd h (by simp)
  · exact absurd h (by simp)

theorem findLastNN_bound (w : List Char) (k : Nat) (h : findLastNN w = some k) :
    k + 2 ≤ w.length := by
  have hmem := List.mem_of_mem_getLast? h
  rw [List.mem_filter] at hmem
  obtain ⟨hrange, hpre⟩ := hmem
  have h2 : (strL "\n\n") <+: w.drop k :=
    List.isPrefixOf_iff_prefix.mp (by simpa using hpre)
  have h3 : 2 ≤ (w.drop k).length := by
    have := h2.length_le
    simpa using this
  rw [List.length_drop] at h3
  have h4 : k < w.length := by simpa using List.mem_range.mp hrange
  omega

theorem findFirstNN_bound (w : List Char) (k : Nat) (h : findFirstNN w = some k) :
    k + 2 ≤ w.length := by
  have hmem := List.mem_of_mem_head? h
  rw [List.mem_filter] at hmem
  obtain ⟨hrange, hpre⟩ := hmem
  have h2 : (strL "\n\n") <+: w.drop k :=
    List.isPrefixOf_iff_prefix.mp (by simpa using hpre)
  have h3 : 2 ≤ (w.drop k).length := by
    have := h2.length_le
    simpa using this
  rw [List.length_drop] at h3
  have h4 : k < w.length := by simpa using List.mem_range.mp hrange
  omega

theorem takeWhile_dropWhile_length (p : Char → Bool) (t : List Char) :
    (t.takeWhile p).length + (t.dropWhile p).length = t.length := by
  have h := congrArg List.length (List.takeWhile_append_dropWhile p t)
  rw [List.length_append] at h
  exact h

theorem sectionMatch_rest_length (t wc g r : List Char)
    (h : sectionMatch t = some (wc, g, r)) : r.length ≤ t.length := by
  simp only [sectionMatch] at h
  cases hk : findLastNN (t.takeWhile pySpace) with
  | none => rw [hk] at h; exact absurd h (by simp)
  | some k =>
    rw [hk] at h
    have hr := congrArg (fun q => q.2.2) (Option.some.inj h)
    simp only at hr
    have hlen := (lazyBody_suffix ((t.takeWhile pySpace).drop (k + 2) ++
      t.dropWhile pySpace)).length_le
    rw [hr] at hlen
    have hb := findLastNN_bound _ k hk
    have htot := takeWhile_dropWhile_length pySpace t
    rw [List.length_append, List.length_drop] at hlen
    omega

theorem tryArgsFn_length (h t r rest : List Char)
    (hs : tryArgsFn h t = some (r, rest)) : rest.length ≤ t.length := by
  rw [tryArgsFn] at hs
  cases hta : tryArgs t with
  | none => rw [hta] at hs; exact absurd hs (by simp)
  | some p =>
    rw [hta] at hs
    obtain ⟨items, rest2⟩ := p
    simp only [Option.map] at hs
    have hr : rest2 = rest := congrArg Prod.snd (Option.some.inj hs)
    simp only [tryArgs] at hta
    split at hta
    · rcases hpb : parseBullets (t.dropWhile pySpace).length (t.dropWhile pySpace)
        with ⟨items2, rest3⟩
      rw [hpb] at hta
      cases items2 with
      | nil => exact absurd hta (by simp)
      | cons i is =>
        have h3 : rest3 = rest2 := by
          have := Option.some.inj hta
          exact congrArg Prod.snd this
        have hsuf := parseBullets_suffix (t.dropWhile pySpace).length (t.dropWhile pySpace)
        rw [hpb] at hsuf
        rw [← hr, ← h3]
        exact Nat.le_trans hsuf.length_le (List.dropWhile_suffix pySpace).length_le
    · exact absurd hta (by simp)

theorem tryReturnsFn_length (h t r rest : List Char)
    (hs : tryReturnsFn h t = some (r, rest)) : rest.length ≤ t.length := by
  rw [tryReturnsFn] at hs
  cases hk : findFirstNN (t.takeWhile pySpace) with
  | none => rw [hk] at hs; exact absurd hs (by simp)
  | some k =>
    rw [hk] at hs
    simp only at hs
    have hb := findFirstNN_bound _ k hk
    have htot := takeWhile_dropWhile_length pySpace t
    split at hs
    · split at hs
      · exact absurd hs (by simp)
      · simp only [Option.some.injEq, Prod.mk.injEq] at hs
        obtain ⟨-, hrr⟩ := hs
        rw [← hrr]
        simp
    · split at hs
      · split at hs
        · split at hs
          · simp only [Option.some.injEq, Prod.mk.injEq] at hs
            obtain ⟨-, hrr⟩ := hs
            have h1 : 2 < (((t.takeWhile pySpace).drop (k + 2) ++
                t.dropWhile pySpace).takeWhile (fun c => !(c == '*'))).length := by
              assumption
            have h2 := takeWhile_dropWhile_length (fun c => !(c == '*'))
              ((t.takeWhile pySpace).drop (k + 2) ++ t.dropWhile pySpace)
            have h3 : ((t.takeWhile pySpace).drop (k + 2) ++
                t.dropWhile pySpace).length = (t.takeWhile pySpace).length - (k + 2) +
                (t.dropWhile pySpace).length := by
              rw [List.length_append, List.length_drop]
            rw [← hrr, List.length_append]
            have h4 : (strL "\n\n").length = 2 := by decide
            omega
          · exact absurd hs (by simp)
        · exact absurd hs (by simp)
      · exact absurd hs (by simp)

theorem tryExamplesFn_length (h t r rest : List Char)
    (hs : tryExamplesFn h t = some (r, rest)) : rest.length ≤ t.length := by
  rw [tryExamplesFn] at hs
  cases hsm : sectionMatch t with
  | none => rw [hsm] at hs; exact absurd hs (by simp)
  | some p =>
    rw [hsm] at hs
    obtain ⟨wc, g, r2⟩ := p
    simp only at hs
    have hr : rest = r2 := by
      split at hs
      · exact (congrArg Prod.snd (Option.some.inj hs)).symm
      · exact (congrArg Prod.snd (Option.some.inj hs)).symm
    rw [hr]
    exact sectionMatch_rest_length t wc g r2 hsm

theorem tryNotesFn_length (h t r rest : List Char)
    (hs : tryNotesFn h t = some (r, rest)) : rest.length ≤ t.length := by
  rw [tryNotesFn] at hs
  cases hsm : sectionMatch t with
  | none => rw [hsm] at hs; exact absurd hs (by simp)
  | some p =>
    rw [hsm] at hs
    obtain ⟨wc, g, r2⟩ := p
    simp only [Option.map] at hs
    have hr : rest = r2 := (congrArg Prod.snd (Option.some.inj hs)).symm
    rw [hr]
    exact sectionMatch_rest_length t wc g r2 hsm

theorem tryWarningsFn_length (h t r rest : List Char)
    (hs : tryWarningsFn h t = some (r, rest)) : rest.length ≤ t.length := by
  rw [tryWarningsFn] at hs
  cases hsm : sectionMatch t with
  | none => rw [hsm] at hs; exact absurd hs (by simp)
  | some p =>
    rw [hsm] at hs
    obtain ⟨wc, g, r2⟩ := p
    simp only [Option.map] at hs
    have hr : rest = r2 := (congrArg Prod.snd (Option.some.inj hs)).symm
    rw [hr]
    exact sectionMatch_rest_length t wc g r2 hsm

theorem tryRaisesFn_length (h t r rest : List Char)
    (hs : tryRaisesFn h t = some (r, rest)) : rest.length ≤ t.length := by
  rw [tryRaisesFn] at hs
  cases hsm : sectionMatch t with
  | none => rw [hsm] at hs; exact absurd hs (by simp)
  | some p =>
    rw [hsm] at hs
    obtain ⟨wc, g, r2⟩ := p
    simp only at hs
    have hr : rest = r2 := by
      split at hs
      · exact (congrArg Prod.snd (Option.some.inj hs)).symm
      · split at hs
        · exact (congrArg Prod.snd (Option.some.inj hs)).symm
        · exact (congrArg Prod.snd (Option.some.inj hs)).symm
    rw [hr]
    exact sectionMatch_rest_length t wc g r2 hsm

/-! ## Claim C10: plain-text passthrough -/

theorem infix_of_hasSubB (p s : List Char) (h : hasSubB p s = true) : p <:+: s :=
  (hasSubB_iff p s).mp h

theorem convert_code_blocks_id (s : List Char) (h : (findBlocks s).1.length ≤ 1) :
    convert_code_blocks s = s := by
  simp only [convert_code_blocks]
  rw [if_pos h]

/-- Claim C10: a docstring containing no `**` marker and at most one
fenced code block (at most one match of the fenced-block pattern) passes
through the whole pipeline unchanged. -/
theorem claim_C10 (doc : List Char) (hstars : NoOcc (strL "**") doc)
    (hblocks : (findBlocks doc).1.length ≤ 1) :
    process_docstring_for_mdc doc = doc := by
  have hsec : ∀ (heads : List (List Char))
      (tryFn : List Char → List Char → Option (List Char × List Char)),
      (∀ hd ∈ heads, hasSubB (strL "**") hd = true) →
      scanGen heads tryFn doc = doc := by
    intro heads tryFn hh
    apply scanGen_id_of_noOcc
    intro hd hm hi
    exact hstars ((infix_of_hasSubB _ _ (hh hd hm)).trans hi)
  rw [process_docstring_for_mdc, convert_arguments, hsec _ _ (by decide),
    convert_returns, hsec _ _ (by decide), convert_examples, hsec _ _ (by decide),
    convert_notes, hsec _ _ (by decide), convert_warnings, hsec _ _ (by decide),
    convert_raises, hsec _ _ (by decide)]
  exact convert_code_blocks_id doc hblocks

theorem claim_C10_witness :
    process_docstring_for_mdc (strL "plain text docstring\nwith several lines\n") =
      strL "plain text docstring\nwith several lines\n" :=
  claim_C10 (strL "plain text docstring\nwith several lines\n")
    (noOcc_of_hasSubB _ _ (by decide)) (by decide)

/-! ## String helpers for the section computations -/

set_option maxRecDepth 40000

theorem takeWhile_eq_self_of_all (p : Char → Bool) (l : List Char)
    (h : ∀ c ∈ l, p c = true) : l.takeWhile p = l := by
  induction l with
  | nil => rfl
  | cons c cs ih =>
    rw [List.takeWhile_cons_of_pos (h c (by simp))]
    rw [ih (fun x hx => h x (by simp [hx]))]

theorem dropWhile_eq_nil_of_all (p : Char → Bool) (l : List Char)
    (h : ∀ c ∈ l, p c = true) : l.dropWhile p = [] := by
  induction l with
  | nil => rfl
  | cons c cs ih =>
    rw [List.dropWhile_cons_of_pos (h c (by simp))]
    exact ih (fun x hx => h x (by simp [hx]))

theorem takeWhile_append_stop (p : Char → Bool) (a b : List Char)
    (ha : ∀ c ∈ a, p c = true) (hb : b.head?.all (fun c => !p c) = true) :
    (a ++ b).takeWhile p = a ∧ (a ++ b).dropWhile p = b := by
  constructor
  · rw [List.takeWhile_append_of_pos ha]
    cases b with
    | nil => simp
    | cons c cs =>
      simp only [Option.all, List.head?_cons, Bool.not_eq_true'] at hb
      rw [List.takeWhile_cons_of_neg (by simp [hb]), List.append_nil]
  · rw [List.dropWhile_append_of_pos ha]
    cases b with
    | nil => simp
    | cons c cs =>
      simp only [Option.all, List.head?_cons, Bool.not_eq_true'] at hb
      rw [List.dropWhile_cons_of_neg (by simp [hb])]

theorem dropWhile_eq_self_of_head (p : Char → Bool) (l : List Char)
    (h : l.head?.all (fun c => !p c) = true) : l.dropWhile p = l := by
  cases l with
  | nil => rfl
  | cons c cs =>
    simp only [Option.all, List.head?_cons, Bool.not_eq_true'] at h
    rw [List.dropWhile_cons_of_neg (by simp [h])]

theorem pyStrip_eq_self (l : List Char)
    (hh : l.head?.all (fun c => !pySpace c) = true)
    (hl : l.getLast?.all (fun c => !pySpace c) = true) : pyStrip l = l := by
  rw [pyStrip, dropWhile_eq_self_of_head pySpace l hh, dropTrailing,
    dropWhile_eq_self_of_head pySpace l.reverse (by rwa [List.head?_reverse]),
    List.reverse_reverse]

/-- Well-formedness of a free-text section body: non-empty, star-free, and
no leading or trailing whitespace (so `str.strip` is the identity). -/
def safeBody (body : List Char) : Bool :=
  (!body.isEmpty) && body.head?.all (fun c => !pySpace c) &&
    body.getLast?.all (fun c => !pySpace c) && body.all (fun c => !(c == '*'))

theorem safeBody_spec (body : List Char) (h : safeBody body = true) :
    body ≠ [] ∧ body.head?.all (fun c => !pySpace c) = true ∧
      body.getLast?.all (fun c => !pySpace c) = true ∧ ∀ c ∈ body, c ≠ '*' := by
  simp only [safeBody, Bool.and_eq_true, Bool.not_eq_true', List.isEmpty_iff,
    List.all_eq_true] at h
  obtain ⟨⟨⟨h1, h2⟩, h3⟩, h4⟩ := h
  refine ⟨fun hnil => by subst hnil; simp at h1, h2, h3, fun c hc heq => ?_⟩
  have := h4 c hc
  rw [heq] at this
  simp at this

theorem star_free_takeWhile (body : List Char) (h : ∀ c ∈ body, c ≠ '*') :
    body.takeWhile (fun c => !(c == '*')) = body :=
  takeWhile_eq_self_of_all _ body (fun c hc => by simp [h c hc])

theorem star_free_dropWhile (body : List Char) (h : ∀ c ∈ body, c ≠ '*') :
    body.dropWhile (fun c => !(c == '*')) = [] :=
  dropWhile_eq_nil_of_all _ body (fun c hc => by simp [h c hc])

/-! ## Claim C4: the Returns rewrite -/

theorem returnsReplacement_eq (c : List Char) :
    returnsReplacement c = strL "::u-returns\n" ++ c ++ strL "\n::" := by
  rw [returnsReplacement,
    show convert_to_kebab_case (mdcComponent "returns" (strL "UReturns")) = strL "u-returns"
      from by decide,
    show strL "::" ++ strL "u-returns" ++ strL "\n" = strL "::u-returns\n" from by decide]

/-- Claim C4, counterexample: a Returns body containing an asterisk is not
converted at all — the `[^*]+` group of the source pattern cannot match it
— although the claim promises conversion for bodies with arbitrary
characters. -/
theorem claim_C4_counterexample :
    convert_returns (strL "**Returns**:\n\na * b") = strL "**Returns**:\n\na * b" ∧
    hasSubB (strL "::u-returns") (convert_returns (strL "**Returns**:\n\na * b")) = false := by
  constructor
  · decide
  · decide

theorem tryReturnsFn_eos (h₀ body : List Char) (hsafe : safeBody body = true) :
    tryReturnsFn h₀ (strL "\n\n" ++ body) = some (returnsReplacement (pyStrip body), []) := by
  obtain ⟨hne, hh, hl, hstar⟩ := safeBody_spec body hsafe
  have hw := takeWhile_append_stop pySpace (strL "\n\n") body (by decide) hh
  rw [tryReturnsFn, hw.1, hw.2, show findFirstNN (strL "\n\n") = some 0 from by decide]
  simp only [show (strL "\n\n").drop (0 + 2) = [] from rfl, List.nil_append,
    star_free_takeWhile body hstar, star_free_dropWhile body hstar, if_true]
  rw [if_neg hne]

/-- Claim C4, amended: for a docstring consisting of a `**Returns**:`
heading, a blank line, and a free-text body that contains no asterisk and
no leading or trailing whitespace, the Returns rewrite replaces the
section with a single component block whose content is the body verbatim.
(The counterexample forces the no-asterisk restriction; the source also
strips surrounding whitespace from the body, hence the strip-invariance
condition for verbatim content.) -/
theorem claim_C4_amended (body : List Char) (hsafe : safeBody body = true) :
    convert_returns (strL "**Returns**:" ++ (strL "\n\n" ++ body)) =
      strL "::u-returns\n" ++ body ++ strL "\n::" := by
  obtain ⟨hne, hh, hl, hstar⟩ := safeBody_spec body hsafe
  have hthd : tryHeads [strL "**Returns**:"] tryReturnsFn
      (strL "**Returns**:" ++ (strL "\n\n" ++ body)) =
      some (returnsReplacement (pyStrip body), []) := by
    rw [tryHeads,
      if_pos (List.isPrefixOf_iff_prefix.mpr (List.prefix_append _ _)),
      List.drop_left, tryReturnsFn_eos (strL "**Returns**:") body hsafe]
  rw [convert_returns,
    scanGen_some _ _ tryReturnsFn_length
      (by intro h2 hm; simp at hm; rw [hm]; decide) _ _ _ hthd (List.cons_ne_nil _ _),
    show scanGen [strL "**Returns**:"] tryReturnsFn [] = [] from rfl,
    List.append_nil, pyStrip_eq_self body hh hl, returnsReplacement_eq]

theorem claim_C4_amended_witness :
    safeBody (strL "the result value") = true ∧
    convert_returns (strL "**Returns**:" ++ (strL "\n\n" ++ strL "the result value")) =
      strL "::u-returns\n" ++ strL "the result value" ++ strL "\n::" :=
  ⟨by decide, claim_C4_amended (strL "the result value") (by decide)⟩

/-! ## Claim C2: the Arguments rewrite -/

/-- A well-formed Arguments bullet line. -/
def argBullet (n d : List Char) : List Char :=
  strL "- `" ++ (n ++ (strL "` - " ++ (d ++ strL "\n")))

/-- The concatenation of a list of bullet lines. -/
def argBullets (items : List (List Char × List Char)) : List Char :=
  items.flatMap (fun it => argBullet it.1 it.2)

/-- Valid bullet name: non-empty and backtick-free. -/
def bulletName (n : List Char) : Bool :=
  (!n.isEmpty) && n.all (fun c => !(c == '`'))

/-- Valid bullet description: non-empty and newline-free. -/
def bulletDesc (d : List Char) : Bool :=
  (!d.isEmpty) && d.all (fun c => !(c == '\n'))

theorem isPrefixOf_append_self (a b : List Char) : a.isPrefixOf (a ++ b) = true :=
  List.isPrefixOf_iff_prefix.mpr (List.prefix_append a b)

theorem drop_strL (s : String) (n : Nat) (h : (strL s).length = n) (x : List Char) :
    (strL s ++ x).drop n = x := by
  rw [← h]
  exact List.drop_left _ _

theorem bulletName_spec (n : List Char) (h : bulletName n = true) :
    n ≠ [] ∧ ∀ c ∈ n, (!(c == '`')) = true := by
  simp only [bulletName, Bool.and_eq_true, Bool.not_eq_true', List.isEmpty_iff,
    List.all_eq_true] at h
  obtain ⟨h1, h2⟩ := h
  exact ⟨fun hnil => by subst hnil; simp at h1, fun c hc => by simp [h2 c hc]⟩

theorem bulletDesc_spec (d : List Char) (h : bulletDesc d = true) :
    d ≠ [] ∧ ∀ c ∈ d, (!(c == '\n')) = true := by
  simp only [bulletDesc, Bool.and_eq_true, Bool.not_eq_true', List.isEmpty_iff,
    List.all_eq_true] at h
  obtain ⟨h1, h2⟩ := h
  exact ⟨fun hnil => by subst hnil; simp at h1, fun c hc => by simp [h2 c hc]⟩

theorem parseBullet_bullet (n d rest : List Char)
    (hn : bulletName n = true) (hd : bulletDesc d = true) :
    parseBullet (argBullet n d ++ rest) = some ((n, d), rest) := by
  obtain ⟨hn1, hn2⟩ := bulletName_spec n hn
  obtain ⟨hd1, hd2⟩ := bulletDesc_spec d hd
  have hshape : argBullet n d ++ rest =
      strL "- `" ++ (n ++ (strL "` - " ++ (d ++ (strL "\n" ++ rest)))) := by
    simp [argBullet, List.append_assoc]
  have h1 := takeWhile_append_stop (fun c => !(c == '`')) n
    (strL "` - " ++ (d ++ (strL "\n" ++ rest))) hn2 rfl
  have h2 := takeWhile_append_stop (fun c => !(c == '\n')) d (strL "\n" ++ rest) hd2 rfl
  rw [hshape]
  simp only [parseBullet, isPrefixOf_append_self, drop_strL "- `" 3 rfl, h1.1, h1.2,
    if_true, drop_strL "` - " 4 rfl, h2.1, h2.2, drop_strL "\n" 1 rfl]
  rw [if_neg hn1, if_neg hd1]

theorem parseBullets_none (fuel : Nat) (t : List Char) (h : parseBullet t = none) :
    parseBullets fuel t = ([], t) := by
  cases fuel with
  | zero => rfl
  | succ f => rw [parseBullets, h]

theorem argBullets_cons_head (n d : List Char) (x : List Char) :
    ((argBullet n d ++ x).head?) = some '-' := rfl

theorem argBullets_length_lt (items : List (List Char × List Char)) (h : items ≠ []) :
    items.length < (argBullets items).length := by
  induction items with
  | nil => exact absurd rfl h
  | cons i is ih =>
    have hb : 3 ≤ (argBullet i.1 i.2).length := by
      rw [argBullet, List.length_append]
      have : (strL "- `").length = 3 := rfl
      omega
    rw [argBullets, List.flatMap_cons, List.length_append]
    cases is with
    | nil => simp at hb ⊢; omega
    | cons i2 is2 =>
      have := ih (by simp)
      rw [argBullets] at this
      simp only [List.length_cons] at this ⊢
      omega

theorem parseBullets_compute (items : List (List Char × List Char)) :
    ∀ (fuel : Nat) (junk : List Char), items.length < fuel →
    (∀ it ∈ items, bulletName it.1 = true ∧ bulletDesc it.2 = true) →
    parseBullet (junk.dropWhile pySpace) = none →
    items ≠ [] →
    parseBullets fuel (argBullets items ++ junk) = (items, junk) := by
  induction items with
  | nil => intro fuel junk h1 h2 h3 h4; exact absurd rfl h4
  | cons i is ih =>
    intro fuel junk h1 h2 h3 h4
    obtain ⟨n, d⟩ := i
    cases fuel with
    | zero => simp at h1
    | succ f =>
      have hi := h2 (n, d) (by simp)
      have hb : argBullets ((n, d) :: is) ++ junk =
          argBullet n d ++ (argBullets is ++ junk) := by
        rw [argBullets, List.flatMap_cons, List.append_assoc]
        rfl
      rw [hb, parseBullets, parseBullet_bullet n d (argBullets is ++ junk) hi.1 hi.2]
      show (match parseBullets f ((argBullets is ++ junk).dropWhile pySpace) with
          | ([], _) => ([(n, d)], argBullets is ++ junk)
          | (items2, rest2) => ((n, d) :: items2, rest2)) = ((n, d) :: is, junk)
      cases is with
      | nil =>
        rw [show argBullets ([] : List (List Char × List Char)) ++ junk = junk
          from by simp [argBullets]]
        rw [parseBullets_none f _ h3]
      | cons i2 is2 =>
        have hdw : (argBullets (i2 :: is2) ++ junk).dropWhile pySpace =
            argBullets (i2 :: is2) ++ junk := by
          apply dropWhile_eq_self_of_head
          rw [show argBullets (i2 :: is2) ++ junk =
            argBullet i2.1 i2.2 ++ (argBullets is2 ++ junk) from by
              rw [argBullets, List.flatMap_cons, List.append_assoc]; rfl]
          rfl
        rw [hdw, ih f junk (by simp at h1 ⊢; omega)
          (fun it hit => h2 it (by simp [hit])) h3 (by simp)]

theorem tryArgs_compute (items : List (List Char × List Char)) (junk : List Char)
    (h4 : items ≠ [])
    (h2 : ∀ it ∈ items, bulletName it.1 = true ∧ bulletDesc it.2 = true)
    (h3 : parseBullet (junk.dropWhile pySpace) = none) :
    tryArgs (strL "\n\n" ++ (argBullets items ++ junk)) = some (items, junk) := by
  obtain ⟨i, is, rfl⟩ := List.exists_cons_of_ne_nil h4
  have hsplit : argBullets (i :: is) ++ junk = argBullet i.1 i.2 ++ (argBullets is ++ junk) := by
    rw [argBullets, List.flatMap_cons, List.append_assoc]
    rfl
  have hhead : (argBullets (i :: is) ++ junk).head?.all (fun c => !pySpace c) = true := by
    rw [hsplit]
    rfl
  have hw := takeWhile_append_stop pySpace (strL "\n\n")
    (argBullets (i :: is) ++ junk) (by decide) hhead
  have hlen : (i :: is).length < (argBullets (i :: is) ++ junk).length := by
    have := argBullets_length_lt (i :: is) (by simp)
    rw [List.length_append]
    omega
  simp only [tryArgs, hw.1, hw.2]
  rw [if_pos (by decide : (2 : Nat) ≤ countNL (strL "\n\n")),
    parseBullets_compute (i :: is) _ junk hlen h2 h3 (by simp)]

theorem tryArgs_malformed (body : List Char)
    (hb2 : body.head?.all (fun c => !pySpace c) = true)
    (hb1 : parseBullet body = none) :
    tryArgs (strL "\n\n" ++ body) = none := by
  have hw := takeWhile_append_stop pySpace (strL "\n\n") body (by decide) hb2
  simp only [tryArgs, hw.1, hw.2]
  rw [if_pos (by decide : (2 : Nat) ≤ countNL (strL "\n\n")),
    parseBullets_none _ _ hb1]

theorem suffix_append_cases (b a c : List Char) (h : b <:+ a ++ c) :
    b <:+ c ∨ ∃ a2, a2 <:+ a ∧ a2 ≠ [] ∧ b = a2 ++ c := by
  obtain ⟨pre, hp⟩ := h
  by_cases hlen : b.length ≤ c.length
  · left
    have h1 : b.reverse <+: (a ++ c).reverse := by
      rw [← hp, List.reverse_append]
      exact List.prefix_append _ _
    rw [List.reverse_append] at h1
    have h2 : b.reverse <+: c.reverse :=
      List.prefix_of_prefix_length_le h1 (List.prefix_append _ _) (by simpa using hlen)
    exact List.reverse_prefix.mp h2
  · right
    have hlen2 : pre.length + b.length = a.length + c.length := by
      have := congrArg List.length hp
      simpa [List.length_append] using this
    have hle : pre.length ≤ a.length := by omega
    have htake : pre = a.take pre.length := by
      have h1 : (pre ++ b).take pre.length = (a ++ c).take pre.length := by rw [hp]
      rw [List.take_append_eq_append_take, Nat.sub_self, List.take_zero, List.append_nil,
        List.take_length] at h1
      rw [List.take_append_eq_append_take, Nat.sub_eq_zero_of_le hle, List.take_zero,
        List.append_nil] at h1
      exact h1
    refine ⟨a.drop pre.length, List.drop_suffix _ _, ?_, ?_⟩
    · intro hnil
      have h2 := congrArg List.length hnil
      rw [List.length_drop] at h2
      simp at h2
      omega
    · have h2 : pre ++ b = pre ++ (a.drop pre.length ++ c) := by
        rw [hp]
        conv_lhs => rw [← List.take_append_drop pre.length a]
        rw [← htake, List.append_assoc]
      exact List.append_cancel_left h2

theorem argsHead_not_prefix (a2 X : List Char) (h1 : a2 <:+ strL "**Arguments**:")
    (h2 : a2 ≠ []) (h3 : a2 ≠ strL "**Arguments**:") :
    (strL "**Arguments**:").isPrefixOf (a2 ++ X) = false := by
  have hmem : a2 ∈ (strL "**Arguments**:").tails := (List.mem_tails _ _).mpr h1
  fin_cases hmem <;> first | rfl | (exact absurd rfl h3) | (exact absurd rfl h2)

/-- Claim C2, counterexample: with a well-formed first bullet and a
malformed second line, the Arguments rewrite converts the leading bullet
and drops the heading while the malformed line stays behind — the section
is neither fully converted nor left untouched, contradicting the claimed
all-or-nothing behaviour. -/
theorem claim_C2_counterexample :
    convert_arguments (strL "**Arguments**:\n\n- `a` - ok\n- bad line\n") ≠
      strL "**Arguments**:\n\n- `a` - ok\n- bad line\n" ∧
    hasSubB (strL "**Arguments**:")
      (convert_arguments (strL "**Arguments**:\n\n- `a` - ok\n- bad line\n")) = false ∧
    hasSubB (strL "- bad line")
      (convert_arguments (strL "**Arguments**:\n\n- `a` - ok\n- bad line\n")) = true := by
  refine ⟨by decide, by decide, by decide⟩

/-- Claim C2, amended: the Arguments rewrite is conservative only at line
granularity.  It converts the maximal leading run of well-formed bullet
lines — replacing the heading and that run by a component with exactly
those items — and leaves everything from the first non-matching line
onwards in place; when already the first body line fails to match the
bullet shape, the whole section (heading included) is left untouched. -/
theorem claim_C2_amended :
    (∀ (items : List (List Char × List Char)) (junk : List Char),
      items ≠ [] →
      (∀ it ∈ items, bulletName it.1 = true ∧ bulletDesc it.2 = true) →
      parseBullet (junk.dropWhile pySpace) = none →
      NoOcc (strL "**Arguments**:") junk →
      convert_arguments (strL "**Arguments**:" ++ (strL "\n\n" ++ (argBullets items ++ junk))) =
        argsReplacement items ++ junk) ∧
    (∀ body : List Char,
      body.head?.all (fun c => !pySpace c) = true →
      parseBullet body = none →
      (∀ c ∈ body, c ≠ '*') →
      convert_arguments (strL "**Arguments**:" ++ (strL "\n\n" ++ body)) =
        strL "**Arguments**:" ++ (strL "\n\n" ++ body)) := by
  constructor
  · intro items junk h4 h2 h3 hocc
    have hthd : tryHeads [strL "**Arguments**:"] tryArgsFn
        (strL "**Arguments**:" ++ (strL "\n\n" ++ (argBullets items ++ junk))) =
        some (argsReplacement items, junk) := by
      rw [tryHeads, if_pos (isPrefixOf_append_self _ _), List.drop_left,
        tryArgsFn, tryArgs_compute items junk h4 h2 h3]
      rfl
    rw [convert_arguments,
      scanGen_some _ _ tryArgsFn_length
        (by intro hd hm; simp at hm; rw [hm]; decide) _ _ _ hthd (List.cons_ne_nil _ _),
      scanGen_id_of_noOcc _ _ junk (by intro hd hm; simp at hm; rw [hm]; exact hocc)]
  · intro body hb2 hb1 hb3
    rw [convert_arguments]
    apply scanGen_id_of_suffix_none
    intro b hb hbne
    rcases suffix_append_cases b (strL "**Arguments**:") (strL "\n\n" ++ body) hb with
      hcase | ⟨a2, hsuf, hane, rfl⟩
    · apply tryHeads_none_of_no_prefix
      intro hd hm hp
      simp only [List.mem_singleton] at hm
      subst hm
      have hstar : '*' ∈ b := hp.subset (by decide : '*' ∈ strL "**Arguments**:")
      have hmem : '*' ∈ strL "\n\n" ++ body := hcase.subset hstar
      rw [List.mem_append] at hmem
      rcases hmem with hx | hx
      · exact absurd hx (by decide)
      · exact hb3 '*' hx rfl
    · by_cases hfull : a2 = strL "**Arguments**:"
      · subst hfull
        rw [tryHeads, if_pos (isPrefixOf_append_self _ _), List.drop_left,
          tryArgsFn, tryArgs_malformed body hb2 hb1]
        rfl
      · have hnp := argsHead_not_prefix a2 (strL "\n\n" ++ body) hsuf hane hfull
        rw [tryHeads, if_neg (by rw [hnp]; simp)]
        rfl

theorem claim_C2_amended_witness :
    (([(strL "a", strL "ok")] : List (List Char × List Char)) ≠ [] ∧
      (∀ it ∈ ([(strL "a", strL "ok")] : List (List Char × List Char)),
        bulletName it.1 = true ∧ bulletDesc it.2 = true) ∧
      parseBullet ((strL "- bad line\n").dropWhile pySpace) = none ∧
      NoOcc (strL "**Arguments**:") (strL "- bad line\n") ∧
      convert_arguments (strL "**Arguments**:" ++
          (strL "\n\n" ++ (argBullets [(strL "a", strL "ok")] ++ strL "- bad line\n"))) =
        argsReplacement [(strL "a", strL "ok")] ++ strL "- bad line\n") ∧
    ((strL "just text").head?.all (fun c => !pySpace c) = true ∧
      parseBullet (strL "just text") = none ∧
      (∀ c ∈ strL "just text", c ≠ '*') ∧
      convert_arguments (strL "**Arguments**:" ++ (strL "\n\n" ++ strL "just text")) =
        strL "**Arguments**:" ++ (strL "\n\n" ++ strL "just text")) :=
  ⟨⟨by decide, by decide, by decide, noOcc_of_hasSubB _ _ (by decide),
      claim_C2_amended.1 [(strL "a", strL "ok")] (strL "- bad line\n") (by decide)
        (by decide) (by decide) (noOcc_of_hasSubB _ _ (by decide))⟩,
    ⟨by decide, by decide, by decide,
      claim_C2_amended.2 (strL "just text") (by decide) (by decide) (by decide)⟩⟩

/-! ## Computation of `re.finditer` on structured fenced-block text -/

theorem isPrefixOf_false_head (a b : Char) (p u : List Char) (h : a ≠ b) :
    (a :: p).isPrefixOf (b :: u) = false := by
  have h2 : ((a == b) && p.isPrefixOf u) = false := by
    rw [beq_eq_false_iff_ne.mpr h, Bool.false_and]
  exact h2

theorem tryBlock_none_of_head_ne (c : Char) (cs : List Char) (hc : c ≠ '`') :
    tryBlock (c :: cs) = none := by
  have h2 : (strL "```").isPrefixOf (c :: cs) = false :=
    isPrefixOf_false_head '`' c (strL "``") cs (fun he => hc he.symm)
  rw [tryBlock, if_neg (by rw [h2]; simp)]

theorem fence3_not_prefix (code rest : List Char) (hcode : ∀ c ∈ code, c ≠ '`') :
    (strL "```").isPrefixOf (code ++ (strL "\n```" ++ rest)) = false := by
  cases code with
  | nil => exact isPrefixOf_false_head '`' '\n' _ _ (by decide)
  | cons c cs =>
    exact isPrefixOf_false_head '`' c _ _
      (fun he => hcode c (List.mem_cons_self _ _) he.symm)

theorem lazyUntilFence_compute (code rest : List Char)
    (hcode : ∀ c ∈ code, c ≠ '`') :
    lazyUntilFence (code ++ (strL "\n```" ++ rest)) = some (code, rest) := by
  induction code with
  | nil =>
    show lazyUntilFence ('\n' :: (strL "```" ++ rest)) = some ([], rest)
    rw [lazyUntilFence,
      if_pos (show (strL "\n```").isPrefixOf ('\n' :: (strL "```" ++ rest)) = true
        from isPrefixOf_append_self (strL "\n```") rest)]
    rfl
  | cons c cs ih =>
    show lazyUntilFence (c :: (cs ++ (strL "\n```" ++ rest))) = some (c :: cs, rest)
    have hcond : (strL "\n```").isPrefixOf (c :: (cs ++ (strL "\n```" ++ rest))) = false := by
      by_cases hc : c = '\n'
      · subst hc
        show (('\n' == '\n') && (strL "```").isPrefixOf (cs ++ (strL "\n```" ++ rest))) = false
        rw [show ('\n' == '\n') = true from rfl, Bool.true_and]
        exact fence3_not_prefix cs rest (fun x hx => hcode x (List.mem_cons_of_mem _ hx))
      · exact isPrefixOf_false_head '\n' c _ _ (fun he => hc he.symm)
    rw [lazyUntilFence, if_neg (by rw [hcond]; simp),
      ih (fun x hx => hcode x (List.mem_cons_of_mem _ hx))]
    rfl

theorem tryBlock_compute (lang code rest : List Char)
    (hl : ∀ c ∈ lang, isWordChar c = true)
    (hcode : ∀ c ∈ code, c ≠ '`') :
    tryBlock (strL "```" ++ (lang ++ (strL "\n" ++ (code ++ (strL "\n```" ++ rest))))) =
      some ((lang, code), rest) := by
  have h3 : (strL "```" ++ (lang ++ (strL "\n" ++ (code ++ (strL "\n```" ++ rest))))).drop 3
      = lang ++ (strL "\n" ++ (code ++ (strL "\n```" ++ rest))) := rfl
  have hw := takeWhile_append_stop isWordChar lang (strL "\n" ++ (code ++ (strL "\n```" ++ rest)))
    hl (by rfl)
  simp only [tryBlock]
  rw [if_pos (isPrefixOf_append_self _ _), h3, hw.1, hw.2,
    if_pos (show (strL "\n" ++ (code ++ (strL "\n```" ++ rest))).head? = some '\n' from rfl),
    show (strL "\n" ++ (code ++ (strL "\n```" ++ rest))).drop 1 = code ++ (strL "\n```" ++ rest)
      from rfl,
    lazyUntilFence_compute code rest hcode]
  rfl

theorem tryBlock_rest_lt (t lang code rest : List Char)
    (h : tryBlock t = some ((lang, code), rest)) : rest.length < t.length := by
  have h3 : rest <:+ t.drop 3 := by
    simp only [tryBlock] at h
    split at h
    · split at h
      · cases hlz : lazyUntilFence (((t.drop 3).dropWhile isWordChar).drop 1) with
        | none => rw [hlz] at h; exact absurd h (by simp)
        | some p =>
          rw [hlz] at h
          obtain ⟨g2, r2⟩ := p
          simp only [Option.map, Option.some.injEq, Prod.mk.injEq] at h
          obtain ⟨-, hr⟩ := h
          rw [← hr]
          exact (lazyUntilFence_suffix _ g2 r2 hlz).trans
            ((List.drop_suffix _ _).trans (List.dropWhile_suffix _))
      · exact absurd h (by simp)
    · exact absurd h (by simp)
  cases t with
  | nil =>
    exact Option.noConfusion
      (show (none : Option ((List Char × List Char) × List Char)) = some ((lang, code), rest)
        from h)
  | cons c cs =>
    have h4 := h3.length_le
    rw [List.length_drop] at h4
    simp only [List.length_cons] at h4 ⊢
    omega

theorem findBlocksF_nofence (f : Nat) (s : List Char) (hs : ∀ c ∈ s, c ≠ '`') :
    findBlocksF f s = ([], s) := by
  induction f generalizing s with
  | zero => cases s <;> rfl
  | succ f ih =>
    cases s with
    | nil => rfl
    | cons c cs =>
      simp only [findBlocksF, tryBlock_none_of_head_ne c cs (hs c (by simp)),
        ih cs (fun x hx => hs x (by simp [hx]))]

theorem findBlocksF_fuel_eq (f1 : Nat) :
    ∀ (f2 : Nat) (s : List Char), s.length ≤ f1 → s.length ≤ f2 →
      findBlocksF f1 s = findBlocksF f2 s := by
  induction f1 with
  | zero =>
    intro f2 s h1 h2
    have hs : s = [] := List.eq_nil_of_length_eq_zero (Nat.le_zero.mp h1)
    subst hs
    cases f2 <;> rfl
  | succ f1 ih =>
    intro f2 s h1 h2
    cases s with
    | nil => cases f2 <;> rfl
    | cons c cs =>
      cases f2 with
      | zero => simp at h2
      | succ f2 =>
        simp only [List.length_cons] at h1 h2
        cases htr : tryBlock (c :: cs) with
        | some r =>
          obtain ⟨⟨lang, code⟩, rest⟩ := r
          have hlt := tryBlock_rest_lt (c :: cs) lang code rest htr
          simp only [List.length_cons] at hlt
          simp only [findBlocksF, htr]
          rw [ih f2 rest (by omega) (by omega)]
        | none =>
          simp only [findBlocksF, htr]
          rw [ih f2 cs (by omega) (by omega)]

theorem findBlocks_cons_none (c : Char) (cs : List Char) (h : tryBlock (c :: cs) = none) :
    findBlocks (c :: cs) =
      (match findBlocks cs with
       | ([], _) => ([], c :: cs)
       | (b :: entries, tail) => (⟨c :: b.gap, b.lang, b.code⟩ :: entries, tail)) := by
  simp only [findBlocks, List.length_cons, findBlocksF, h]

theorem findBlocks_some (s lang code rest : List Char)
    (h : tryBlock s = some ((lang, code), rest)) (hs : s ≠ []) :
    findBlocks s = (⟨[], lang, code⟩ :: (findBlocks rest).1, (findBlocks rest).2) := by
  obtain ⟨c, cs, rfl⟩ := List.exists_cons_of_ne_nil hs
  have hlt := tryBlock_rest_lt (c :: cs) lang code rest h
  simp only [List.length_cons] at hlt
  simp only [findBlocks, List.length_cons, findBlocksF, h]
  rw [findBlocksF_fuel_eq cs.length rest.length rest (by omega) (Nat.le_refl _)]

theorem findBlocks_append_gap (pre t : List Char) (hpre : ∀ c ∈ pre, c ≠ '`')
    (b : FencedBlock) (bs : List FencedBlock) (tail : List Char)
    (h : findBlocks t = (b :: bs, tail)) :
    findBlocks (pre ++ t) = (⟨pre ++ b.gap, b.lang, b.code⟩ :: bs, tail) := by
  induction pre with
  | nil => exact h
  | cons c pre2 ih =>
    rw [List.cons_append, findBlocks_cons_none c (pre2 ++ t)
        (tryBlock_none_of_head_ne c (pre2 ++ t) (hpre c (by simp))),
      ih (fun x hx => hpre x (by simp [hx]))]
    rfl

theorem blockText_append (g lang code rest : List Char) :
    blockText ⟨g, lang, code⟩ ++ rest =
      strL "```" ++ (lang ++ (strL "\n" ++ (code ++ (strL "\n```" ++ rest)))) := by
  simp [blockText, List.append_assoc]

theorem findBlocks_two (pre sep post l1 c1 l2 c2 : List Char)
    (hpre : ∀ c ∈ pre, c ≠ '`') (hsep : ∀ c ∈ sep, c ≠ '`') (hpost : ∀ c ∈ post, c ≠ '`')
    (hl1 : ∀ c ∈ l1, isWordChar c = true) (hc1 : ∀ c ∈ c1, c ≠ '`')
    (hl2 : ∀ c ∈ l2, isWordChar c = true) (hc2 : ∀ c ∈ c2, c ≠ '`') :
    findBlocks (pre ++ (blockText ⟨[], l1, c1⟩ ++ (sep ++ (blockText ⟨[], l2, c2⟩ ++ post)))) =
      ([⟨pre, l1, c1⟩, ⟨sep, l2, c2⟩], post) := by
  have h2 : findBlocks (blockText ⟨([] : List Char), l2, c2⟩ ++ post) = ([⟨[], l2, c2⟩], post) := by
    rw [blockText_append,
      findBlocks_some (strL "```" ++ (l2 ++ (strL "\n" ++ (c2 ++ (strL "\n```" ++ post)))))
        l2 c2 post (tryBlock_compute l2 c2 post hl2 hc2) (List.cons_ne_nil _ _),
      show findBlocks post = ([], post) from findBlocksF_nofence post.length post hpost]
  have h3 : findBlocks (sep ++ (blockText ⟨([] : List Char), l2, c2⟩ ++ post)) =
      ([⟨sep, l2, c2⟩], post) := by
    rw [findBlocks_append_gap sep _ hsep _ _ _ h2, List.append_nil]
  have h4 : findBlocks (blockText ⟨([] : List Char), l1, c1⟩ ++
      (sep ++ (blockText ⟨([] : List Char), l2, c2⟩ ++ post))) =
      ([⟨[], l1, c1⟩, ⟨sep, l2, c2⟩], post) := by
    rw [blockText_append,
      findBlocks_some (strL "```" ++ (l1 ++ (strL "\n" ++ (c1 ++ (strL "\n```" ++
          (sep ++ (blockText ⟨([] : List Char), l2, c2⟩ ++ post)))))))
        l1 c1 (sep ++ (blockText ⟨([] : List Char), l2, c2⟩ ++ post))
        (tryBlock_compute l1 c1 _ hl1 hc1) (List.cons_ne_nil _ _),
      h3]
  rw [findBlocks_append_gap pre _ hpre _ _ _ h4, List.append_nil]

/-- Claim C3: two fenced code blocks whose separating text contains at most
two newlines are merged by `_convert_code_blocks_to_mdc` into one grouped
code-block component (the surrounding text kept); blocks whose separating
text contains more than two newlines are left as independent, unconverted
fenced blocks (the docstring is returned unchanged); and a docstring in
which the pattern finds at most one fenced block is never wrapped — it is
returned as is. -/
theorem claim_C3 :
    (∀ pre sep post l1 c1 l2 c2 : List Char,
      (∀ c ∈ pre, c ≠ '`') → (∀ c ∈ sep, c ≠ '`') → (∀ c ∈ post, c ≠ '`') →
      (∀ c ∈ l1, isWordChar c = true) → (∀ c ∈ c1, c ≠ '`') →
      (∀ c ∈ l2, isWordChar c = true) → (∀ c ∈ c2, c ≠ '`') →
      countNL sep ≤ 2 →
      convert_code_blocks
          (pre ++ (blockText ⟨[], l1, c1⟩ ++ (sep ++ (blockText ⟨[], l2, c2⟩ ++ post)))) =
        pre ++ (create_mdc_code_group [blockRecord ⟨pre, l1, c1⟩, blockRecord ⟨sep, l2, c2⟩]
          (mdcComponent "code_block" (strL "UCodeGroup")) ++ post)) ∧
    (∀ pre sep post l1 c1 l2 c2 : List Char,
      (∀ c ∈ pre, c ≠ '`') → (∀ c ∈ sep, c ≠ '`') → (∀ c ∈ post, c ≠ '`') →
      (∀ c ∈ l1, isWordChar c = true) → (∀ c ∈ c1, c ≠ '`') →
      (∀ c ∈ l2, isWordChar c = true) → (∀ c ∈ c2, c ≠ '`') →
      2 < countNL sep →
      convert_code_blocks
          (pre ++ (blockText ⟨[], l1, c1⟩ ++ (sep ++ (blockText ⟨[], l2, c2⟩ ++ post)))) =
        pre ++ (blockText ⟨[], l1, c1⟩ ++ (sep ++ (blockText ⟨[], l2, c2⟩ ++ post)))) ∧
    (∀ s : List Char, (findBlocks s).1.length ≤ 1 → convert_code_blocks s = s) := by
  refine ⟨?_, ?_, ?_⟩
  · intro pre sep post l1 c1 l2 c2 hpre hsep hpost hl1 hc1 hl2 hc2 hle
    have hfb := findBlocks_two pre sep post l1 c1 l2 c2 hpre hsep hpost hl1 hc1 hl2 hc2
    simp only [convert_code_blocks, hfb]
    rw [if_neg (by simp)]
    simp only [groupBlocks, groupBlocksGo]
    rw [if_neg (Nat.not_lt.mpr hle)]
    simp only [List.cons_append, List.nil_append, groupBlocksGo, List.flatMap_cons,
      List.flatMap_nil, List.append_nil, renderGroup]
    rw [if_neg (by simp)]
    simp [List.append_assoc]
  · intro pre sep post l1 c1 l2 c2 hpre hsep hpost hl1 hc1 hl2 hc2 hgt
    have hfb := findBlocks_two pre sep post l1 c1 l2 c2 hpre hsep hpost hl1 hc1 hl2 hc2
    simp only [convert_code_blocks, hfb]
    rw [if_neg (by simp)]
    simp only [groupBlocks, groupBlocksGo]
    rw [if_pos hgt]
    simp only [groupBlocksGo, List.flatMap_cons, List.flatMap_nil, List.append_nil,
      renderGroup]
    simp only [if_true]
    simp [blockText, List.append_assoc]
  · exact convert_code_blocks_id

theorem claim_C3_witness :
    (countNL (strL "\n\n") ≤ 2 ∧
      convert_code_blocks (strL "" ++ (blockText ⟨[], strL "py", strL "a"⟩ ++
          (strL "\n\n" ++ (blockText ⟨[], strL "sh", strL "b"⟩ ++ strL "")))) =
        strL "" ++ (create_mdc_code_group
          [blockRecord ⟨strL "", strL "py", strL "a"⟩, blockRecord ⟨strL "\n\n", strL "sh", strL "b"⟩]
          (mdcComponent "code_block" (strL "UCodeGroup")) ++ strL "")) ∧
    (2 < countNL (strL "\n\nxx\n\n") ∧
      convert_code_blocks (strL "" ++ (blockText ⟨[], strL "py", strL "a"⟩ ++
          (strL "\n\nxx\n\n" ++ (blockText ⟨[], strL "sh", strL "b"⟩ ++ strL "")))) =
        strL "" ++ (blockText ⟨[], strL "py", strL "a"⟩ ++
          (strL "\n\nxx\n\n" ++ (blockText ⟨[], strL "sh", strL "b"⟩ ++ strL "")))) ∧
    ((findBlocks (strL "hello ```x")).1.length ≤ 1 ∧
      convert_code_blocks (strL "hello ```x") = strL "hello ```x") :=
  ⟨⟨by decide, claim_C3.1 (strL "") (strL "\n\n") (strL "") (strL "py") (strL "a")
      (strL "sh") (strL "b") (by decide) (by decide) (by decide) (by decide) (by decide)
      (by decide) (by decide) (by decide)⟩,
    ⟨by decide, claim_C3.2.1 (strL "") (strL "\n\nxx\n\n") (strL "") (strL "py") (strL "a")
      (strL "sh") (strL "b") (by decide) (by decide) (by decide) (by decide) (by decide)
      (by decide) (by decide) (by decide)⟩,
    ⟨by decide, claim_C3.2.2 (strL "hello ```x") (by decide)⟩⟩

/-! ## Claim C1: generic helpers for a structured six-section docstring -/

/-- A "safe word": non-empty, ASCII lowercase letters only.  Such strings
cannot interact with any regex metacharacter or literal of the section
patterns. -/
def safeW (s : List Char) : Bool :=
  (!s.isEmpty) && s.all isLowerA

theorem safeW_spec (s : List Char) (h : safeW s = true) :
    s ≠ [] ∧ ∀ c ∈ s, isLowerA c = true := by
  simp only [safeW, Bool.and_eq_true, Bool.not_eq_true', List.isEmpty_iff,
    List.all_eq_true] at h
  obtain ⟨h1, h2⟩ := h
  exact ⟨fun hnil => by subst hnil; simp at h1, h2⟩

theorem isLowerA_toNat (c : Char) (h : isLowerA c = true) :
    97 ≤ c.toNat ∧ c.toNat ≤ 122 := by
  simp only [isLowerA, Bool.and_eq_true, decide_eq_true_eq] at h
  exact h

theorem lower_ne (c d : Char) (h : isLowerA c = true) (hd : isLowerA d = false) : c ≠ d := by
  intro he
  subst he
  rw [h] at hd
  exact Bool.noConfusion hd

theorem lower_not_pySpace (c : Char) (h : isLowerA c = true) : pySpace c = false := by
  rw [pySpace,
    beq_eq_false_iff_ne.mpr (lower_ne c ' ' h (by decide)),
    beq_eq_false_iff_ne.mpr (lower_ne c '\t' h (by decide)),
    beq_eq_false_iff_ne.mpr (lower_ne c '\n' h (by decide)),
    beq_eq_false_iff_ne.mpr (lower_ne c '\r' h (by decide)),
    beq_eq_false_iff_ne.mpr (lower_ne c '\x0b' h (by decide)),
    beq_eq_false_iff_ne.mpr (lower_ne c '\x0c' h (by decide))]
  rfl

theorem lower_isWordChar (c : Char) (h : isLowerA c = true) : isWordChar c = true := by
  rw [isWordChar, h]
  rfl

theorem not_mem_append2 (c : Char) (a b : List Char) (ha : c ∉ a) (hb : c ∉ b) :
    c ∉ a ++ b := by
  intro h
  rcases List.mem_append.mp h with h1 | h1
  · exact ha h1
  · exact hb h1

theorem not_mem_lower (s : List Char) (hs : ∀ c ∈ s, isLowerA c = true) (d : Char)
    (hd : isLowerA d = false) : d ∉ s := by
  intro h
  rw [hs d h] at hd
  exact Bool.noConfusion hd

theorem isPrefixOf_cons_step (a : Char) (p u : List Char) :
    ((a :: p).isPrefixOf (a :: u)) = p.isPrefixOf u := by
  show ((a == a) && p.isPrefixOf u) = p.isPrefixOf u
  rw [beq_self_eq_true, Bool.true_and]

theorem suffix_head_mem (c : Char) (cs s : List Char) (h : (c :: cs) <:+ s) : c ∈ s :=
  h.subset (List.mem_cons_self c cs)

theorem mem_dropTrailing (c : Char) (p : Char → Bool) (l : List Char)
    (h : c ∈ dropTrailing p l) : c ∈ l := by
  rw [dropTrailing, List.mem_reverse] at h
  have h2 := (List.dropWhile_sublist p).subset h
  rwa [List.mem_reverse] at h2

theorem mem_pyStrip (c : Char) (l : List Char) (h : c ∈ pyStrip l) : c ∈ l := by
  rw [pyStrip] at h
  exact (List.dropWhile_sublist pySpace).subset (mem_dropTrailing c pySpace _ h)

theorem parseBullet_none_head (c : Char) (cs : List Char) (hc : c ≠ '-') :
    parseBullet (c :: cs) = none := by
  have h2 : (strL "- `").isPrefixOf (c :: cs) = false :=
    isPrefixOf_false_head '-' c (strL " `") cs (fun he => hc he.symm)
  rw [parseBullet, if_neg (by rw [h2]; simp)]

theorem tryRaiseItem_compute (n d : List Char)
    (hn : n ≠ []) (hnb : ∀ c ∈ n, (!(c == '`')) = true)
    (hd : d ≠ []) (hdn : ∀ c ∈ d, (!(c == '\n')) = true) :
    tryRaiseItem (strL "- `" ++ (n ++ (strL "`: " ++ d))) = some ((n, d), []) := by
  have hw := takeWhile_append_stop (fun c => !(c == '`')) n (strL "`: " ++ d) hnb (by rfl)
  have hdrop : (strL "- `" ++ (n ++ (strL "`: " ++ d))).drop 3 = n ++ (strL "`: " ++ d) := rfl
  simp only [tryRaiseItem]
  rw [if_pos (isPrefixOf_append_self _ _), hdrop, hw.1, hw.2, if_neg hn,
    if_pos (isPrefixOf_append_self (strL "`: ") d),
    show (strL "`: " ++ d).drop 3 = d from rfl,
    takeWhile_eq_self_of_all _ d hdn, dropWhile_eq_nil_of_all _ d hdn, if_neg hd]

theorem findRaiseItems_single (s : List Char) (item : List Char × List Char)
    (h : tryRaiseItem s = some (item, [])) (hs : s ≠ []) :
    findRaiseItems s = [item] := by
  obtain ⟨c, cs, rfl⟩ := List.exists_cons_of_ne_nil hs
  simp only [findRaiseItems, List.length_cons, findRaiseItemsF, h]
  cases cs.length <;> rfl

theorem raisesReplacement_single (n d : List Char) :
    raisesReplacement [(n, d)] = strL "::u-callout\n---\ntype: error\n---\n**" ++
      (n ++ (strL "**: " ++ (pyStrip d ++ strL "\n::"))) := by
  show strL "::" ++ convert_to_kebab_case (mdcComponent "raises" (strL "UCallout")) ++
      strL "\n---\ntype: error\n---\n" ++
      List.intercalate (strL "\n") [strL "**" ++ n ++ strL "**: " ++ pyStrip d] ++
      strL "\n::" = _
  rw [show convert_to_kebab_case (mdcComponent "raises" (strL "UCallout")) = strL "u-callout"
      from by decide,
    show List.intercalate (strL "\n") [strL "**" ++ n ++ strL "**: " ++ pyStrip d] =
      strL "**" ++ n ++ strL "**: " ++ pyStrip d from by simp [List.intercalate]]
  simp only [List.append_assoc]
  rfl

theorem lazyBody_cons_neg (c : Char) (cs : List Char)
    (h : (strL "\n\n**").isPrefixOf (c :: cs) = false) :
    lazyBody (c :: cs) = (c :: (lazyBody cs).1, (lazyBody cs).2) := by
  rw [lazyBody, if_neg (by rw [h]; simp)]

theorem lazyBody_append (body tail : List Char)
    (h : ∀ b, b <:+ body → b ≠ [] → (strL "\n\n**").isPrefixOf (b ++ tail) = false) :
    lazyBody (body ++ tail) = (body ++ (lazyBody tail).1, (lazyBody tail).2) := by
  induction body with
  | nil => simp
  | cons c cs ih =>
    rw [List.cons_append, lazyBody_cons_neg c (cs ++ tail)
        (h (c :: cs) (List.suffix_refl _) (List.cons_ne_nil _ _)),
      ih (fun b hb hbne => h b (hb.trans (List.suffix_cons c cs)) hbne)]
    rfl

theorem lazyBody_boundary (tail : List Char) (hne : tail ≠ [])
    (h : (strL "\n\n**").isPrefixOf tail = true) :
    lazyBody tail = ([], tail) := by
  obtain ⟨c, cs, rfl⟩ := List.exists_cons_of_ne_nil hne
  rw [lazyBody, if_pos h]

theorem lazyBody_no_nl (s : List Char) (h : ∀ c ∈ s, c ≠ '\n') :
    lazyBody s = (s, []) := by
  induction s with
  | nil => rfl
  | cons c cs ih =>
    rw [lazyBody_cons_neg c cs
        (isPrefixOf_false_head '\n' c _ _ (fun he => h c (by simp) he.symm)),
      ih (fun x hx => h x (by simp [hx]))]

theorem head_all_append (s X : List Char) (P : Char → Bool) (hs : s ≠ [])
    (h : s.head?.all P = true) : (s ++ X).head?.all P = true := by
  cases s with
  | nil => exact absurd rfl hs
  | cons c cs => exact h

theorem head_of_prefixOf (a : Char) (p u : List Char) (h : (a :: p).isPrefixOf u = true) :
    u.head? = some a := by
  cases u with
  | nil => exact absurd h (by rw [show ((a :: p).isPrefixOf []) = false from rfl]; simp)
  | cons c cs =>
    have h2 : ((a == c) && p.isPrefixOf cs) = true := h
    obtain ⟨h3, -⟩ := Bool.and_eq_true_iff.mp h2
    rw [List.head?_cons, beq_iff_eq.mp h3]

theorem sectionMatch_mid (rest : List Char)
    (hh : rest.head?.all (fun c => !pySpace c) = true) :
    sectionMatch (strL "\n\n" ++ rest) =
      some (strL "\n\n", (lazyBody rest).1, (lazyBody rest).2) := by
  have hw := takeWhile_append_stop pySpace (strL "\n\n") rest (by decide) hh
  simp only [sectionMatch, hw.1, hw.2]
  rw [show findLastNN (strL "\n\n") = some 0 from by decide]
  rfl

theorem tryReturnsFn_mid (h0 body u : List Char) (hsafe : safeBody body = true)
    (hu : (strL "**").isPrefixOf u = true) :
    tryReturnsFn h0 (strL "\n\n" ++ (body ++ (strL "\n\n" ++ u))) =
      some (returnsReplacement body, strL "\n\n" ++ u) := by
  obtain ⟨hne, hh, hl, hstar⟩ := safeBody_spec body hsafe
  have huh : u.head? = some '*' := head_of_prefixOf '*' (strL "*") u hu
  have hune : u ≠ [] := fun hnil => by rw [hnil] at huh; exact Option.noConfusion huh
  have hw := takeWhile_append_stop pySpace (strL "\n\n") (body ++ (strL "\n\n" ++ u))
    (by decide) (head_all_append body _ _ hne hh)
  rw [tryReturnsFn, hw.1, hw.2, show findFirstNN (strL "\n\n") = some 0 from by decide]
  simp only [show (strL "\n\n").drop (0 + 2) = [] from rfl, List.nil_append]
  rw [show body ++ (strL "\n\n" ++ u) = (body ++ strL "\n\n") ++ u from
    (List.append_assoc body (strL "\n\n") u).symm]
  have hw2 := takeWhile_append_stop (fun c => !(c == '*')) (body ++ strL "\n\n") u
    (fun c hc => by
      rcases List.mem_append.mp hc with h1 | h1
      · simp [hstar c h1]
      · rw [show strL "\n\n" = ['\n', '\n'] from rfl] at h1
        simp only [List.mem_cons, List.not_mem_nil, or_false] at h1
        rcases h1 with h1 | h1 <;> simp [h1])
    (by rw [huh]; rfl)
  rw [hw2.1, hw2.2, if_neg hune, if_pos hu,
    if_pos (show 2 < (body ++ strL "\n\n").length from by
      rw [List.length_append, show (strL "\n\n").length = 2 from rfl]
      have := List.length_pos.mpr hne
      omega),
    show (body ++ strL "\n\n").length - 2 = body.length from by
      rw [List.length_append, show (strL "\n\n").length = 2 from rfl]
      omega,
    List.drop_left, List.take_left, if_pos rfl, pyStrip_eq_self body hh hl]

theorem mem_argItem_name (it : List Char × List Char) (c : Char)
    (h : c ∈ (argItemToMdc it).name) : c ∈ it.1 := by
  rw [argItemToMdc] at h
  split at h
  · exact (List.takeWhile_sublist _).subset (mem_pyStrip c _ h)
  · exact h

theorem mem_argItem_type (it : List Char × List Char) (c : Char)
    (h : c ∈ (argItemToMdc it).type) : c ∈ it.1 := by
  rw [argItemToMdc] at h
  split at h
  · exact (List.dropWhile_sublist _).subset ((List.drop_sublist 1 _).subset (mem_pyStrip c _ h))
  · exact absurd h (List.not_mem_nil c)

theorem mem_argItem_content (it : List Char × List Char) (c : Char)
    (h : c ∈ (argItemToMdc it).content) : c ∈ it.2 := by
  rw [argItemToMdc] at h
  split at h
  · exact mem_pyStrip c _ h
  · exact mem_pyStrip c _ h

theorem mem_itemYaml (y : MdcItem) (c : Char) (h : c ∈ itemYaml y) :
    c ∈ strL "  - name: \n    type: \n    content: \n" ∨
      c ∈ y.name ∨ c ∈ y.type ∨ c ∈ y.content := by
  simp only [itemYaml, List.append_assoc, List.mem_append] at h
  rcases h with h | h | h | h | h | h | h
  · exact Or.inl ((by decide : ∀ x ∈ strL "  - name: ", x ∈ strL "  - name: \n    type: \n    content: \n") c h)
  · exact Or.inr (Or.inl h)
  · exact Or.inl ((by decide : ∀ x ∈ strL "\n    type: ", x ∈ strL "  - name: \n    type: \n    content: \n") c h)
  · exact Or.inr (Or.inr (Or.inl h))
  · exact Or.inl ((by decide : ∀ x ∈ strL "\n    content: ", x ∈ strL "  - name: \n    type: \n    content: \n") c h)
  · exact Or.inr (Or.inr (Or.inr h))
  · exact Or.inl ((by decide : ∀ x ∈ strL "\n", x ∈ strL "  - name: \n    type: \n    content: \n") c h)

theorem mem_argsReplacement (c : Char) (items : List (List Char × List Char))
    (h : c ∈ argsReplacement items) :
    c ∈ strL "::u-arguments\n---\narguments:\n  - name: \n    type: \n    content: \n---\n::" ∨
      ∃ it ∈ items, c ∈ it.1 ∨ c ∈ it.2 := by
  simp only [argsReplacement, create_mdc_arguments, List.append_assoc, List.mem_append] at h
  rcases h with h | h | h | h | h | h | h
  · exact Or.inl ((by decide : ∀ x ∈ strL "::", x ∈ strL "::u-arguments\n---\narguments:\n  - name: \n    type: \n    content: \n---\n::") c h)
  · rw [show convert_to_kebab_case (mdcComponent "arguments" (strL "UArguments")) =
        strL "u-arguments" from by decide] at h
    exact Or.inl ((by decide : ∀ x ∈ strL "u-arguments", x ∈ strL "::u-arguments\n---\narguments:\n  - name: \n    type: \n    content: \n---\n::") c h)
  · exact Or.inl ((by decide : ∀ x ∈ strL "\n", x ∈ strL "::u-arguments\n---\narguments:\n  - name: \n    type: \n    content: \n---\n::") c h)
  · exact Or.inl ((by decide : ∀ x ∈ strL "---\narguments:\n", x ∈ strL "::u-arguments\n---\narguments:\n  - name: \n    type: \n    content: \n---\n::") c h)
  · rw [List.mem_flatMap] at h
    obtain ⟨y, hy, hcy⟩ := h
    rw [List.mem_map] at hy
    obtain ⟨it, hit, rfl⟩ := hy
    rcases mem_itemYaml (argItemToMdc it) c hcy with h1 | h1 | h1 | h1
    · exact Or.inl ((by decide : ∀ x ∈ strL "  - name: \n    type: \n    content: \n", x ∈ strL "::u-arguments\n---\narguments:\n  - name: \n    type: \n    content: \n---\n::") c h1)
    · exact Or.inr ⟨it, hit, Or.inl (mem_argItem_name it c h1)⟩
    · exact Or.inr ⟨it, hit, Or.inl (mem_argItem_type it c h1)⟩
    · exact Or.inr ⟨it, hit, Or.inr (mem_argItem_content it c h1)⟩
  · exact Or.inl ((by decide : ∀ x ∈ strL "---", x ∈ strL "::u-arguments\n---\narguments:\n  - name: \n    type: \n    content: \n---\n::") c h)
  · exact Or.inl ((by decide : ∀ x ∈ strL "\n::", x ∈ strL "::u-arguments\n---\narguments:\n  - name: \n    type: \n    content: \n---\n::") c h)

theorem argsReplacement_eq (items : List (List Char × List Char)) :
    argsReplacement items = strL "::u-arguments\n---\narguments:\n" ++
      ((items.map argItemToMdc).flatMap itemYaml ++ strL "---\n::") := by
  show strL "::" ++ convert_to_kebab_case (mdcComponent "arguments" (strL "UArguments")) ++
      strL "\n" ++ (strL "---\narguments:\n" ++ (items.map argItemToMdc).flatMap itemYaml ++
        strL "---") ++ strL "\n::" = _
  rw [show convert_to_kebab_case (mdcComponent "arguments" (strL "UArguments")) =
      strL "u-arguments" from by decide]
  simp only [List.append_assoc]
  rfl

theorem alert_notes_eq (content : List Char) :
    create_mdc_alert content (strL "info") (some (strL "Note"))
        (mdcComponent "notes" (strL "UAlert")) =
      strL "::u-alert\x7btype=\"info\" title=\"Note\"\x7d\n" ++ (content ++ strL "\n::") := by
  show strL "::" ++ convert_to_kebab_case (mdcComponent "notes" (strL "UAlert")) ++
      strL "\x7btype=\"" ++ strL "info" ++ strL "\"" ++
      (strL " title=\"" ++ strL "Note" ++ strL "\"") ++ strL "\x7d\n" ++ content ++
      strL "\n::" = _
  rw [show convert_to_kebab_case (mdcComponent "notes" (strL "UAlert")) = strL "u-alert"
    from by decide]
  simp only [List.append_assoc]
  rfl

theorem alert_warnings_eq (content : List Char) :
    create_mdc_alert content (strL "warning") (some (strL "Warning"))
        (mdcComponent "warnings" (strL "UAlert")) =
      strL "::u-alert\x7btype=\"warning\" title=\"Warning\"\x7d\n" ++ (content ++ strL "\n::") := by
  show strL "::" ++ convert_to_kebab_case (mdcComponent "warnings" (strL "UAlert")) ++
      strL "\x7btype=\"" ++ strL "warning" ++ strL "\"" ++
      (strL " title=\"" ++ strL "Warning" ++ strL "\"") ++ strL "\x7d\n" ++ content ++
      strL "\n::" = _
  rw [show convert_to_kebab_case (mdcComponent "warnings" (strL "UAlert")) = strL "u-alert"
    from by decide]
  simp only [List.append_assoc]
  rfl

theorem codeGroup_two (g1 l1 c1 g2 l2 c2 : List Char) (h1 : l1 ≠ []) (h2 : l2 ≠ [])
    (hc1 : pyStrip c1 = c1) (hc2 : pyStrip c2 = c2) :
    create_mdc_code_group [blockRecord ⟨g1, l1, c1⟩, blockRecord ⟨g2, l2, c2⟩]
        (mdcComponent "examples" (strL "UCodeGroup")) =
      strL "::u-code-group\n```" ++ (l1 ++ (strL " [" ++ (l1 ++ (strL "]\n" ++ (c1 ++
        (strL "\n```\n```" ++ (l2 ++ (strL " [" ++ (l2 ++ (strL "]\n" ++ (c2 ++
          strL "\n```\n::"))))))))))) := by
  have hb1 : blockRecord ⟨g1, l1, c1⟩ = ⟨l1, l1, c1⟩ := by
    simp only [blockRecord, if_neg h1, hc1]
  have hb2 : blockRecord ⟨g2, l2, c2⟩ = ⟨l2, l2, c2⟩ := by
    simp only [blockRecord, if_neg h2, hc2]
  rw [hb1, hb2]
  show strL "::" ++ convert_to_kebab_case (mdcComponent "examples" (strL "UCodeGroup")) ++
      strL "\n" ++ [(⟨l1, l1, c1⟩ : CodeBlock), ⟨l2, l2, c2⟩].flatMap codeGroupEntry ++
      strL "::" = _
  rw [show convert_to_kebab_case (mdcComponent "examples" (strL "UCodeGroup")) =
      strL "u-code-group" from by decide,
    show [(⟨l1, l1, c1⟩ : CodeBlock), ⟨l2, l2, c2⟩].flatMap codeGroupEntry =
      codeGroupEntry ⟨l1, l1, c1⟩ ++ (codeGroupEntry ⟨l2, l2, c2⟩ ++ []) from rfl,
    codeGroupEntry, codeGroupEntry]
  rw [if_pos (show (⟨l1, l1, c1⟩ : CodeBlock).filename ≠ [] from h1),
    if_pos (show (⟨l2, l2, c2⟩ : CodeBlock).filename ≠ [] from h2)]
  simp only [List.append_assoc, List.append_nil]
  rfl

/-- Raises section body `- ?rn?: ?rd`. -/
def c1RB (rn rd : List Char) : List Char :=
  strL "- `" ++ (rn ++ (strL "`: " ++ rd))

/-- Examples section body: two fenced code blocks separated by one blank
line. -/
def c1EX (L1 C1 L2 C2 : List Char) : List Char :=
  blockText ⟨[], L1, C1⟩ ++ (strL "\n\n" ++ blockText ⟨[], L2, C2⟩)

def c1U5 (rn rd : List Char) : List Char :=
  strL "**Raises**:" ++ (strL "\n\n" ++ c1RB rn rd)

def c1U4 (wb rn rd : List Char) : List Char :=
  strL "**Warnings**:" ++ (strL "\n\n" ++ (wb ++ (strL "\n\n" ++ c1U5 rn rd)))

def c1U3 (nb wb rn rd : List Char) : List Char :=
  strL "**Notes**:" ++ (strL "\n\n" ++ (nb ++ (strL "\n\n" ++ c1U4 wb rn rd)))

def c1U2 (L1 C1 L2 C2 nb wb rn rd : List Char) : List Char :=
  strL "**Examples**:" ++ (strL "\n\n" ++ (c1EX L1 C1 L2 C2 ++ (strL "\n\n" ++ c1U3 nb wb rn rd)))

def c1U1 (rb L1 C1 L2 C2 nb wb rn rd : List Char) : List Char :=
  strL "**Returns**:" ++ (strL "\n\n" ++ (rb ++ (strL "\n\n" ++ c1U2 L1 C1 L2 C2 nb wb rn rd)))

/-- The six-section docstring of claim C1: well-formed Arguments, Returns,
Examples (two language-tagged fenced blocks), Notes, Warnings and Raises
sections, in source order, separated by blank lines. -/
def c1Doc (items : List (List Char × List Char)) (rb L1 C1 L2 C2 nb wb rn rd : List Char) :
    List Char :=
  strL "**Arguments**:" ++ (strL "\n\n" ++ (argBullets items ++
    (strL "\n" ++ c1U1 rb L1 C1 L2 C2 nb wb rn rd)))

theorem blockText_eq (g l c : List Char) :
    blockText ⟨g, l, c⟩ = strL "```" ++ (l ++ (strL "\n" ++ (c ++ strL "\n```"))) := by
  simp [blockText, List.append_assoc]

theorem mem_blockText (x : Char) (g l c : List Char) (h : x ∈ blockText ⟨g, l, c⟩) :
    x ∈ strL "`\n" ∨ x ∈ l ∨ x ∈ c := by
  rw [blockText_eq] at h
  simp only [List.mem_append] at h
  rcases h with h | h | h | h | h
  · exact Or.inl ((by decide : ∀ y ∈ strL "```", y ∈ strL "`\n") x h)
  · exact Or.inr (Or.inl h)
  · exact Or.inl ((by decide : ∀ y ∈ strL "\n", y ∈ strL "`\n") x h)
  · exact Or.inr (Or.inr h)
  · exact Or.inl ((by decide : ∀ y ∈ strL "\n```", y ∈ strL "`\n") x h)

theorem mem_c1EX (x : Char) (L1 C1 L2 C2 : List Char) (h : x ∈ c1EX L1 C1 L2 C2) :
    x ∈ strL "`\n" ∨ x ∈ L1 ∨ x ∈ C1 ∨ x ∈ L2 ∨ x ∈ C2 := by
  rw [c1EX] at h
  simp only [List.mem_append] at h
  rcases h with h | h | h
  · rcases mem_blockText x [] L1 C1 h with h1 | h1 | h1
    · exact Or.inl h1
    · exact Or.inr (Or.inl h1)
    · exact Or.inr (Or.inr (Or.inl h1))
  · exact Or.inl ((by decide : ∀ y ∈ strL "\n\n", y ∈ strL "`\n") x h)
  · rcases mem_blockText x [] L2 C2 h with h1 | h1 | h1
    · exact Or.inl h1
    · exact Or.inr (Or.inr (Or.inr (Or.inl h1)))
    · exact Or.inr (Or.inr (Or.inr (Or.inr h1)))

theorem lower_star_free (s : List Char) (hs : ∀ c ∈ s, isLowerA c = true) :
    ∀ c ∈ s, c ≠ '*' := fun c hc => lower_ne c '*' (hs c hc) (by decide)

theorem blockText_star_free (L C : List Char) (hL : ∀ c ∈ L, isLowerA c = true)
    (hC : ∀ c ∈ C, isLowerA c = true) : ∀ x ∈ blockText ⟨([] : List Char), L, C⟩, x ≠ '*' := by
  intro x hx
  rcases mem_blockText x [] L C hx with h | h | h
  · rw [show strL "`\n" = ['`', '\n'] from rfl] at h
    simp only [List.mem_cons, List.not_mem_nil, or_false] at h
    rcases h with h | h <;> (subst h; decide)
  · exact lower_ne x '*' (hL x h) (by decide)
  · exact lower_ne x '*' (hC x h) (by decide)

/-- The character-level conditions on a pattern that let occurrences be
ruled out across every seam of the structured docstring: the pattern holds
a star, no newline, backtick only possibly at the very edges, and a space
only possibly last. -/
def c1PatOK (p : List Char) : Prop :=
  '*' ∈ p ∧ '\n' ∉ p.tail ∧ '\n' ∉ p.dropLast ∧ '`' ∉ p.dropLast ∧ '`' ∉ p.tail ∧
    ' ' ∉ p.dropLast

theorem noOcc_c1RB (p rn rd : List Char) (hp : c1PatOK p)
    (hrn : ∀ c ∈ rn, isLowerA c = true) (hrd : ∀ c ∈ rd, isLowerA c = true) :
    NoOcc p (c1RB rn rd) := by
  obtain ⟨hstar, hnlt, hnld, hbt, hbtt, hsp⟩ := hp
  rw [c1RB]
  refine noOcc_append_left p _ _ (noOcc_of_star_free p _ hstar (by decide)) ?_ '`'
    (by decide) hbt
  refine noOcc_append_right p rn _
    (noOcc_of_star_free p rn hstar (lower_star_free rn hrn)) ?_ '`' rfl hbtt
  exact noOcc_append_left p _ rd (noOcc_of_star_free p _ hstar (by decide))
    (noOcc_of_star_free p rd hstar (lower_star_free rd hrd)) ' ' (by decide) hsp

theorem noOcc_c1EX (p L1 C1 L2 C2 : List Char) (hp : c1PatOK p)
    (hL1 : ∀ c ∈ L1, isLowerA c = true) (hC1 : ∀ c ∈ C1, isLowerA c = true)
    (hL2 : ∀ c ∈ L2, isLowerA c = true) (hC2 : ∀ c ∈ C2, isLowerA c = true) :
    NoOcc p (c1EX L1 C1 L2 C2) := by
  obtain ⟨hstar, hnlt, hnld, hbt, hbtt, hsp⟩ := hp
  rw [c1EX]
  refine noOcc_append_right p _ _
    (noOcc_of_star_free p _ hstar (blockText_star_free L1 C1 hL1 hC1)) ?_ '\n' rfl hnlt
  exact noOcc_append_left p _ _ (noOcc_of_star_free p _ hstar (by decide))
    (noOcc_of_star_free p _ hstar (blockText_star_free L2 C2 hL2 hC2)) '\n' (by decide) hnld

theorem noOcc_c1U5 (p rn rd : List Char) (hp : c1PatOK p)
    (hrn : ∀ c ∈ rn, isLowerA c = true) (hrd : ∀ c ∈ rd, isLowerA c = true)
    (h5 : NoOcc p (strL "**Raises**:")) :
    NoOcc p (c1U5 rn rd) := by
  rw [c1U5]
  refine noOcc_append_right p _ _ h5 ?_ '\n' rfl hp.2.1
  refine noOcc_append_left p _ _ (noOcc_of_star_free p _ hp.1 (by decide)) ?_ '\n'
    (by decide) hp.2.2.1
  exact noOcc_c1RB p rn rd hp hrn hrd

theorem noOcc_c1U4 (p wb rn rd : List Char) (hp : c1PatOK p)
    (hwb : ∀ c ∈ wb, isLowerA c = true)
    (hrn : ∀ c ∈ rn, isLowerA c = true) (hrd : ∀ c ∈ rd, isLowerA c = true)
    (h4 : NoOcc p (strL "**Warnings**:")) (h5 : NoOcc p (strL "**Raises**:")) :
    NoOcc p (c1U4 wb rn rd) := by
  rw [c1U4]
  refine noOcc_append_right p _ _ h4 ?_ '\n' rfl hp.2.1
  refine noOcc_append_left p _ _ (noOcc_of_star_free p _ hp.1 (by decide)) ?_ '\n'
    (by decide) hp.2.2.1
  refine noOcc_append_right p wb _
    (noOcc_of_star_free p wb hp.1 (lower_star_free wb hwb)) ?_ '\n' rfl hp.2.1
  refine noOcc_append_left p _ _ (noOcc_of_star_free p _ hp.1 (by decide)) ?_ '\n'
    (by decide) hp.2.2.1
  exact noOcc_c1U5 p rn rd hp hrn hrd h5

theorem noOcc_c1U3 (p nb wb rn rd : List Char) (hp : c1PatOK p)
    (hnb : ∀ c ∈ nb, isLowerA c = true) (hwb : ∀ c ∈ wb, isLowerA c = true)
    (hrn : ∀ c ∈ rn, isLowerA c = true) (hrd : ∀ c ∈ rd, isLowerA c = true)
    (h3 : NoOcc p (strL "**Notes**:")) (h4 : NoOcc p (strL "**Warnings**:"))
    (h5 : NoOcc p (strL "**Raises**:")) :
    NoOcc p (c1U3 nb wb rn rd) := by
  rw [c1U3]
  refine noOcc_append_right p _ _ h3 ?_ '\n' rfl hp.2.1
  refine noOcc_append_left p _ _ (noOcc_of_star_free p _ hp.1 (by decide)) ?_ '\n'
    (by decide) hp.2.2.1
  refine noOcc_append_right p nb _
    (noOcc_of_star_free p nb hp.1 (lower_star_free nb hnb)) ?_ '\n' rfl hp.2.1
  refine noOcc_append_left p _ _ (noOcc_of_star_free p _ hp.1 (by decide)) ?_ '\n'
    (by decide) hp.2.2.1
  exact noOcc_c1U4 p wb rn rd hp hwb hrn hrd h4 h5

theorem noOcc_c1U2 (p L1 C1 L2 C2 nb wb rn rd : List Char) (hp : c1PatOK p)
    (hL1 : ∀ c ∈ L1, isLowerA c = true) (hC1 : ∀ c ∈ C1, isLowerA c = true)
    (hL2 : ∀ c ∈ L2, isLowerA c = true) (hC2 : ∀ c ∈ C2, isLowerA c = true)
    (hnb : ∀ c ∈ nb, isLowerA c = true) (hwb : ∀ c ∈ wb, isLowerA c = true)
    (hrn : ∀ c ∈ rn, isLowerA c = true) (hrd : ∀ c ∈ rd, isLowerA c = true)
    (h2 : NoOcc p (strL "**Examples**:")) (h3 : NoOcc p (strL "**Notes**:"))
    (h4 : NoOcc p (strL "**Warnings**:")) (h5 : NoOcc p (strL "**Raises**:")) :
    NoOcc p (c1U2 L1 C1 L2 C2 nb wb rn rd) := by
  rw [c1U2]
  refine noOcc_append_right p _ _ h2 ?_ '\n' rfl hp.2.1
  refine noOcc_append_left p _ _ (noOcc_of_star_free p _ hp.1 (by decide)) ?_ '\n'
    (by decide) hp.2.2.1
  refine noOcc_append_right p _ _ (noOcc_c1EX p L1 C1 L2 C2 hp hL1 hC1 hL2 hC2) ?_ '\n'
    rfl hp.2.1
  refine noOcc_append_left p _ _ (noOcc_of_star_free p _ hp.1 (by decide)) ?_ '\n'
    (by decide) hp.2.2.1
  exact noOcc_c1U3 p nb wb rn rd hp hnb hwb hrn hrd h3 h4 h5

theorem noOcc_c1U1 (p rb L1 C1 L2 C2 nb wb rn rd : List Char) (hp : c1PatOK p)
    (hrb : ∀ c ∈ rb, isLowerA c = true)
    (hL1 : ∀ c ∈ L1, isLowerA c = true) (hC1 : ∀ c ∈ C1, isLowerA c = true)
    (hL2 : ∀ c ∈ L2, isLowerA c = true) (hC2 : ∀ c ∈ C2, isLowerA c = true)
    (hnb : ∀ c ∈ nb, isLowerA c = true) (hwb : ∀ c ∈ wb, isLowerA c = true)
    (hrn : ∀ c ∈ rn, isLowerA c = true) (hrd : ∀ c ∈ rd, isLowerA c = true)
    (h1 : NoOcc p (strL "**Returns**:")) (h2 : NoOcc p (strL "**Examples**:"))
    (h3 : NoOcc p (strL "**Notes**:")) (h4 : NoOcc p (strL "**Warnings**:"))
    (h5 : NoOcc p (strL "**Raises**:")) :
    NoOcc p (c1U1 rb L1 C1 L2 C2 nb wb rn rd) := by
  rw [c1U1]
  refine noOcc_append_right p _ _ h1 ?_ '\n' rfl hp.2.1
  refine noOcc_append_left p _ _ (noOcc_of_star_free p _ hp.1 (by decide)) ?_ '\n'
    (by decide) hp.2.2.1
  refine noOcc_append_right p rb _
    (noOcc_of_star_free p rb hp.1 (lower_star_free rb hrb)) ?_ '\n' rfl hp.2.1
  refine noOcc_append_left p _ _ (noOcc_of_star_free p _ hp.1 (by decide)) ?_ '\n'
    (by decide) hp.2.2.1
  exact noOcc_c1U2 p L1 C1 L2 C2 nb wb rn rd hp hL1 hC1 hL2 hC2 hnb hwb hrn hrd h2 h3 h4 h5

/-- All characters appearing in the concrete fragments of the docstring
family. -/
def c1Pool : List Char :=
  strL "**Returns**:**Examples**:**Notes**:**Warnings**:**Raises**:\n`- "

theorem mem_c1RB (x : Char) (rn rd : List Char) (h : x ∈ c1RB rn rd) :
    x ∈ c1Pool ∨ x ∈ rn ∨ x ∈ rd := by
  rw [c1RB] at h
  simp only [List.mem_append] at h
  rcases h with h | h | h | h
  · exact Or.inl ((by decide : ∀ y ∈ strL "- `", y ∈ c1Pool) x h)
  · exact Or.inr (Or.inl h)
  · exact Or.inl ((by decide : ∀ y ∈ strL "`: ", y ∈ c1Pool) x h)
  · exact Or.inr (Or.inr h)

theorem mem_c1U5 (x : Char) (rn rd : List Char) (h : x ∈ c1U5 rn rd) :
    x ∈ c1Pool ∨ x ∈ rn ∨ x ∈ rd := by
  rw [c1U5] at h
  simp only [List.mem_append] at h
  rcases h with h | h | h
  · exact Or.inl ((by decide : ∀ y ∈ strL "**Raises**:", y ∈ c1Pool) x h)
  · exact Or.inl ((by decide : ∀ y ∈ strL "\n\n", y ∈ c1Pool) x h)
  · exact mem_c1RB x rn rd h

theorem mem_c1U4 (x : Char) (wb rn rd : List Char) (h : x ∈ c1U4 wb rn rd) :
    x ∈ c1Pool ∨ x ∈ wb ∨ x ∈ rn ∨ x ∈ rd := by
  rw [c1U4] at h
  simp only [List.mem_append] at h
  rcases h with h | h | h | h | h
  · exact Or.inl ((by decide : ∀ y ∈ strL "**Warnings**:", y ∈ c1Pool) x h)
  · exact Or.inl ((by decide : ∀ y ∈ strL "\n\n", y ∈ c1Pool) x h)
  · exact Or.inr (Or.inl h)
  · exact Or.inl ((by decide : ∀ y ∈ strL "\n\n", y ∈ c1Pool) x h)
  · rcases mem_c1U5 x rn rd h with h1 | h1 | h1
    · exact Or.inl h1
    · exact Or.inr (Or.inr (Or.inl h1))
    · exact Or.inr (Or.inr (Or.inr h1))

theorem mem_c1U3 (x : Char) (nb wb rn rd : List Char) (h : x ∈ c1U3 nb wb rn rd) :
    x ∈ c1Pool ∨ x ∈ nb ∨ x ∈ wb ∨ x ∈ rn ∨ x ∈ rd := by
  rw [c1U3] at h
  simp only [List.mem_append] at h
  rcases h with h | h | h | h | h
  · exact Or.inl ((by decide : ∀ y ∈ strL "**Notes**:", y ∈ c1Pool) x h)
  · exact Or.inl ((by decide : ∀ y ∈ strL "\n\n", y ∈ c1Pool) x h)
  · exact Or.inr (Or.inl h)
  · exact Or.inl ((by decide : ∀ y ∈ strL "\n\n", y ∈ c1Pool) x h)
  · rcases mem_c1U4 x wb rn rd h with h1 | h1 | h1 | h1
    · exact Or.inl h1
    · exact Or.inr (Or.inr (Or.inl h1))
    · exact Or.inr (Or.inr (Or.inr (Or.inl h1)))
    · exact Or.inr (Or.inr (Or.inr (Or.inr h1)))

theorem mem_c1U2 (x : Char) (L1 C1 L2 C2 nb wb rn rd : List Char)
    (h : x ∈ c1U2 L1 C1 L2 C2 nb wb rn rd) :
    x ∈ c1Pool ∨ x ∈ L1 ∨ x ∈ C1 ∨ x ∈ L2 ∨ x ∈ C2 ∨ x ∈ nb ∨ x ∈ wb ∨ x ∈ rn ∨ x ∈ rd := by
  rw [c1U2] at h
  simp only [List.mem_append] at h
  rcases h with h | h | h | h | h
  · exact Or.inl ((by decide : ∀ y ∈ strL "**Examples**:", y ∈ c1Pool) x h)
  · exact Or.inl ((by decide : ∀ y ∈ strL "\n\n", y ∈ c1Pool) x h)
  · rcases mem_c1EX x L1 C1 L2 C2 h with h1 | h1 | h1 | h1 | h1
    · exact Or.inl ((by decide : ∀ y ∈ strL "`\n", y ∈ c1Pool) x h1)
    · exact Or.inr (Or.inl h1)
    · exact Or.inr (Or.inr (Or.inl h1))
    · exact Or.inr (Or.inr (Or.inr (Or.inl h1)))
    · exact Or.inr (Or.inr (Or.inr (Or.inr (Or.inl h1))))
  · exact Or.inl ((by decide : ∀ y ∈ strL "\n\n", y ∈ c1Pool) x h)
  · rcases mem_c1U3 x nb wb rn rd h with h1 | h1 | h1 | h1 | h1
    · exact Or.inl h1
    · exact Or.inr (Or.inr (Or.inr (Or.inr (Or.inr (Or.inl h1)))))
    · exact Or.inr (Or.inr (Or.inr (Or.inr (Or.inr (Or.inr (Or.inl h1))))))
    · exact Or.inr (Or.inr (Or.inr (Or.inr (Or.inr (Or.inr (Or.inr (Or.inl h1)))))))
    · exact Or.inr (Or.inr (Or.inr (Or.inr (Or.inr (Or.inr (Or.inr (Or.inr h1)))))))

theorem mem_c1U1 (x : Char) (rb L1 C1 L2 C2 nb wb rn rd : List Char)
    (h : x ∈ c1U1 rb L1 C1 L2 C2 nb wb rn rd) :
    x ∈ c1Pool ∨ x ∈ rb ∨ x ∈ L1 ∨ x ∈ C1 ∨ x ∈ L2 ∨ x ∈ C2 ∨ x ∈ nb ∨ x ∈ wb ∨
      x ∈ rn ∨ x ∈ rd := by
  rw [c1U1] at h
  simp only [List.mem_append] at h
  rcases h with h | h | h | h | h
  · exact Or.inl ((by decide : ∀ y ∈ strL "**Returns**:", y ∈ c1Pool) x h)
  · exact Or.inl ((by decide : ∀ y ∈ strL "\n\n", y ∈ c1Pool) x h)
  · exact Or.inr (Or.inl h)
  · exact Or.inl ((by decide : ∀ y ∈ strL "\n\n", y ∈ c1Pool) x h)
  · rcases mem_c1U2 x L1 C1 L2 C2 nb wb rn rd h with
      h1 | h1 | h1 | h1 | h1 | h1 | h1 | h1 | h1
    · exact Or.inl h1
    · exact Or.inr (Or.inr (Or.inl h1))
    · exact Or.inr (Or.inr (Or.inr (Or.inl h1)))
    · exact Or.inr (Or.inr (Or.inr (Or.inr (Or.inl h1))))
    · exact Or.inr (Or.inr (Or.inr (Or.inr (Or.inr (Or.inl h1)))))
    · exact Or.inr (Or.inr (Or.inr (Or.inr (Or.inr (Or.inr (Or.inl h1))))))
    · exact Or.inr (Or.inr (Or.inr (Or.inr (Or.inr (Or.inr (Or.inr (Or.inl h1)))))))
    · exact Or.inr (Or.inr (Or.inr (Or.inr (Or.inr (Or.inr (Or.inr (Or.inr (Or.inl h1))))))))
    · exact Or.inr (Or.inr (Or.inr (Or.inr (Or.inr (Or.inr (Or.inr (Or.inr (Or.inr h1))))))))

theorem safeW_bulletName (n : List Char) (h : safeW n = true) : bulletName n = true := by
  obtain ⟨hne, hlow⟩ := safeW_spec n h
  rw [bulletName, show n.isEmpty = false from by
      cases n with
      | nil => exact absurd rfl hne
      | cons c cs => rfl]
  simp only [Bool.not_false, Bool.true_and, List.all_eq_true]
  intro c hc
  simp [lower_ne c '`' (hlow c hc) (by decide)]

theorem safeW_bulletDesc (d : List Char) (h : safeW d = true) : bulletDesc d = true := by
  obtain ⟨hne, hlow⟩ := safeW_spec d h
  rw [bulletDesc, show d.isEmpty = false from by
      cases d with
      | nil => exact absurd rfl hne
      | cons c cs => rfl]
  simp only [Bool.not_false, Bool.true_and, List.all_eq_true]
  intro c hc
  simp [lower_ne c '\n' (hlow c hc) (by decide)]

/-- Well-formedness of the docstring family's parameters. -/
def c1OK (items : List (List Char × List Char)) (rb L1 C1 L2 C2 nb wb rn rd : List Char) :
    Prop :=
  items ≠ [] ∧ (∀ it ∈ items, safeW it.1 = true ∧ safeW it.2 = true) ∧
    safeW rb = true ∧ safeW L1 = true ∧ safeW C1 = true ∧ safeW L2 = true ∧
    safeW C2 = true ∧ safeW nb = true ∧ safeW wb = true ∧ safeW rn = true ∧
    safeW rd = true ∧ rn.getLast? ≠ some 's'

theorem c1U1_excl (d : Char) (rb L1 C1 L2 C2 nb wb rn rd : List Char)
    (hd : isLowerA d = false) (hdp : d ∉ c1Pool)
    (hrb : ∀ c ∈ rb, isLowerA c = true)
    (hL1 : ∀ c ∈ L1, isLowerA c = true) (hC1 : ∀ c ∈ C1, isLowerA c = true)
    (hL2 : ∀ c ∈ L2, isLowerA c = true) (hC2 : ∀ c ∈ C2, isLowerA c = true)
    (hnb : ∀ c ∈ nb, isLowerA c = true) (hwb : ∀ c ∈ wb, isLowerA c = true)
    (hrn : ∀ c ∈ rn, isLowerA c = true) (hrd : ∀ c ∈ rd, isLowerA c = true) :
    d ∉ c1U1 rb L1 C1 L2 C2 nb wb rn rd := by
  intro hmem
  rcases mem_c1U1 d rb L1 C1 L2 C2 nb wb rn rd hmem with
    h | h | h | h | h | h | h | h | h | h
  · exact hdp h
  · rw [hrb d h] at hd; exact Bool.noConfusion hd
  · rw [hL1 d h] at hd; exact Bool.noConfusion hd
  · rw [hC1 d h] at hd; exact Bool.noConfusion hd
  · rw [hL2 d h] at hd; exact Bool.noConfusion hd
  · rw [hC2 d h] at hd; exact Bool.noConfusion hd
  · rw [hnb d h] at hd; exact Bool.noConfusion hd
  · rw [hwb d h] at hd; exact Bool.noConfusion hd
  · rw [hrn d h] at hd; exact Bool.noConfusion hd
  · rw [hrd d h] at hd; exact Bool.noConfusion hd

theorem prefix_append_mono (b y z : List Char) (h : y <+: z) : b ++ y <+: b ++ z := by
  obtain ⟨t, ht⟩ := h
  exact ⟨t, by rw [List.append_assoc, ht]⟩

/-- A pattern-prefix test at a position strictly inside `body` only reads
`body` and the first `k` characters of the continuation; absence of the
pattern in that window refutes all such tests. -/
theorem prefix_false_of_noOcc (P body tail : List Char) (k : Nat)
    (hk : P.length ≤ k + 1) (cond : NoOcc P (body ++ tail.take k)) :
    ∀ b, b <:+ body → b ≠ [] → P.isPrefixOf (b ++ tail) = false := by
  intro b hb hbne
  by_contra hcon
  rw [Bool.not_eq_false] at hcon
  have hpre : P <+: b ++ tail := List.isPrefixOf_iff_prefix.mp hcon
  have hblen : 1 ≤ b.length := by
    cases b with
    | nil => exact absurd rfl hbne
    | cons x xs => simp
  apply cond
  by_cases hcase : P.length ≤ b.length
  · have h1 : P <+: b :=
      List.prefix_of_prefix_length_le hpre (List.prefix_append b tail)
        (by simpa using hcase)
    exact infix_lift_left P body _ ((h1.isInfix).trans hb.isInfix)
  · have hlb : b.length ≤ P.length := Nat.le_of_not_le hcase
    have htake : P.take b.length = b := by
      have h1 := List.prefix_iff_eq_take.mp
        (List.prefix_of_prefix_length_le (List.prefix_append b tail) hpre
          (by simpa using hlb))
      exact h1.symm
    have hdropP : P.drop b.length <+: tail := by
      obtain ⟨t, ht⟩ := hpre
      have h1 : (P ++ t).drop b.length = (b ++ tail).drop b.length := by rw [ht]
      rw [List.drop_append_of_le_length hlb, List.drop_left] at h1
      exact ⟨t, h1⟩
    have hdlen : (P.drop b.length).length ≤ k := by
      rw [List.length_drop]
      omega
    have hform : P.drop b.length = (tail.take k).take (P.drop b.length).length := by
      rw [List.take_take, Nat.min_eq_left hdlen]
      exact List.prefix_iff_eq_take.mp hdropP
    have hP : P <+: b ++ tail.take k := by
      have h1 : P = b ++ P.drop b.length := by
        conv_lhs => rw [← List.take_append_drop b.length P, htake]
      rw [h1, hform]
      exact prefix_append_mono b _ _ (List.take_prefix _ _)
    obtain ⟨pre, hpre2⟩ := hb
    rw [← hpre2, List.append_assoc]
    exact infix_lift_right P pre _ hP.isInfix

theorem count_star_le_one_noOcc (P s : List Char) (hP : 2 ≤ P.count '*')
    (hs : s.count '*' ≤ 1) : NoOcc P s := by
  intro h
  have := h.sublist.count_le '*'
  omega

theorem star_free_count (s : List Char) (h : ∀ c ∈ s, c ≠ '*') : s.count '*' = 0 :=
  List.count_eq_zero.mpr (fun hmem => h '*' hmem rfl)

theorem c1_stage1 (items : List (List Char × List Char)) (rb L1 C1 L2 C2 nb wb rn rd : List Char)
    (hne : items ≠ []) (hit : ∀ it ∈ items, safeW it.1 = true ∧ safeW it.2 = true)
    (hrb : ∀ c ∈ rb, isLowerA c = true)
    (hL1 : ∀ c ∈ L1, isLowerA c = true) (hC1 : ∀ c ∈ C1, isLowerA c = true)
    (hL2 : ∀ c ∈ L2, isLowerA c = true) (hC2 : ∀ c ∈ C2, isLowerA c = true)
    (hnb : ∀ c ∈ nb, isLowerA c = true) (hwb : ∀ c ∈ wb, isLowerA c = true)
    (hrn : ∀ c ∈ rn, isLowerA c = true) (hrd : ∀ c ∈ rd, isLowerA c = true) :
    convert_arguments (c1Doc items rb L1 C1 L2 C2 nb wb rn rd) =
      argsReplacement items ++ (strL "\n" ++ c1U1 rb L1 C1 L2 C2 nb wb rn rd) := by
  have h2 : ∀ it ∈ items, bulletName it.1 = true ∧ bulletDesc it.2 = true :=
    fun it hi => ⟨safeW_bulletName it.1 (hit it hi).1, safeW_bulletDesc it.2 (hit it hi).2⟩
  have h3 : parseBullet ((strL "\n" ++ c1U1 rb L1 C1 L2 C2 nb wb rn rd).dropWhile pySpace)
      = none := by
    have hw := takeWhile_append_stop pySpace (strL "\n") (c1U1 rb L1 C1 L2 C2 nb wb rn rd)
      (by decide) (by rfl)
    rw [hw.2]
    exact parseBullet_none_head '*' _ (by decide)
  have hocc : NoOcc (strL "**Arguments**:") (strL "\n" ++ c1U1 rb L1 C1 L2 C2 nb wb rn rd) := by
    apply noOcc_of_not_mem _ _ 'A' (by decide)
    exact not_mem_append2 'A' _ _ (by decide)
      (c1U1_excl 'A' rb L1 C1 L2 C2 nb wb rn rd (by decide) (by decide)
        hrb hL1 hC1 hL2 hC2 hnb hwb hrn hrd)
  rw [c1Doc, convert_arguments]
  have hthd : tryHeads [strL "**Arguments**:"] tryArgsFn
      (strL "**Arguments**:" ++ (strL "\n\n" ++ (argBullets items ++
        (strL "\n" ++ c1U1 rb L1 C1 L2 C2 nb wb rn rd)))) =
      some (argsReplacement items, strL "\n" ++ c1U1 rb L1 C1 L2 C2 nb wb rn rd) := by
    rw [tryHeads, if_pos (isPrefixOf_append_self _ _), List.drop_left, tryArgsFn,
      tryArgs_compute items _ hne h2 h3]
    rfl
  rw [scanGen_some _ _ tryArgsFn_length (by intro hd hm; simp at hm; rw [hm]; decide)
      _ _ _ hthd (List.cons_ne_nil _ _),
    scanGen_id_of_noOcc _ _ _ (by intro hd hm; simp at hm; rw [hm]; exact hocc)]

theorem safeW_safeBody (s : List Char) (h : safeW s = true) : safeBody s = true := by
  obtain ⟨hne, hlow⟩ := safeW_spec s h
  rw [safeBody, show s.isEmpty = false from by
      cases s with
      | nil => exact absurd rfl hne
      | cons c cs => rfl]
  have h2 : s.head?.all (fun c => !pySpace c) = true := by
    cases s with
    | nil => rfl
    | cons c cs =>
      show (!pySpace c) = true
      rw [lower_not_pySpace c (hlow c (by simp))]
      rfl
  have h3 : s.getLast?.all (fun c => !pySpace c) = true := by
    cases hl : s.getLast? with
    | none => rfl
    | some c =>
      have hc : c ∈ s := List.mem_of_mem_getLast? (by rw [hl]; rfl)
      show (!pySpace c) = true
      rw [lower_not_pySpace c (hlow c hc)]
      rfl
  have h4 : s.all (fun c => !(c == '*')) = true := by
    rw [List.all_eq_true]
    intro c hc
    simp [lower_ne c '*' (hlow c hc) (by decide)]
  rw [h2, h3, h4]
  rfl

theorem argsReplacement_star_free (items : List (List Char × List Char))
    (hit : ∀ it ∈ items, safeW it.1 = true ∧ safeW it.2 = true) :
    ∀ c ∈ argsReplacement items, c ≠ '*' := by
  intro c hc
  rcases mem_argsReplacement c items hc with h | ⟨it, hmem, h | h⟩
  · exact fun he => by subst he; exact absurd h (by decide)
  · exact lower_ne c '*' ((safeW_spec it.1 (hit it hmem).1).2 c h) (by decide)
  · exact lower_ne c '*' ((safeW_spec it.2 (hit it hmem).2).2 c h) (by decide)

theorem c1PatOK_of (p : List Char)
    (h : '*' ∈ p ∧ '\n' ∉ p.tail ∧ '\n' ∉ p.dropLast ∧ '`' ∉ p.dropLast ∧
      '`' ∉ p.tail ∧ ' ' ∉ p.dropLast) : c1PatOK p := h

theorem returnsReplacement_star_free (rb : List Char) (hrb : ∀ c ∈ rb, isLowerA c = true) :
    ∀ c ∈ returnsReplacement rb, c ≠ '*' := by
  intro c hc
  rw [returnsReplacement_eq] at hc
  simp only [List.append_assoc, List.mem_append] at hc
  rcases hc with h | h | h
  · exact fun he => by subst he; exact absurd h (by decide)
  · exact lower_ne c '*' (hrb c h) (by decide)
  · exact fun he => by subst he; exact absurd h (by decide)

theorem c1_stage2 (items : List (List Char × List Char)) (rb L1 C1 L2 C2 nb wb rn rd : List Char)
    (hit : ∀ it ∈ items, safeW it.1 = true ∧ safeW it.2 = true)
    (hrbW : safeW rb = true)
    (hL1 : ∀ c ∈ L1, isLowerA c = true) (hC1 : ∀ c ∈ C1, isLowerA c = true)
    (hL2 : ∀ c ∈ L2, isLowerA c = true) (hC2 : ∀ c ∈ C2, isLowerA c = true)
    (hnb : ∀ c ∈ nb, isLowerA c = true) (hwb : ∀ c ∈ wb, isLowerA c = true)
    (hrn : ∀ c ∈ rn, isLowerA c = true) (hrd : ∀ c ∈ rd, isLowerA c = true) :
    convert_returns (argsReplacement items ++ (strL "\n" ++ c1U1 rb L1 C1 L2 C2 nb wb rn rd)) =
      argsReplacement items ++ (strL "\n" ++ (returnsReplacement rb ++
        (strL "\n\n" ++ c1U2 L1 C1 L2 C2 nb wb rn rd))) := by
  have hrb : ∀ c ∈ rb, isLowerA c = true := (safeW_spec rb hrbW).2
  rw [convert_returns,
    scanGen_append_star_free _ _ (by decide) _ _ (argsReplacement_star_free items hit),
    scanGen_append_star_free _ _ (by decide) _ _ (by decide), c1U1]
  have hthd : tryHeads [strL "**Returns**:"] tryReturnsFn
      (strL "**Returns**:" ++ (strL "\n\n" ++ (rb ++
        (strL "\n\n" ++ c1U2 L1 C1 L2 C2 nb wb rn rd)))) =
      some (returnsReplacement rb, strL "\n\n" ++ c1U2 L1 C1 L2 C2 nb wb rn rd) := by
    rw [tryHeads, if_pos (isPrefixOf_append_self _ _), List.drop_left,
      tryReturnsFn_mid _ rb _ (safeW_safeBody rb hrbW) (by rfl)]
  rw [scanGen_some _ _ tryReturnsFn_length (by intro hd hm; simp at hm; rw [hm]; decide)
      _ _ _ hthd (List.cons_ne_nil _ _),
    scanGen_id_of_noOcc _ _ _ (by
      intro hd hm
      simp only [List.mem_singleton] at hm
      subst hm
      refine noOcc_append_left _ _ _ (noOcc_of_hasSubB _ _ (by decide)) ?_ '\n'
        (by decide) (by decide)
      exact noOcc_c1U2 _ L1 C1 L2 C2 nb wb rn rd (c1PatOK_of _ (by decide)) hL1 hC1 hL2 hC2 hnb hwb hrn hrd
        (noOcc_of_hasSubB _ _ (by decide)) (noOcc_of_hasSubB _ _ (by decide))
        (noOcc_of_hasSubB _ _ (by decide)) (noOcc_of_hasSubB _ _ (by decide)))]

/-- The code-group component produced for the Examples section. -/
def c1CG (L1 C1 L2 C2 : List Char) : List Char :=
  create_mdc_code_group [blockRecord ⟨[], L1, C1⟩, blockRecord ⟨strL "\n\n", L2, C2⟩]
    (mdcComponent "examples" (strL "UCodeGroup"))

theorem c1EX_star_free (L1 C1 L2 C2 : List Char)
    (hL1 : ∀ c ∈ L1, isLowerA c = true) (hC1 : ∀ c ∈ C1, isLowerA c = true)
    (hL2 : ∀ c ∈ L2, isLowerA c = true) (hC2 : ∀ c ∈ C2, isLowerA c = true) :
    ∀ c ∈ c1EX L1 C1 L2 C2, c ≠ '*' := by
  intro c hc
  rcases mem_c1EX c L1 C1 L2 C2 hc with h | h | h | h | h
  · exact fun he => by subst he; exact absurd h (by decide)
  · exact lower_ne c '*' (hL1 c h) (by decide)
  · exact lower_ne c '*' (hC1 c h) (by decide)
  · exact lower_ne c '*' (hL2 c h) (by decide)
  · exact lower_ne c '*' (hC2 c h) (by decide)

theorem append_ne_nil_right (a b : List Char) (hb : b ≠ []) : a ++ b ≠ [] := by
  intro h
  rcases List.append_eq_nil.mp h with ⟨-, h2⟩
  exact hb h2

theorem c1EX_getLast (L1 C1 L2 C2 : List Char) :
    (c1EX L1 C1 L2 C2).getLast? = some '`' := by
  rw [c1EX,
    List.getLast?_append_of_ne_nil _
      (show strL "\n\n" ++ blockText ⟨([] : List Char), L2, C2⟩ ≠ [] from
        List.cons_ne_nil _ _),
    List.getLast?_append_of_ne_nil _
      (show blockText ⟨([] : List Char), L2, C2⟩ ≠ [] from List.cons_ne_nil _ _),
    blockText_eq,
    List.getLast?_append_of_ne_nil _
      (append_ne_nil_right L2 _
        (show strL "\n" ++ (C2 ++ strL "\n```") ≠ [] from List.cons_ne_nil _ _)),
    List.getLast?_append_of_ne_nil _
      (show strL "\n" ++ (C2 ++ strL "\n```") ≠ [] from List.cons_ne_nil _ _),
    List.getLast?_append_of_ne_nil _ (append_ne_nil_right C2 _ (by decide)),
    List.getLast?_append_of_ne_nil _ (show strL "\n```" ≠ [] from by decide)]
  rfl

theorem pyStrip_c1EX (L1 C1 L2 C2 : List Char) :
    pyStrip (c1EX L1 C1 L2 C2) = c1EX L1 C1 L2 C2 :=
  pyStrip_eq_self _ (by rfl) (by rw [c1EX_getLast]; rfl)

theorem findBlocks_c1EX (L1 C1 L2 C2 : List Char)
    (hL1 : ∀ c ∈ L1, isLowerA c = true) (hC1 : ∀ c ∈ C1, isLowerA c = true)
    (hL2 : ∀ c ∈ L2, isLowerA c = true) (hC2 : ∀ c ∈ C2, isLowerA c = true) :
    findBlocks (c1EX L1 C1 L2 C2) = ([⟨[], L1, C1⟩, ⟨strL "\n\n", L2, C2⟩], []) := by
  have h := findBlocks_two [] (strL "\n\n") [] L1 C1 L2 C2 (by simp) (by decide) (by simp)
    (fun c hc => lower_isWordChar c (hL1 c hc))
    (fun c hc => lower_ne c '`' (hC1 c hc) (by decide))
    (fun c hc => lower_isWordChar c (hL2 c hc))
    (fun c hc => lower_ne c '`' (hC2 c hc) (by decide))
  rw [c1EX, show blockText ⟨([] : List Char), L1, C1⟩ ++ (strL "\n\n" ++
      blockText ⟨([] : List Char), L2, C2⟩) = [] ++ (blockText ⟨([] : List Char), L1, C1⟩ ++
      (strL "\n\n" ++ (blockText ⟨([] : List Char), L2, C2⟩ ++ []))) from by simp, h]

theorem c1_lazyBody (L1 C1 L2 C2 nb wb rn rd : List Char)
    (hL1 : ∀ c ∈ L1, isLowerA c = true) (hC1 : ∀ c ∈ C1, isLowerA c = true)
    (hL2 : ∀ c ∈ L2, isLowerA c = true) (hC2 : ∀ c ∈ C2, isLowerA c = true) :
    lazyBody (c1EX L1 C1 L2 C2 ++ (strL "\n\n" ++ c1U3 nb wb rn rd)) =
      (c1EX L1 C1 L2 C2, strL "\n\n" ++ c1U3 nb wb rn rd) := by
  have cond := prefix_false_of_noOcc (strL "\n\n**") (c1EX L1 C1 L2 C2)
    (strL "\n\n" ++ c1U3 nb wb rn rd) 3 (by decide) (by
      rw [show (strL "\n\n" ++ c1U3 nb wb rn rd).take 3 = strL "\n\n*" from rfl]
      apply count_star_le_one_noOcc _ _ (by decide)
      rw [List.count_append, star_free_count _ (c1EX_star_free L1 C1 L2 C2 hL1 hC1 hL2 hC2),
        show (strL "\n\n*").count '*' = 1 from rfl])
  rw [lazyBody_append _ _ cond,
    lazyBody_boundary (strL "\n\n" ++ c1U3 nb wb rn rd)
      (show strL "\n\n" ++ c1U3 nb wb rn rd ≠ [] from List.cons_ne_nil _ _) (by rfl)]
  simp

theorem tryExamplesFn_c1 (L1 C1 L2 C2 nb wb rn rd : List Char)
    (hL1 : ∀ c ∈ L1, isLowerA c = true) (hC1 : ∀ c ∈ C1, isLowerA c = true)
    (hL2 : ∀ c ∈ L2, isLowerA c = true) (hC2 : ∀ c ∈ C2, isLowerA c = true) :
    tryExamplesFn (strL "**Examples**:")
        (strL "\n\n" ++ (c1EX L1 C1 L2 C2 ++ (strL "\n\n" ++ c1U3 nb wb rn rd))) =
      some (c1CG L1 C1 L2 C2, strL "\n\n" ++ c1U3 nb wb rn rd) := by
  simp only [tryExamplesFn]
  rw [sectionMatch_mid _ (by rfl), c1_lazyBody L1 C1 L2 C2 nb wb rn rd hL1 hC1 hL2 hC2]
  show (if (findBlocks (pyStrip (c1EX L1 C1 L2 C2))).1 = [] then
      some (strL "**Examples**:\n\n" ++ pyStrip (c1EX L1 C1 L2 C2),
        strL "\n\n" ++ c1U3 nb wb rn rd)
    else some (create_mdc_code_group ((findBlocks (pyStrip (c1EX L1 C1 L2 C2))).1.map
        blockRecord) (mdcComponent "examples" (strL "UCodeGroup")),
      strL "\n\n" ++ c1U3 nb wb rn rd)) = some (c1CG L1 C1 L2 C2, strL "\n\n" ++ c1U3 nb wb rn rd)
  rw [pyStrip_c1EX, findBlocks_c1EX L1 C1 L2 C2 hL1 hC1 hL2 hC2]
  rw [if_neg (by simp)]
  rfl

theorem c1_stage3 (items : List (List Char × List Char)) (rb L1 C1 L2 C2 nb wb rn rd : List Char)
    (hit : ∀ it ∈ items, safeW it.1 = true ∧ safeW it.2 = true)
    (hrb : ∀ c ∈ rb, isLowerA c = true)
    (hL1 : ∀ c ∈ L1, isLowerA c = true) (hC1 : ∀ c ∈ C1, isLowerA c = true)
    (hL2 : ∀ c ∈ L2, isLowerA c = true) (hC2 : ∀ c ∈ C2, isLowerA c = true)
    (hnb : ∀ c ∈ nb, isLowerA c = true) (hwb : ∀ c ∈ wb, isLowerA c = true)
    (hrn : ∀ c ∈ rn, isLowerA c = true) (hrd : ∀ c ∈ rd, isLowerA c = true) :
    convert_examples (argsReplacement items ++ (strL "\n" ++ (returnsReplacement rb ++
        (strL "\n\n" ++ c1U2 L1 C1 L2 C2 nb wb rn rd)))) =
      argsReplacement items ++ (strL "\n" ++ (returnsReplacement rb ++
        (strL "\n\n" ++ (c1CG L1 C1 L2 C2 ++ (strL "\n\n" ++ c1U3 nb wb rn rd))))) := by
  rw [convert_examples,
    scanGen_append_star_free _ _ (by decide) _ _ (argsReplacement_star_free items hit),
    scanGen_append_star_free _ _ (by decide) _ _ (by decide),
    scanGen_append_star_free _ _ (by decide) _ _ (returnsReplacement_star_free rb hrb),
    scanGen_append_star_free _ _ (by decide) _ _ (by decide), c1U2]
  have hthd : tryHeads [strL "**Examples**:"] tryExamplesFn
      (strL "**Examples**:" ++ (strL "\n\n" ++ (c1EX L1 C1 L2 C2 ++
        (strL "\n\n" ++ c1U3 nb wb rn rd)))) =
      some (c1CG L1 C1 L2 C2, strL "\n\n" ++ c1U3 nb wb rn rd) := by
    rw [tryHeads, if_pos (isPrefixOf_append_self _ _), List.drop_left,
      tryExamplesFn_c1 L1 C1 L2 C2 nb wb rn rd hL1 hC1 hL2 hC2]
  rw [scanGen_some _ _ tryExamplesFn_length (by intro hd hm; simp at hm; rw [hm]; decide)
      _ _ _ hthd (List.cons_ne_nil _ _),
    scanGen_id_of_noOcc _ _ _ (by
      intro hd hm
      simp only [List.mem_singleton] at hm
      subst hm
      refine noOcc_append_left _ _ _ (noOcc_of_hasSubB _ _ (by decide)) ?_ '\n'
        (by decide) (by decide)
      exact noOcc_c1U3 _ nb wb rn rd (c1PatOK_of _ (by decide)) hnb hwb hrn hrd
        (noOcc_of_hasSubB _ _ (by decide)) (noOcc_of_hasSubB _ _ (by decide))
        (noOcc_of_hasSubB _ _ (by decide)))]

theorem safeW_pyStrip (s : List Char) (h : safeW s = true) : pyStrip s = s := by
  obtain ⟨-, hh, hl, -⟩ := safeBody_spec s (safeW_safeBody s h)
  exact pyStrip_eq_self s hh hl

theorem c1CG_eq (L1 C1 L2 C2 : List Char) (hL1 : safeW L1 = true) (hC1 : safeW C1 = true)
    (hL2 : safeW L2 = true) (hC2 : safeW C2 = true) :
    c1CG L1 C1 L2 C2 = strL "::u-code-group\n```" ++ (L1 ++ (strL " [" ++ (L1 ++
      (strL "]\n" ++ (C1 ++ (strL "\n```\n```" ++ (L2 ++ (strL " [" ++ (L2 ++
        (strL "]\n" ++ (C2 ++ strL "\n```\n::"))))))))))) := by
  rw [c1CG]
  exact codeGroup_two [] L1 C1 (strL "\n\n") L2 C2 (safeW_spec L1 hL1).1 (safeW_spec L2 hL2).1
    (safeW_pyStrip C1 hC1) (safeW_pyStrip C2 hC2)

theorem c1CG_star_free (L1 C1 L2 C2 : List Char) (hL1 : safeW L1 = true)
    (hC1 : safeW C1 = true) (hL2 : safeW L2 = true) (hC2 : safeW C2 = true) :
    ∀ c ∈ c1CG L1 C1 L2 C2, c ≠ '*' := by
  intro c hc
  rw [c1CG_eq L1 C1 L2 C2 hL1 hC1 hL2 hC2] at hc
  simp only [List.mem_append] at hc
  rcases hc with h | h | h | h | h | h | h | h | h | h | h | h | h
  · exact fun he => by subst he; exact absurd h (by decide)
  · exact lower_ne c '*' ((safeW_spec L1 hL1).2 c h) (by decide)
  · exact fun he => by subst he; exact absurd h (by decide)
  · exact lower_ne c '*' ((safeW_spec L1 hL1).2 c h) (by decide)
  · exact fun he => by subst he; exact absurd h (by decide)
  · exact lower_ne c '*' ((safeW_spec C1 hC1).2 c h) (by decide)
  · exact fun he => by subst he; exact absurd h (by decide)
  · exact lower_ne c '*' ((safeW_spec L2 hL2).2 c h) (by decide)
  · exact fun he => by subst he; exact absurd h (by decide)
  · exact lower_ne c '*' ((safeW_spec L2 hL2).2 c h) (by decide)
  · exact fun he => by subst he; exact absurd h (by decide)
  · exact lower_ne c '*' ((safeW_spec C2 hC2).2 c h) (by decide)
  · exact fun he => by subst he; exact absurd h (by decide)

theorem lazyBody_mid (body U : List Char) (hstar : ∀ c ∈ body, c ≠ '*')
    (htake : (strL "\n\n" ++ U).take 3 = strL "\n\n*")
    (hpre : (strL "\n\n**").isPrefixOf (strL "\n\n" ++ U) = true) :
    lazyBody (body ++ (strL "\n\n" ++ U)) = (body, strL "\n\n" ++ U) := by
  have cond := prefix_false_of_noOcc (strL "\n\n**") body (strL "\n\n" ++ U) 3 (by decide) (by
    rw [htake]
    apply count_star_le_one_noOcc _ _ (by decide)
    rw [List.count_append, star_free_count _ hstar,
      show (strL "\n\n*").count '*' = 1 from rfl])
  rw [lazyBody_append _ _ cond,
    lazyBody_boundary (strL "\n\n" ++ U)
      (show strL "\n\n" ++ U ≠ [] from List.cons_ne_nil _ _) hpre]
  simp

theorem tryNotesFn_c1 (h0 nb wb rn rd : List Char) (hnbW : safeW nb = true) :
    tryNotesFn h0 (strL "\n\n" ++ (nb ++ (strL "\n\n" ++ c1U4 wb rn rd))) =
      some (create_mdc_alert nb (strL "info") (some (strL "Note"))
        (mdcComponent "notes" (strL "UAlert")), strL "\n\n" ++ c1U4 wb rn rd) := by
  obtain ⟨hne, hh, hl, hstar⟩ := safeBody_spec nb (safeW_safeBody nb hnbW)
  rw [tryNotesFn, sectionMatch_mid _ (head_all_append nb _ _ hne hh),
    lazyBody_mid nb _ hstar (by rfl) (by rfl)]
  show some (create_mdc_alert (pyStrip nb) (strL "info") (some (strL "Note"))
      (mdcComponent "notes" (strL "UAlert")), strL "\n\n" ++ c1U4 wb rn rd) = _
  rw [pyStrip_eq_self nb hh hl]

theorem tryWarningsFn_c1 (h0 wb rn rd : List Char) (hwbW : safeW wb = true) :
    tryWarningsFn h0 (strL "\n\n" ++ (wb ++ (strL "\n\n" ++ c1U5 rn rd))) =
      some (create_mdc_alert wb (strL "warning") (some (strL "Warning"))
        (mdcComponent "warnings" (strL "UAlert")), strL "\n\n" ++ c1U5 rn rd) := by
  obtain ⟨hne, hh, hl, hstar⟩ := safeBody_spec wb (safeW_safeBody wb hwbW)
  rw [tryWarningsFn, sectionMatch_mid _ (head_all_append wb _ _ hne hh),
    lazyBody_mid wb _ hstar (by rfl) (by rfl)]
  show some (create_mdc_alert (pyStrip wb) (strL "warning") (some (strL "Warning"))
      (mdcComponent "warnings" (strL "UAlert")), strL "\n\n" ++ c1U5 rn rd) = _
  rw [pyStrip_eq_self wb hh hl]

theorem alertNotes_star_free (nb : List Char) (hnb : ∀ c ∈ nb, isLowerA c = true) :
    ∀ c ∈ create_mdc_alert nb (strL "info") (some (strL "Note"))
      (mdcComponent "notes" (strL "UAlert")), c ≠ '*' := by
  intro c hc
  rw [alert_notes_eq] at hc
  simp only [List.mem_append] at hc
  rcases hc with h | h | h
  · exact fun he => by subst he; exact absurd h (by decide)
  · exact lower_ne c '*' (hnb c h) (by decide)
  · exact fun he => by subst he; exact absurd h (by decide)

theorem alertWarnings_star_free (wb : List Char) (hwb : ∀ c ∈ wb, isLowerA c = true) :
    ∀ c ∈ create_mdc_alert wb (strL "warning") (some (strL "Warning"))
      (mdcComponent "warnings" (strL "UAlert")), c ≠ '*' := by
  intro c hc
  rw [alert_warnings_eq] at hc
  simp only [List.mem_append] at hc
  rcases hc with h | h | h
  · exact fun he => by subst he; exact absurd h (by decide)
  · exact lower_ne c '*' (hwb c h) (by decide)
  · exact fun he => by subst he; exact absurd h (by decide)

theorem c1_stage4 (items : List (List Char × List Char)) (rb L1 C1 L2 C2 nb wb rn rd : List Char)
    (hit : ∀ it ∈ items, safeW it.1 = true ∧ safeW it.2 = true)
    (hrb : ∀ c ∈ rb, isLowerA c = true)
    (hL1 : safeW L1 = true) (hC1 : safeW C1 = true)
    (hL2 : safeW L2 = true) (hC2 : safeW C2 = true)
    (hnbW : safeW nb = true) (hwb : ∀ c ∈ wb, isLowerA c = true)
    (hrn : ∀ c ∈ rn, isLowerA c = true) (hrd : ∀ c ∈ rd, isLowerA c = true) :
    convert_notes (argsReplacement items ++ (strL "\n" ++ (returnsReplacement rb ++
        (strL "\n\n" ++ (c1CG L1 C1 L2 C2 ++ (strL "\n\n" ++ c1U3 nb wb rn rd)))))) =
      argsReplacement items ++ (strL "\n" ++ (returnsReplacement rb ++
        (strL "\n\n" ++ (c1CG L1 C1 L2 C2 ++ (strL "\n\n" ++
          (create_mdc_alert nb (strL "info") (some (strL "Note"))
            (mdcComponent "notes" (strL "UAlert")) ++
            (strL "\n\n" ++ c1U4 wb rn rd))))))) := by
  rw [convert_notes,
    scanGen_append_star_free _ _ (by decide) _ _ (argsReplacement_star_free items hit),
    scanGen_append_star_free _ _ (by decide) _ _ (by decide),
    scanGen_append_star_free _ _ (by decide) _ _ (returnsReplacement_star_free rb hrb),
    scanGen_append_star_free _ _ (by decide) _ _ (by decide),
    scanGen_append_star_free _ _ (by decide) _ _ (c1CG_star_free L1 C1 L2 C2 hL1 hC1 hL2 hC2),
    scanGen_append_star_free _ _ (by decide) _ _ (by decide), c1U3]
  have hthd : tryHeads [strL "**Notes**:", strL "**Note**:"] tryNotesFn
      (strL "**Notes**:" ++ (strL "\n\n" ++ (nb ++ (strL "\n\n" ++ c1U4 wb rn rd)))) =
      some (create_mdc_alert nb (strL "info") (some (strL "Note"))
        (mdcComponent "notes" (strL "UAlert")), strL "\n\n" ++ c1U4 wb rn rd) := by
    rw [tryHeads, if_pos (isPrefixOf_append_self _ _), List.drop_left,
      tryNotesFn_c1 _ nb wb rn rd hnbW]
  rw [scanGen_some _ _ tryNotesFn_length
      (by intro hd hm; simp at hm; rcases hm with rfl | rfl <;> decide)
      _ _ _ hthd (List.cons_ne_nil _ _),
    scanGen_id_of_noOcc _ _ _ (by
      intro hd hm
      simp at hm
      rcases hm with rfl | rfl <;>
      · refine noOcc_append_left _ _ _ (noOcc_of_hasSubB _ _ (by decide)) ?_ '\n'
          (by decide) (by decide)
        exact noOcc_c1U4 _ wb rn rd (c1PatOK_of _ (by decide)) hwb hrn hrd
          (noOcc_of_hasSubB _ _ (by decide)) (noOcc_of_hasSubB _ _ (by decide)))]

theorem c1_stage5 (items : List (List Char × List Char)) (rb L1 C1 L2 C2 nb wb rn rd : List Char)
    (hit : ∀ it ∈ items, safeW it.1 = true ∧ safeW it.2 = true)
    (hrb : ∀ c ∈ rb, isLowerA c = true)
    (hL1 : safeW L1 = true) (hC1 : safeW C1 = true)
    (hL2 : safeW L2 = true) (hC2 : safeW C2 = true)
    (hnb : ∀ c ∈ nb, isLowerA c = true) (hwbW : safeW wb = true)
    (hrn : ∀ c ∈ rn, isLowerA c = true) (hrd : ∀ c ∈ rd, isLowerA c = true) :
    convert_warnings (argsReplacement items ++ (strL "\n" ++ (returnsReplacement rb ++
        (strL "\n\n" ++ (c1CG L1 C1 L2 C2 ++ (strL "\n\n" ++
          (create_mdc_alert nb (strL "info") (some (strL "Note"))
            (mdcComponent "notes" (strL "UAlert")) ++
            (strL "\n\n" ++ c1U4 wb rn rd)))))))) =
      argsReplacement items ++ (strL "\n" ++ (returnsReplacement rb ++
        (strL "\n\n" ++ (c1CG L1 C1 L2 C2 ++ (strL "\n\n" ++
          (create_mdc_alert nb (strL "info") (some (strL "Note"))
            (mdcComponent "notes" (strL "UAlert")) ++
            (strL "\n\n" ++ (create_mdc_alert wb (strL "warning") (some (strL "Warning"))
              (mdcComponent "warnings" (strL "UAlert")) ++
              (strL "\n\n" ++ c1U5 rn rd))))))))) := by
  rw [convert_warnings,
    scanGen_append_star_free _ _ (by decide) _ _ (argsReplacement_star_free items hit),
    scanGen_append_star_free _ _ (by decide) _ _ (by decide),
    scanGen_append_star_free _ _ (by decide) _ _ (returnsReplacement_star_free rb hrb),
    scanGen_append_star_free _ _ (by decide) _ _ (by decide),
    scanGen_append_star_free _ _ (by decide) _ _ (c1CG_star_free L1 C1 L2 C2 hL1 hC1 hL2 hC2),
    scanGen_append_star_free _ _ (by decide) _ _ (by decide),
    scanGen_append_star_free _ _ (by decide) _ _ (alertNotes_star_free nb hnb),
    scanGen_append_star_free _ _ (by decide) _ _ (by decide), c1U4]
  have hthd : tryHeads [strL "**Warnings**:", strL "**Warning**:"] tryWarningsFn
      (strL "**Warnings**:" ++ (strL "\n\n" ++ (wb ++ (strL "\n\n" ++ c1U5 rn rd)))) =
      some (create_mdc_alert wb (strL "warning") (some (strL "Warning"))
        (mdcComponent "warnings" (strL "UAlert")), strL "\n\n" ++ c1U5 rn rd) := by
    rw [tryHeads, if_pos (isPrefixOf_append_self _ _), List.drop_left,
      tryWarningsFn_c1 _ wb rn rd hwbW]
  rw [scanGen_some _ _ tryWarningsFn_length
      (by intro hd hm; simp at hm; rcases hm with rfl | rfl <;> decide)
      _ _ _ hthd (List.cons_ne_nil _ _),
    scanGen_id_of_noOcc _ _ _ (by
      intro hd hm
      simp at hm
      rcases hm with rfl | rfl <;>
      · refine noOcc_append_left _ _ _ (noOcc_of_hasSubB _ _ (by decide)) ?_ '\n'
          (by decide) (by decide)
        exact noOcc_c1U5 _ rn rd (c1PatOK_of _ (by decide)) hrn hrd
          (noOcc_of_hasSubB _ _ (by decide)))]

theorem c1RB_no_nl (rn rd : List Char) (hrn : ∀ c ∈ rn, isLowerA c = true)
    (hrd : ∀ c ∈ rd, isLowerA c = true) : ∀ c ∈ c1RB rn rd, c ≠ '\n' := by
  intro c hc
  rw [c1RB] at hc
  simp only [List.mem_append] at hc
  rcases hc with h | h | h | h
  · exact fun he => by subst he; exact absurd h (by decide)
  · exact lower_ne c '\n' (hrn c h) (by decide)
  · exact fun he => by subst he; exact absurd h (by decide)
  · exact lower_ne c '\n' (hrd c h) (by decide)

theorem pyStrip_c1RB (rn rd : List Char) (hrdW : safeW rd = true) :
    pyStrip (c1RB rn rd) = c1RB rn rd := by
  obtain ⟨hrdne, -, hl, -⟩ := safeBody_spec rd (safeW_safeBody rd hrdW)
  apply pyStrip_eq_self _ (by rfl)
  rw [c1RB,
    List.getLast?_append_of_ne_nil _
      (append_ne_nil_right rn _ (show strL "`: " ++ rd ≠ [] from List.cons_ne_nil _ _)),
    List.getLast?_append_of_ne_nil _ (show strL "`: " ++ rd ≠ [] from List.cons_ne_nil _ _),
    List.getLast?_append_of_ne_nil _ hrdne]
  exact hl

theorem tryRaisesFn_c1 (rn rd : List Char) (hrnW : safeW rn = true) (hrdW : safeW rd = true) :
    tryRaisesFn (strL "**Raises**:") (strL "\n\n" ++ c1RB rn rd) =
      some (raisesReplacement [(rn, rd)], []) := by
  obtain ⟨hrnne, hrnlow⟩ := safeW_spec rn hrnW
  obtain ⟨hrdne, hrdlow⟩ := safeW_spec rd hrdW
  have hlz : lazyBody (c1RB rn rd) = (c1RB rn rd, []) :=
    lazyBody_no_nl _ (c1RB_no_nl rn rd hrnlow hrdlow)
  simp only [tryRaisesFn]
  rw [sectionMatch_mid _ (by rfl), hlz]
  show (if pyStrip (c1RB rn rd) = [] then
      some (strL "**Raises**:" ++ strL "\n\n" ++ c1RB rn rd, ([] : List Char))
    else if findRaiseItems (pyStrip (c1RB rn rd)) = [] then
      some (strL "**Raises**:" ++ strL "\n\n" ++ c1RB rn rd, [])
    else some (raisesReplacement (findRaiseItems (pyStrip (c1RB rn rd))), [])) =
    some (raisesReplacement [(rn, rd)], [])
  rw [pyStrip_c1RB rn rd hrdW,
    if_neg (show ¬(c1RB rn rd = []) from List.cons_ne_nil _ _),
    show findRaiseItems (c1RB rn rd) = [(rn, rd)] from
      findRaiseItems_single _ _ (tryRaiseItem_compute rn rd hrnne
        (fun c hc => by simp [lower_ne c '`' (hrnlow c hc) (by decide)]) hrdne
        (fun c hc => by simp [lower_ne c '\n' (hrdlow c hc) (by decide)]))
      (List.cons_ne_nil _ _),
    if_neg (by simp)]

theorem c1_stage6 (items : List (List Char × List Char)) (rb L1 C1 L2 C2 nb wb rn rd : List Char)
    (hit : ∀ it ∈ items, safeW it.1 = true ∧ safeW it.2 = true)
    (hrb : ∀ c ∈ rb, isLowerA c = true)
    (hL1 : safeW L1 = true) (hC1 : safeW C1 = true)
    (hL2 : safeW L2 = true) (hC2 : safeW C2 = true)
    (hnb : ∀ c ∈ nb, isLowerA c = true) (hwb : ∀ c ∈ wb, isLowerA c = true)
    (hrnW : safeW rn = true) (hrdW : safeW rd = true) :
    convert_raises (argsReplacement items ++ (strL "\n" ++ (returnsReplacement rb ++
        (strL "\n\n" ++ (c1CG L1 C1 L2 C2 ++ (strL "\n\n" ++
          (create_mdc_alert nb (strL "info") (some (strL "Note"))
            (mdcComponent "notes" (strL "UAlert")) ++
            (strL "\n\n" ++ (create_mdc_alert wb (strL "warning") (some (strL "Warning"))
              (mdcComponent "warnings" (strL "UAlert")) ++
              (strL "\n\n" ++ c1U5 rn rd)))))))))) =
      argsReplacement items ++ (strL "\n" ++ (returnsReplacement rb ++
        (strL "\n\n" ++ (c1CG L1 C1 L2 C2 ++ (strL "\n\n" ++
          (create_mdc_alert nb (strL "info") (some (strL "Note"))
            (mdcComponent "notes" (strL "UAlert")) ++
            (strL "\n\n" ++ (create_mdc_alert wb (strL "warning") (some (strL "Warning"))
              (mdcComponent "warnings" (strL "UAlert")) ++
              (strL "\n\n" ++ raisesReplacement [(rn, rd)]))))))))) := by
  rw [convert_raises,
    scanGen_append_star_free _ _ (by decide) _ _ (argsReplacement_star_free items hit),
    scanGen_append_star_free _ _ (by decide) _ _ (by decide),
    scanGen_append_star_free _ _ (by decide) _ _ (returnsReplacement_star_free rb hrb),
    scanGen_append_star_free _ _ (by decide) _ _ (by decide),
    scanGen_append_star_free _ _ (by decide) _ _ (c1CG_star_free L1 C1 L2 C2 hL1 hC1 hL2 hC2),
    scanGen_append_star_free _ _ (by decide) _ _ (by decide),
    scanGen_append_star_free _ _ (by decide) _ _ (alertNotes_star_free nb hnb),
    scanGen_append_star_free _ _ (by decide) _ _ (by decide),
    scanGen_append_star_free _ _ (by decide) _ _ (alertWarnings_star_free wb hwb),
    scanGen_append_star_free _ _ (by decide) _ _ (by decide), c1U5]
  have hthd : tryHeads [strL "**Raises**:"] tryRaisesFn
      (strL "**Raises**:" ++ (strL "\n\n" ++ c1RB rn rd)) =
      some (raisesReplacement [(rn, rd)], []) := by
    rw [tryHeads, if_pos (isPrefixOf_append_self _ _), List.drop_left,
      tryRaisesFn_c1 rn rd hrnW hrdW]
  rw [scanGen_some _ _ tryRaisesFn_length (by intro hd hm; simp at hm; rw [hm]; decide)
      _ _ _ hthd (List.cons_ne_nil _ _),
    show scanGen [strL "**Raises**:"] tryRaisesFn [] = [] from rfl, List.append_nil]

theorem argsReplacement_bt_free (items : List (List Char × List Char))
    (hit : ∀ it ∈ items, safeW it.1 = true ∧ safeW it.2 = true) :
    ∀ c ∈ argsReplacement items, c ≠ '`' := by
  intro c hc
  rcases mem_argsReplacement c items hc with h | ⟨it, hmem, h | h⟩
  · exact fun he => by subst he; exact absurd h (by decide)
  · exact lower_ne c '`' ((safeW_spec it.1 (hit it hmem).1).2 c h) (by decide)
  · exact lower_ne c '`' ((safeW_spec it.2 (hit it hmem).2).2 c h) (by decide)

theorem returnsReplacement_bt_free (rb : List Char) (hrb : ∀ c ∈ rb, isLowerA c = true) :
    ∀ c ∈ returnsReplacement rb, c ≠ '`' := by
  intro c hc
  rw [returnsReplacement_eq] at hc
  simp only [List.append_assoc, List.mem_append] at hc
  rcases hc with h | h | h
  · exact fun he => by subst he; exact absurd h (by decide)
  · exact lower_ne c '`' (hrb c h) (by decide)
  · exact fun he => by subst he; exact absurd h (by decide)

theorem alertNotes_bt_free (nb : List Char) (hnb : ∀ c ∈ nb, isLowerA c = true) :
    ∀ c ∈ create_mdc_alert nb (strL "info") (some (strL "Note"))
      (mdcComponent "notes" (strL "UAlert")), c ≠ '`' := by
  intro c hc
  rw [alert_notes_eq] at hc
  simp only [List.mem_append] at hc
  rcases hc with h | h | h
  · exact fun he => by subst he; exact absurd h (by decide)
  · exact lower_ne c '`' (hnb c h) (by decide)
  · exact fun he => by subst he; exact absurd h (by decide)

theorem alertWarnings_bt_free (wb : List Char) (hwb : ∀ c ∈ wb, isLowerA c = true) :
    ∀ c ∈ create_mdc_alert wb (strL "warning") (some (strL "Warning"))
      (mdcComponent "warnings" (strL "UAlert")), c ≠ '`' := by
  intro c hc
  rw [alert_warnings_eq] at hc
  simp only [List.mem_append] at hc
  rcases hc with h | h | h
  · exact fun he => by subst he; exact absurd h (by decide)
  · exact lower_ne c '`' (hwb c h) (by decide)
  · exact fun he => by subst he; exact absurd h (by decide)

theorem raisesRepl_bt_free (rn rd : List Char) (hrn : ∀ c ∈ rn, isLowerA c = true)
    (hrd : ∀ c ∈ rd, isLowerA c = true) :
    ∀ c ∈ raisesReplacement [(rn, rd)], c ≠ '`' := by
  intro c hc
  rw [raisesReplacement_single] at hc
  simp only [List.mem_append] at hc
  rcases hc with h | h | h | h | h
  · exact fun he => by subst he; exact absurd h (by decide)
  · exact lower_ne c '`' (hrn c h) (by decide)
  · exact fun he => by subst he; exact absurd h (by decide)
  · exact lower_ne c '`' (hrd c (mem_pyStrip c rd h)) (by decide)
  · exact fun he => by subst he; exact absurd h (by decide)

theorem nl3_false_head (c : Char) (u : List Char) (hc : c ≠ '\n') :
    (strL "\n```").isPrefixOf (c :: u) = false :=
  isPrefixOf_false_head '\n' c _ u (fun he => hc he.symm)

theorem nl3_false_second (x : Char) (u : List Char) (hx : x ≠ '`') :
    (strL "\n```").isPrefixOf ('\n' :: (x :: u)) = false := by
  show (('\n' :: strL "```").isPrefixOf ('\n' :: (x :: u))) = false
  rw [isPrefixOf_cons_step]
  exact isPrefixOf_false_head '`' x _ u (fun he => hx he.symm)

theorem lazyUntilFence_append (code tail g r : List Char)
    (h : ∀ b, b <:+ code → b ≠ [] → (strL "\n```").isPrefixOf (b ++ tail) = false)
    (htail : lazyUntilFence tail = some (g, r)) :
    lazyUntilFence (code ++ tail) = some (code ++ g, r) := by
  induction code with
  | nil => simpa using htail
  | cons c cs ih =>
    rw [List.cons_append, lazyUntilFence,
      if_neg (by
        rw [show (strL "\n```").isPrefixOf (c :: (cs ++ tail)) = false from
          h (c :: cs) (List.suffix_refl _) (List.cons_ne_nil _ _)]
        simp),
      ih (fun b hb hbne => h b (hb.trans (List.suffix_cons c cs)) hbne)]
    rfl

theorem tryBlock_compute2 (code rest : List Char)
    (h : ∀ b, b <:+ code → b ≠ [] →
      (strL "\n```").isPrefixOf (b ++ (strL "\n```" ++ rest)) = false) :
    tryBlock (strL "```" ++ (strL "\n" ++ (code ++ (strL "\n```" ++ rest)))) =
      some (([], code), rest) := by
  have htail : lazyUntilFence (strL "\n```" ++ rest) = some ([], rest) := by
    show lazyUntilFence ('\n' :: (strL "```" ++ rest)) = some ([], rest)
    rw [lazyUntilFence,
      if_pos (show (strL "\n```").isPrefixOf ('\n' :: (strL "```" ++ rest)) = true from
        isPrefixOf_append_self (strL "\n```") rest)]
    rfl
  simp only [tryBlock]
  rw [if_pos (isPrefixOf_append_self _ _),
    show (strL "```" ++ (strL "\n" ++ (code ++ (strL "\n```" ++ rest)))).drop 3 =
      strL "\n" ++ (code ++ (strL "\n```" ++ rest)) from rfl,
    show (strL "\n" ++ (code ++ (strL "\n```" ++ rest))).takeWhile isWordChar = [] from
      List.takeWhile_cons_of_neg (by decide),
    show (strL "\n" ++ (code ++ (strL "\n```" ++ rest))).dropWhile isWordChar =
      strL "\n" ++ (code ++ (strL "\n```" ++ rest)) from
      List.dropWhile_cons_of_neg (by decide),
    if_pos (show (strL "\n" ++ (code ++ (strL "\n```" ++ rest))).head? = some '\n' from rfl),
    show (strL "\n" ++ (code ++ (strL "\n```" ++ rest))).drop 1 =
      code ++ (strL "\n```" ++ rest) from rfl,
    lazyUntilFence_append code _ [] rest h htail]
  simp

theorem code2_suffix_ok (L2 C2 tail : List Char)
    (hL2 : ∀ c ∈ L2, isLowerA c = true) (hC2W : safeW C2 = true) :
    ∀ b, b <:+ strL "```" ++ (L2 ++ (strL " [" ++ (L2 ++ (strL "]\n" ++ C2)))) → b ≠ [] →
      (strL "\n```").isPrefixOf (b ++ tail) = false := by
  obtain ⟨hC2ne, hC2low⟩ := safeW_spec C2 hC2W
  obtain ⟨x2, xs2, rfl⟩ := List.exists_cons_of_ne_nil hC2ne
  intro b hb hbne
  rcases suffix_append_cases b (strL "```") _ hb with hb1 | ⟨a2, ha2, hane, rfl⟩
  · rcases suffix_append_cases b L2 _ hb1 with hb2 | ⟨a2, ha2, hane, rfl⟩
    · rcases suffix_append_cases b (strL " [") _ hb2 with hb3 | ⟨a2, ha2, hane, rfl⟩
      · rcases suffix_append_cases b L2 _ hb3 with hb4 | ⟨a2, ha2, hane, rfl⟩
        · rcases suffix_append_cases b (strL "]\n") _ hb4 with hb5 | ⟨a2, ha2, hane, rfl⟩
          · obtain ⟨c, cs, rfl⟩ := List.exists_cons_of_ne_nil hbne
            exact nl3_false_head c _
              (lower_ne c '\n' (hC2low c (suffix_head_mem c cs _ hb5)) (by decide))
          · have hmem := (List.mem_tails _ _).mpr ha2
            fin_cases hmem
            · exact nl3_false_head ']' _ (by decide)
            · exact nl3_false_second x2 _ (lower_ne x2 '`' (hC2low x2 (by simp)) (by decide))
            · exact absurd rfl hane
        · obtain ⟨c, cs, rfl⟩ := List.exists_cons_of_ne_nil hane
          exact nl3_false_head c _
            (lower_ne c '\n' (hL2 c (suffix_head_mem c cs _ ha2)) (by decide))
      · have hmem := (List.mem_tails _ _).mpr ha2
        fin_cases hmem
        · exact nl3_false_head ' ' _ (by decide)
        · exact nl3_false_head '[' _ (by decide)
        · exact absurd rfl hane
    · obtain ⟨c, cs, rfl⟩ := List.exists_cons_of_ne_nil hane
      exact nl3_false_head c _
        (lower_ne c '\n' (hL2 c (suffix_head_mem c cs _ ha2)) (by decide))
  · have hmem := (List.mem_tails _ _).mpr ha2
    fin_cases hmem
    · exact nl3_false_head '`' _ (by decide)
    · exact nl3_false_head '`' _ (by decide)
    · exact nl3_false_head '`' _ (by decide)
    · exact absurd rfl hane

theorem tryBlock_none_space (w r : List Char) (hw : ∀ c ∈ w, isWordChar c = true)
    (hr : r.head? = some ' ') : tryBlock (strL "```" ++ (w ++ r)) = none := by
  have hsw := takeWhile_append_stop isWordChar w r hw (by rw [hr]; rfl)
  simp only [tryBlock]
  rw [if_pos (isPrefixOf_append_self _ _),
    show (strL "```" ++ (w ++ r)).drop 3 = w ++ r from rfl, hsw.2,
    if_neg (by rw [hr]; simp)]

theorem tryBlock_none_2bt (c : Char) (cs : List Char) (hc : c ≠ '`') :
    tryBlock ('`' :: ('`' :: (c :: cs))) = none := by
  have h2 : (strL "```").isPrefixOf ('`' :: ('`' :: (c :: cs))) = false := by
    show (('`' :: ('`' :: ('`' :: []))).isPrefixOf ('`' :: ('`' :: (c :: cs)))) = false
    rw [isPrefixOf_cons_step, isPrefixOf_cons_step]
    exact isPrefixOf_false_head '`' c [] cs (fun he => hc he.symm)
  rw [tryBlock, if_neg (by rw [h2]; simp)]

theorem tryBlock_none_1bt (c : Char) (cs : List Char) (hc : c ≠ '`') :
    tryBlock ('`' :: (c :: cs)) = none := by
  have h2 : (strL "```").isPrefixOf ('`' :: (c :: cs)) = false := by
    show (('`' :: ('`' :: ('`' :: []))).isPrefixOf ('`' :: (c :: cs))) = false
    rw [isPrefixOf_cons_step]
    exact isPrefixOf_false_head '`' c _ cs (fun he => hc he.symm)
  rw [tryBlock, if_neg (by rw [h2]; simp)]

theorem findBlocks_cons_skip (c : Char) (cs : List Char) (b : FencedBlock)
    (bs : List FencedBlock) (tail : List Char) (hnone : tryBlock (c :: cs) = none)
    (h : findBlocks cs = (b :: bs, tail)) :
    findBlocks (c :: cs) = (⟨c :: b.gap, b.lang, b.code⟩ :: bs, tail) := by
  rw [findBlocks_cons_none c cs hnone, h]

/-- Everything after the spanning fenced-block match of the final text. -/
def c1REST (nb wb rn rd : List Char) : List Char :=
  strL "\n::" ++ (strL "\n\n" ++ (create_mdc_alert nb (strL "info") (some (strL "Note"))
    (mdcComponent "notes" (strL "UAlert")) ++ (strL "\n\n" ++
      (create_mdc_alert wb (strL "warning") (some (strL "Warning"))
        (mdcComponent "warnings" (strL "UAlert")) ++
        (strL "\n\n" ++ raisesReplacement [(rn, rd)])))))

/-- The code group of the spanning fenced-block match of the final text. -/
def c1CODE2 (L2 C2 : List Char) : List Char :=
  strL "```" ++ (L2 ++ (strL " [" ++ (L2 ++ (strL "]\n" ++ C2))))

/-- The final text from the spanning match on. -/
def c1TA (L2 C2 nb wb rn rd : List Char) : List Char :=
  strL "```" ++ (strL "\n" ++ (c1CODE2 L2 C2 ++ (strL "\n```" ++ c1REST nb wb rn rd)))

/-- The final output of the docstring pipeline on the structured family. -/
def c1OUT (items : List (List Char × List Char)) (rb L1 C1 L2 C2 nb wb rn rd : List Char) :
    List Char :=
  argsReplacement items ++ (strL "\n" ++ (returnsReplacement rb ++
    (strL "\n\n" ++ (c1CG L1 C1 L2 C2 ++ (strL "\n\n" ++
      (create_mdc_alert nb (strL "info") (some (strL "Note"))
        (mdcComponent "notes" (strL "UAlert")) ++
        (strL "\n\n" ++ (create_mdc_alert wb (strL "warning") (some (strL "Warning"))
          (mdcComponent "warnings" (strL "UAlert")) ++
          (strL "\n\n" ++ raisesReplacement [(rn, rd)])))))))))

theorem c1OUT_regroup (items : List (List Char × List Char))
    (rb L1 C1 L2 C2 nb wb rn rd : List Char)
    (hL1 : safeW L1 = true) (hC1 : safeW C1 = true)
    (hL2 : safeW L2 = true) (hC2 : safeW C2 = true) :
    c1OUT items rb L1 C1 L2 C2 nb wb rn rd =
      (argsReplacement items ++ (strL "\n" ++ (returnsReplacement rb ++ strL "\n\n"))) ++
        (strL "::u-code-group\n" ++ (strL "```" ++ (L1 ++ (strL " [" ++ (L1 ++
          (strL "]\n" ++ (C1 ++ (strL "\n" ++ c1TA L2 C2 nb wb rn rd)))))))) := by
  rw [c1OUT, c1CG_eq L1 C1 L2 C2 hL1 hC1 hL2 hC2]
  simp only [c1TA, c1CODE2, c1REST, List.append_assoc]
  rfl

theorem c1REST_bt_free (nb wb rn rd : List Char)
    (hnb : ∀ c ∈ nb, isLowerA c = true) (hwb : ∀ c ∈ wb, isLowerA c = true)
    (hrn : ∀ c ∈ rn, isLowerA c = true) (hrd : ∀ c ∈ rd, isLowerA c = true) :
    ∀ c ∈ c1REST nb wb rn rd, c ≠ '`' := by
  intro c hc
  rw [c1REST] at hc
  simp only [List.mem_append] at hc
  rcases hc with h | h | h | h | h | h | h
  · exact fun he => by subst he; exact absurd h (by decide)
  · exact fun he => by subst he; exact absurd h (by decide)
  · exact alertNotes_bt_free nb hnb c h
  · exact fun he => by subst he; exact absurd h (by decide)
  · exact alertWarnings_bt_free wb hwb c h
  · exact fun he => by subst he; exact absurd h (by decide)
  · exact raisesRepl_bt_free rn rd hrn hrd c h

theorem c1P_bt_free (items : List (List Char × List Char)) (rb : List Char)
    (hit : ∀ it ∈ items, safeW it.1 = true ∧ safeW it.2 = true)
    (hrb : ∀ c ∈ rb, isLowerA c = true) :
    ∀ c ∈ argsReplacement items ++ (strL "\n" ++ (returnsReplacement rb ++ strL "\n\n")),
      c ≠ '`' := by
  intro c hc
  simp only [List.mem_append] at hc
  rcases hc with h | h | h | h
  · exact argsReplacement_bt_free items hit c h
  · exact fun he => by subst he; exact absurd h (by decide)
  · exact returnsReplacement_bt_free rb hrb c h
  · exact fun he => by subst he; exact absurd h (by decide)

theorem findBlocks_one_gap (pre t : List Char) (hpre : ∀ c ∈ pre, c ≠ '`')
    (h : ∃ b tail, findBlocks t = ([b], tail)) :
    ∃ b tail, findBlocks (pre ++ t) = ([b], tail) := by
  obtain ⟨b, tail, hb⟩ := h
  exact ⟨_, tail, findBlocks_append_gap pre t hpre b [] tail hb⟩

theorem findBlocks_one_cons (c : Char) (cs : List Char) (hnone : tryBlock (c :: cs) = none)
    (h : ∃ b tail, findBlocks cs = ([b], tail)) :
    ∃ b tail, findBlocks (c :: cs) = ([b], tail) := by
  obtain ⟨b, tail, hb⟩ := h
  exact ⟨_, tail, findBlocks_cons_skip c cs b [] tail hnone hb⟩

theorem c1_findBlocks_one (items : List (List Char × List Char))
    (rb L1 C1 L2 C2 nb wb rn rd : List Char)
    (hit : ∀ it ∈ items, safeW it.1 = true ∧ safeW it.2 = true)
    (hrb : ∀ c ∈ rb, isLowerA c = true)
    (hL1 : safeW L1 = true) (hC1 : safeW C1 = true)
    (hL2 : safeW L2 = true) (hC2 : safeW C2 = true)
    (hnb : ∀ c ∈ nb, isLowerA c = true) (hwb : ∀ c ∈ wb, isLowerA c = true)
    (hrn : ∀ c ∈ rn, isLowerA c = true) (hrd : ∀ c ∈ rd, isLowerA c = true) :
    ∃ b tail, findBlocks (c1OUT items rb L1 C1 L2 C2 nb wb rn rd) = ([b], tail) := by
  obtain ⟨hL1ne, hL1low⟩ := safeW_spec L1 hL1
  obtain ⟨hC1ne, hC1low⟩ := safeW_spec C1 hC1
  obtain ⟨hL2ne, hL2low⟩ := safeW_spec L2 hL2
  obtain ⟨y1, ys1, rfl⟩ := List.exists_cons_of_ne_nil hL1ne
  have hL1blow : ∀ c ∈ y1 :: ys1, c ≠ '`' :=
    fun c hc => lower_ne c '`' (hL1low c hc) (by decide)
  have hC1blow : ∀ c ∈ C1, c ≠ '`' :=
    fun c hc => lower_ne c '`' ((safeW_spec C1 hC1).2 c hc) (by decide)
  have h0 : findBlocks (c1REST nb wb rn rd) = ([], c1REST nb wb rn rd) :=
    findBlocksF_nofence _ _ (c1REST_bt_free nb wb rn rd hnb hwb hrn hrd)
  have h1 : ∃ b tail, findBlocks (c1TA L2 C2 nb wb rn rd) = ([b], tail) := by
    refine ⟨⟨[], [], c1CODE2 L2 C2⟩, c1REST nb wb rn rd, ?_⟩
    rw [c1TA,
      findBlocks_some (strL "```" ++ (strL "\n" ++ (c1CODE2 L2 C2 ++
          (strL "\n```" ++ c1REST nb wb rn rd)))) [] (c1CODE2 L2 C2) (c1REST nb wb rn rd)
        (tryBlock_compute2 _ _ (fun b hb hbne =>
          code2_suffix_ok L2 C2 _ hL2low hC2 b (by rwa [c1CODE2] at hb) hbne))
        (List.cons_ne_nil _ _),
      h0]
  have h2 : ∃ b tail, findBlocks (strL "\n" ++ c1TA L2 C2 nb wb rn rd) = ([b], tail) :=
    findBlocks_one_gap _ _ (by decide) h1
  have h3 : ∃ b tail, findBlocks (C1 ++ (strL "\n" ++ c1TA L2 C2 nb wb rn rd)) =
      ([b], tail) :=
    findBlocks_one_gap _ _ hC1blow h2
  have h4 : ∃ b tail, findBlocks (strL "]\n" ++ (C1 ++ (strL "\n" ++
      c1TA L2 C2 nb wb rn rd))) = ([b], tail) :=
    findBlocks_one_gap _ _ (by decide) h3
  have h5 : ∃ b tail, findBlocks ((y1 :: ys1) ++ (strL "]\n" ++ (C1 ++
      (strL "\n" ++ c1TA L2 C2 nb wb rn rd)))) = ([b], tail) :=
    findBlocks_one_gap _ _ hL1blow h4
  have h6 : ∃ b tail, findBlocks (strL " [" ++ ((y1 :: ys1) ++ (strL "]\n" ++ (C1 ++
      (strL "\n" ++ c1TA L2 C2 nb wb rn rd))))) = ([b], tail) :=
    findBlocks_one_gap _ _ (by decide) h5
  have h7 : ∃ b tail, findBlocks ((y1 :: ys1) ++ (strL " [" ++ ((y1 :: ys1) ++
      (strL "]\n" ++ (C1 ++ (strL "\n" ++ c1TA L2 C2 nb wb rn rd)))))) = ([b], tail) :=
    findBlocks_one_gap _ _ hL1blow h6
  have h8 : ∃ b tail, findBlocks ('`' :: ((y1 :: ys1) ++ (strL " [" ++ ((y1 :: ys1) ++
      (strL "]\n" ++ (C1 ++ (strL "\n" ++ c1TA L2 C2 nb wb rn rd))))))) = ([b], tail) :=
    findBlocks_one_cons _ _
      (tryBlock_none_1bt y1 _ (lower_ne y1 '`' (hL1low y1 (by simp)) (by decide))) h7
  have h9 : ∃ b tail, findBlocks ('`' :: ('`' :: ((y1 :: ys1) ++ (strL " [" ++
      ((y1 :: ys1) ++ (strL "]\n" ++ (C1 ++ (strL "\n" ++
        c1TA L2 C2 nb wb rn rd)))))))) = ([b], tail) :=
    findBlocks_one_cons _ _
      (tryBlock_none_2bt y1 _ (lower_ne y1 '`' (hL1low y1 (by simp)) (by decide))) h8
  have h10 : ∃ b tail, findBlocks (strL "```" ++ ((y1 :: ys1) ++ (strL " [" ++
      ((y1 :: ys1) ++ (strL "]\n" ++ (C1 ++ (strL "\n" ++
        c1TA L2 C2 nb wb rn rd))))))) = ([b], tail) :=
    findBlocks_one_cons '`' _
      (show tryBlock ('`' :: ('`' :: ('`' :: ((y1 :: ys1) ++ (strL " [" ++ ((y1 :: ys1) ++
          (strL "]\n" ++ (C1 ++ (strL "\n" ++ c1TA L2 C2 nb wb rn rd))))))))) = none from
        tryBlock_none_space (y1 :: ys1) _
          (fun c hc => lower_isWordChar c (hL1low c hc)) rfl) h9
  have h11 : ∃ b tail, findBlocks (strL "::u-code-group\n" ++ (strL "```" ++
      ((y1 :: ys1) ++ (strL " [" ++ ((y1 :: ys1) ++ (strL "]\n" ++ (C1 ++
        (strL "\n" ++ c1TA L2 C2 nb wb rn rd)))))))) = ([b], tail) :=
    findBlocks_one_gap _ _ (by decide) h10
  rw [c1OUT_regroup items rb (y1 :: ys1) C1 L2 C2 nb wb rn rd hL1 hC1 hL2 hC2]
  exact findBlocks_one_gap _ _ (c1P_bt_free items rb hit hrb) h11

theorem c1_stage7 (items : List (List Char × List Char))
    (rb L1 C1 L2 C2 nb wb rn rd : List Char)
    (hit : ∀ it ∈ items, safeW it.1 = true ∧ safeW it.2 = true)
    (hrb : ∀ c ∈ rb, isLowerA c = true)
    (hL1 : safeW L1 = true) (hC1 : safeW C1 = true)
    (hL2 : safeW L2 = true) (hC2 : safeW C2 = true)
    (hnb : ∀ c ∈ nb, isLowerA c = true) (hwb : ∀ c ∈ wb, isLowerA c = true)
    (hrn : ∀ c ∈ rn, isLowerA c = true) (hrd : ∀ c ∈ rd, isLowerA c = true) :
    convert_code_blocks (c1OUT items rb L1 C1 L2 C2 nb wb rn rd) =
      c1OUT items rb L1 C1 L2 C2 nb wb rn rd := by
  apply convert_code_blocks_id
  obtain ⟨b, tail, hfb⟩ :=
    c1_findBlocks_one items rb L1 C1 L2 C2 nb wb rn rd hit hrb hL1 hC1 hL2 hC2 hnb hwb hrn hrd
  rw [hfb]
  simp

theorem lower_not_mem (z : Char) (hz : isLowerA z = true) (l : List Char)
    (hl : ∀ d ∈ l, isLowerA d = false) : z ∉ l := fun hmem => by
  rw [hl z hmem] at hz
  exact Bool.noConfusion hz

theorem c1_noOcc_sstar (items : List (List Char × List Char))
    (rb L1 C1 L2 C2 nb wb rn rd : List Char)
    (hit : ∀ it ∈ items, safeW it.1 = true ∧ safeW it.2 = true)
    (hrb : ∀ c ∈ rb, isLowerA c = true)
    (hL1 : safeW L1 = true) (hC1 : safeW C1 = true)
    (hL2 : safeW L2 = true) (hC2 : safeW C2 = true)
    (hnb : ∀ c ∈ nb, isLowerA c = true) (hwb : ∀ c ∈ wb, isLowerA c = true)
    (hrnW : safeW rn = true) (hrd : ∀ c ∈ rd, isLowerA c = true)
    (hlast : rn.getLast? ≠ some 's') :
    NoOcc (strL "s**:") (c1OUT items rb L1 C1 L2 C2 nb wb rn rd) := by
  obtain ⟨hrnne, hrnlow⟩ := safeW_spec rn hrnW
  obtain ⟨z, zs, rfl⟩ := List.exists_cons_of_ne_nil hrnne
  have hraises : NoOcc (strL "s**:") (raisesReplacement [(z :: zs, rd)]) := by
    rw [raisesReplacement_single]
    refine noOcc_append_right _ _ _ (noOcc_of_hasSubB _ _ (by decide)) ?_ z rfl
      (lower_not_mem z (hrnlow z (by simp)) _ (by decide))
    refine noOcc_append_left _ _ _
      (noOcc_of_star_free _ _ (by decide) (lower_star_free _ hrnlow)) ?_
      ((z :: zs).getLast (by simp))
      (List.getLast?_eq_getLast _ _) ?_
    · refine noOcc_append_left _ _ _ (noOcc_of_hasSubB _ _ (by decide)) ?_ ' '
        (by decide) (by decide)
      refine noOcc_append_right _ _ _
        (noOcc_of_star_free _ _ (by decide)
          (fun c hc => lower_ne c '*' (hrd c (mem_pyStrip c rd hc)) (by decide))) ?_ '\n'
        rfl (by decide)
      exact noOcc_of_hasSubB _ _ (by decide)
    · intro hmem
      rw [show (strL "s**:").dropLast = ['s', '*', '*'] from rfl] at hmem
      simp only [List.mem_cons, List.not_mem_nil, or_false] at hmem
      have hgl : (z :: zs).getLast (by simp) ∈ z :: zs := List.getLast_mem _
      rcases hmem with h1 | h1 | h1
      · apply hlast
        rw [List.getLast?_eq_getLast _ (by simp), h1]
      · exact absurd (hrnlow _ hgl) (by rw [h1]; decide)
      · exact absurd (hrnlow _ hgl) (by rw [h1]; decide)
  rw [c1OUT]
  refine noOcc_append_right _ _ _
    (noOcc_of_star_free _ _ (by decide) (argsReplacement_star_free items hit)) ?_ '\n' rfl
    (by decide)
  refine noOcc_append_left _ _ _ (noOcc_of_hasSubB _ _ (by decide)) ?_ '\n'
    (by decide) (by decide)
  refine noOcc_append_right _ _ _
    (noOcc_of_star_free _ _ (by decide) (returnsReplacement_star_free rb hrb)) ?_ '\n' rfl
    (by decide)
  refine noOcc_append_left _ _ _ (noOcc_of_hasSubB _ _ (by decide)) ?_ '\n'
    (by decide) (by decide)
  refine noOcc_append_right _ _ _
    (noOcc_of_star_free _ _ (by decide) (c1CG_star_free L1 C1 L2 C2 hL1 hC1 hL2 hC2)) ?_ '\n'
    rfl (by decide)
  refine noOcc_append_left _ _ _ (noOcc_of_hasSubB _ _ (by decide)) ?_ '\n'
    (by decide) (by decide)
  refine noOcc_append_right _ _ _
    (noOcc_of_star_free _ _ (by decide) (alertNotes_star_free nb hnb)) ?_ '\n' rfl
    (by decide)
  refine noOcc_append_left _ _ _ (noOcc_of_hasSubB _ _ (by decide)) ?_ '\n'
    (by decide) (by decide)
  refine noOcc_append_right _ _ _
    (noOcc_of_star_free _ _ (by decide) (alertWarnings_star_free wb hwb)) ?_ '\n' rfl
    (by decide)
  refine noOcc_append_left _ _ _ (noOcc_of_hasSubB _ _ (by decide)) ?_ '\n'
    (by decide) (by decide)
  exact hraises

theorem c1_pipeline (items : List (List Char × List Char))
    (rb L1 C1 L2 C2 nb wb rn rd : List Char)
    (h : c1OK items rb L1 C1 L2 C2 nb wb rn rd) :
    process_docstring_for_mdc (c1Doc items rb L1 C1 L2 C2 nb wb rn rd) =
      c1OUT items rb L1 C1 L2 C2 nb wb rn rd := by
  obtain ⟨hne, hit, hrbW, hL1, hC1, hL2, hC2, hnbW, hwbW, hrnW, hrdW, hlast⟩ := h
  have hrb := (safeW_spec rb hrbW).2
  have hL1l := (safeW_spec L1 hL1).2
  have hC1l := (safeW_spec C1 hC1).2
  have hL2l := (safeW_spec L2 hL2).2
  have hC2l := (safeW_spec C2 hC2).2
  have hnb := (safeW_spec nb hnbW).2
  have hwb := (safeW_spec wb hwbW).2
  have hrn := (safeW_spec rn hrnW).2
  have hrd := (safeW_spec rd hrdW).2
  rw [process_docstring_for_mdc,
    c1_stage1 items rb L1 C1 L2 C2 nb wb rn rd hne hit hrb hL1l hC1l hL2l hC2l hnb hwb hrn hrd,
    c1_stage2 items rb L1 C1 L2 C2 nb wb rn rd hit hrbW hL1l hC1l hL2l hC2l hnb hwb hrn hrd,
    c1_stage3 items rb L1 C1 L2 C2 nb wb rn rd hit hrb hL1l hC1l hL2l hC2l hnb hwb hrn hrd,
    c1_stage4 items rb L1 C1 L2 C2 nb wb rn rd hit hrb hL1 hC1 hL2 hC2 hnbW hwb hrn hrd,
    c1_stage5 items rb L1 C1 L2 C2 nb wb rn rd hit hrb hL1 hC1 hL2 hC2 hnb hwbW hrn hrd,
    c1_stage6 items rb L1 C1 L2 C2 nb wb rn rd hit hrb hL1 hC1 hL2 hC2 hnb hwb hrnW hrdW]
  exact c1_stage7 items rb L1 C1 L2 C2 nb wb rn rd hit hrb hL1 hC1 hL2 hC2 hnb hwb hrn hrd

/-- Claim C1: on every docstring of the structured family — well-formed
Arguments bullets, a free-text Returns body, an Examples section with two
language-tagged fenced code blocks, Notes, Warnings, and a Raises item,
with safe lowercase words in every hole — the full pipeline
`_process_docstring_for_mdc` yields the expected concatenation of rendered
components; the output contains the opening markers of all five configured
components (`::u-arguments`, `::u-returns`, `::u-code-group`, `::u-alert`
for both alert sections, `::u-callout`) and none of the six literal bolded
heading markers. -/
theorem claim_C1 (items : List (List Char × List Char))
    (rb L1 C1 L2 C2 nb wb rn rd : List Char)
    (h : c1OK items rb L1 C1 L2 C2 nb wb rn rd) :
    process_docstring_for_mdc (c1Doc items rb L1 C1 L2 C2 nb wb rn rd) =
      c1OUT items rb L1 C1 L2 C2 nb wb rn rd ∧
    (strL "::u-arguments" <:+: c1OUT items rb L1 C1 L2 C2 nb wb rn rd) ∧
    (strL "::u-returns" <:+: c1OUT items rb L1 C1 L2 C2 nb wb rn rd) ∧
    (strL "::u-code-group" <:+: c1OUT items rb L1 C1 L2 C2 nb wb rn rd) ∧
    (strL "::u-alert" <:+: c1OUT items rb L1 C1 L2 C2 nb wb rn rd) ∧
    (strL "::u-callout" <:+: c1OUT items rb L1 C1 L2 C2 nb wb rn rd) ∧
    NoOcc (strL "**Arguments**:") (c1OUT items rb L1 C1 L2 C2 nb wb rn rd) ∧
    NoOcc (strL "**Returns**:") (c1OUT items rb L1 C1 L2 C2 nb wb rn rd) ∧
    NoOcc (strL "**Examples**:") (c1OUT items rb L1 C1 L2 C2 nb wb rn rd) ∧
    NoOcc (strL "**Notes**:") (c1OUT items rb L1 C1 L2 C2 nb wb rn rd) ∧
    NoOcc (strL "**Warnings**:") (c1OUT items rb L1 C1 L2 C2 nb wb rn rd) ∧
    NoOcc (strL "**Raises**:") (c1OUT items rb L1 C1 L2 C2 nb wb rn rd) := by
  obtain ⟨hne, hit, hrbW, hL1, hC1, hL2, hC2, hnbW, hwbW, hrnW, hrdW, hlast⟩ := h
  have hrb := (safeW_spec rb hrbW).2
  have hnb := (safeW_spec nb hnbW).2
  have hwb := (safeW_spec wb hwbW).2
  have hrd := (safeW_spec rd hrdW).2
  have hsstar : NoOcc (strL "s**:") (c1OUT items rb L1 C1 L2 C2 nb wb rn rd) :=
    c1_noOcc_sstar items rb L1 C1 L2 C2 nb wb rn rd hit hrb hL1 hC1 hL2 hC2 hnb hwb hrnW
      hrd hlast
  refine ⟨c1_pipeline items rb L1 C1 L2 C2 nb wb rn rd
      ⟨hne, hit, hrbW, hL1, hC1, hL2, hC2, hnbW, hwbW, hrnW, hrdW, hlast⟩,
    ?_, ?_, ?_, ?_, ?_,
    fun hocc => hsstar ((infix_of_hasSubB _ _ (by decide)).trans hocc),
    fun hocc => hsstar ((infix_of_hasSubB _ _ (by decide)).trans hocc),
    fun hocc => hsstar ((infix_of_hasSubB _ _ (by decide)).trans hocc),
    fun hocc => hsstar ((infix_of_hasSubB _ _ (by decide)).trans hocc),
    fun hocc => hsstar ((infix_of_hasSubB _ _ (by decide)).trans hocc),
    fun hocc => hsstar ((infix_of_hasSubB _ _ (by decide)).trans hocc)⟩
  · rw [c1OUT]
    apply infix_lift_left
    have hp : strL "::u-arguments" <+: argsReplacement items := by
      rw [argsReplacement_eq]
      exact (show strL "::u-arguments" <+: strL "::u-arguments" ++
        (strL "\n---\narguments:\n" ++ ((items.map argItemToMdc).flatMap itemYaml ++
          strL "---\n::")) from List.prefix_append _ _)
    exact hp.isInfix
  · rw [c1OUT]
    apply infix_lift_right
    apply infix_lift_right
    apply infix_lift_left
    have hp : strL "::u-returns" <+: returnsReplacement rb := by
      rw [returnsReplacement_eq]
      exact (show strL "::u-returns" <+: strL "::u-returns" ++
        (strL "\n" ++ (rb ++ strL "\n::")) from List.prefix_append _ _)
    exact hp.isInfix
  · rw [c1OUT]
    apply infix_lift_right
    apply infix_lift_right
    apply infix_lift_right
    apply infix_lift_right
    apply infix_lift_left
    have hp : strL "::u-code-group" <+: c1CG L1 C1 L2 C2 := by
      rw [c1CG_eq L1 C1 L2 C2 hL1 hC1 hL2 hC2]
      exact (show strL "::u-code-group" <+: strL "::u-code-group" ++
        (strL "\n```" ++ (L1 ++ (strL " [" ++ (L1 ++ (strL "]\n" ++ (C1 ++
          (strL "\n```\n```" ++ (L2 ++ (strL " [" ++ (L2 ++ (strL "]\n" ++ (C2 ++
            strL "\n```\n::")))))))))))) from List.prefix_append _ _)
    exact hp.isInfix
  · rw [c1OUT]
    apply infix_lift_right
    apply infix_lift_right
    apply infix_lift_right
    apply infix_lift_right
    apply infix_lift_right
    apply infix_lift_right
    apply infix_lift_left
    have hp : strL "::u-alert" <+: create_mdc_alert nb (strL "info") (some (strL "Note"))
        (mdcComponent "notes" (strL "UAlert")) := by
      rw [alert_notes_eq]
      exact (show strL "::u-alert" <+: strL "::u-alert" ++
        (strL "\x7btype=\"info\" title=\"Note\"\x7d\n" ++ (nb ++ strL "\n::"))
        from List.prefix_append _ _)
    exact hp.isInfix
  · rw [c1OUT]
    apply infix_lift_right
    apply infix_lift_right
    apply infix_lift_right
    apply infix_lift_right
    apply infix_lift_right
    apply infix_lift_right
    apply infix_lift_right
    apply infix_lift_right
    apply infix_lift_right
    apply infix_lift_right
    have hp : strL "::u-callout" <+: raisesReplacement [(rn, rd)] := by
      rw [raisesReplacement_single]
      exact (show strL "::u-callout" <+: strL "::u-callout" ++
        (strL "\n---\ntype: error\n---\n**" ++ (rn ++ (strL "**: " ++
          (pyStrip rd ++ strL "\n::")))) from List.prefix_append _ _)
    exact hp.isInfix

theorem claim_C1_witness :
    c1OK [(strL "alpha", strL "first")] (strL "result") (strL "py") (strL "codeone")
      (strL "sh") (strL "codetwo") (strL "notetext") (strL "warntext") (strL "valueerror")
      (strL "badinput") ∧
    (process_docstring_for_mdc (c1Doc [(strL "alpha", strL "first")] (strL "result")
        (strL "py") (strL "codeone") (strL "sh") (strL "codetwo") (strL "notetext")
        (strL "warntext") (strL "valueerror") (strL "badinput")) =
      c1OUT [(strL "alpha", strL "first")] (strL "result") (strL "py") (strL "codeone")
        (strL "sh") (strL "codetwo") (strL "notetext") (strL "warntext") (strL "valueerror")
        (strL "badinput") ∧
    (strL "::u-arguments" <:+: c1OUT [(strL "alpha", strL "first")] (strL "result")
      (strL "py") (strL "codeone") (strL "sh") (strL "codetwo") (strL "notetext")
      (strL "warntext") (strL "valueerror") (strL "badinput")) ∧
    (strL "::u-returns" <:+: c1OUT [(strL "alpha", strL "first")] (strL "result")
      (strL "py") (strL "codeone") (strL "sh") (strL "codetwo") (strL "notetext")
      (strL "warntext") (strL "valueerror") (strL "badinput")) ∧
    (strL "::u-code-group" <:+: c1OUT [(strL "alpha", strL "first")] (strL "result")
      (strL "py") (strL "codeone") (strL "sh") (strL "codetwo") (strL "notetext")
      (strL "warntext") (strL "valueerror") (strL "badinput")) ∧
    (strL "::u-alert" <:+: c1OUT [(strL "alpha", strL "first")] (strL "result")
      (strL "py") (strL "codeone") (strL "sh") (strL "codetwo") (strL "notetext")
      (strL "warntext") (strL "valueerror") (strL "badinput")) ∧
    (strL "::u-callout" <:+: c1OUT [(strL "alpha", strL "first")] (strL "result")
      (strL "py") (strL "codeone") (strL "sh") (strL "codetwo") (strL "notetext")
      (strL "warntext") (strL "valueerror") (strL "badinput")) ∧
    NoOcc (strL "**Arguments**:") (c1OUT [(strL "alpha", strL "first")] (strL "result")
      (strL "py") (strL "codeone") (strL "sh") (strL "codetwo") (strL "notetext")
      (strL "warntext") (strL "valueerror") (strL "badinput")) ∧
    NoOcc (strL "**Returns**:") (c1OUT [(strL "alpha", strL "first")] (strL "result")
      (strL "py") (strL "codeone") (strL "sh") (strL "codetwo") (strL "notetext")
      (strL "warntext") (strL "valueerror") (strL "badinput")) ∧
    NoOcc (strL "**Examples**:") (c1OUT [(strL "alpha", strL "first")] (strL "result")
      (strL "py") (strL "codeone") (strL "sh") (strL "codetwo") (strL "notetext")
      (strL "warntext") (strL "valueerror") (strL "badinput")) ∧
    NoOcc (strL "**Notes**:") (c1OUT [(strL "alpha", strL "first")] (strL "result")
      (strL "py") (strL "codeone") (strL "sh") (strL "codetwo") (strL "notetext")
      (strL "warntext") (strL "valueerror") (strL "badinput")) ∧
    NoOcc (strL "**Warnings**:") (c1OUT [(strL "alpha", strL "first")] (strL "result")
      (strL "py") (strL "codeone") (strL "sh") (strL "codetwo") (strL "notetext")
      (strL "warntext") (strL "valueerror") (strL "badinput")) ∧
    NoOcc (strL "**Raises**:") (c1OUT [(strL "alpha", strL "first")] (strL "result")
      (strL "py") (strL "codeone") (strL "sh") (strL "codetwo") (strL "notetext")
      (strL "warntext") (strL "valueerror") (strL "badinput"))) :=
  ⟨⟨by decide, by decide, by decide, by decide, by decide, by decide, by decide, by decide,
      by decide, by decide, by decide, by decide⟩,
    claim_C1 [(strL "alpha", strL "first")] (strL "result") (strL "py") (strL "codeone")
      (strL "sh") (strL "codetwo") (strL "notetext") (strL "warntext") (strL "valueerror")
      (strL "badinput")
      ⟨by decide, by decide, by decide, by decide, by decide, by decide, by decide, by decide,
        by decide, by decide, by decide, by decide⟩⟩
